import Mathlib

/-!
# StandardGB: memory bus and PPU

A shallow embedding of `src/core/memory.c` and `src/core/ppu.c` of the
StandardGB Game Boy / Game Boy Color emulator, and theorems about it.

Conventions of the embedding.

* C byte arrays (`wram`, `vram`, `oam`, `hram`, palettes, framebuffer) are total
  maps `Nat → Nat`; an array store is a point update.  Every index the code
  computes is written out in the definitions, so that it can be bounded.
* `uint8_t` / `uint16_t` values are natural numbers; a reduction modulo `2^8`
  or `2^16` is written where the C code can wrap.  Cycle counters declared
  `int` are integers.
* `Bus_t` and `Ppu_t` point at each other in C.  The embedding is the linked
  pair that `main.c` builds (`bus->ppu = ppu`, `ppu->bus = bus`), held in one
  `Machine` value together with the function-local `static` variables of
  `ppu.c` that carry state from one call to the next.
* The cartridge (`mbc.h`) and the timer unit are external collaborators; their
  read and write functions are parameters (`Ext`).
* The function-local diagnostic counters `rom_reads` (memory.c) and
  `pixels_drawn`, `pixels_skipped_priority`, `pixels_skipped_bg` (ppu.c) are
  only ever incremented; nothing reads them back, and they are not modelled.
-/

namespace StandardGB

/-! ## Data model -/

/-- A C array of bytes or words, as a total map from index to value. -/
abbrev Mem := Nat → Nat

/-- The array store `m[i] = v`. -/
def Mem.set (m : Mem) (i v : Nat) : Mem := fun j => if j = i then v else m j

/-- Modelled from the spec: the macro `GB_WIDTH` of ppu.h (not under src/), the
160 pixels of a scanline. -/
def GB_WIDTH : Nat := 160

/-- Modelled from the spec: the macro `GB_HEIGHT` of ppu.h (not under src/), the
144 visible scanlines. -/
def GB_HEIGHT : Nat := 144

/-- Modelled from the spec: the macro `LCDC_ENABLE` of ppu.h (not under src/):
bit 7 of LCDC, the bit `write_byte_bus` tests for the LCD on/off transitions. -/
def LCDC_ENABLE : Nat := 0x80

/-- The external collaborators of the bus: the cartridge functions of mbc.h
(called with the possibly null `bus->cartridge`) and the timer unit. -/
structure Ext (κ τ : Type) where
  /-- Models `cart_read(bus->cartridge, addr)`. -/
  cart_read : Option κ → Nat → Nat
  /-- Models `cart_write(cartridge, addr, val)` on a non-null cartridge. -/
  cart_write : κ → Nat → Nat → κ
  /-- Models `timers_read(&bus->timers, addr)`. -/
  timers_read : τ → Nat → Nat
  /-- Models `timers_write(&bus->timers, addr, val)`. -/
  timers_write : τ → Nat → Nat → τ
  /-- Models the flag `cartridge->is_cgb`. -/
  cart_is_cgb : κ → Bool
  /-- Models the flag `cartridge->is_sgb`. -/
  cart_is_sgb : κ → Bool

/-- Modelled from the spec: the struct `Bus_t` of memory.h (not under src/), with
the fields memory.c and ppu.c use. -/
structure Bus_t (κ τ : Type) where
  cartridge : Option κ
  timers : τ
  wram : Mem
  vram : Mem
  oam : Mem
  hram : Mem
  audio_regs : Mem
  JOYP : Nat
  buttons_dir : Nat
  buttons_action : Nat
  SB : Nat
  SC : Nat
  serial_cycles : Int
  IF : Nat
  IE : Nat
  VBK : Nat
  SVBK : Nat
  KEY1 : Nat
  RP : Nat
  is_cgb : Bool
  bootrom_enabled : Bool
  bootrom : Option Mem
  bootrom_size : Nat

/-- Modelled from the spec: the struct `Ppu_t` of ppu.h (not under src/), with the
fields memory.c and ppu.c use. -/
structure Ppu_t where
  LCDC : Nat
  STAT : Nat
  SCY : Nat
  SCX : Nat
  LY : Nat
  LYC : Nat
  DMA : Nat
  BGP : Nat
  OBP0 : Nat
  OBP1 : Nat
  WY : Nat
  WX : Nat
  HDMA1 : Nat
  HDMA2 : Nat
  HDMA3 : Nat
  HDMA4 : Nat
  HDMA5 : Nat
  BCPS : Nat
  OCPS : Nat
  bg_pallete : Mem
  obj_pallete : Mem
  pallete : Mem
  framebuffer : Mem
  cycles_in_line : Int
  dma_pending : Bool
  dma_active : Bool
  dma_counter : Nat
  dma_source : Nat
  hdma_active : Bool
  hdma_src : Nat
  hdma_dst : Nat
  hdma_remaining : Nat
  frame_ready : Bool

/-- The linked bus/PPU pair of main.c, with the persistent `static` variables of
ppu.c: `dma_cycle_counter` (in `display_cycle`) and the two per-line caches. -/
structure Machine (κ τ : Type) where
  bus : Bus_t κ τ
  ppu : Ppu_t
  dma_cycle_counter : Int
  bg_tile_attrs : Mem
  bg_color_ids : Mem

variable {κ τ : Type}

/-! ## memory.c -/

/-- The index into `wram` of an offset in the switchable 4 KiB window
(`0xD000..0xDFFF` and its echo): bank `SVBK & 7`, with bank 0 read as bank 1. -/
def wram_bank_index (svbk offset : Nat) : Nat :=
  let bank := svbk &&& 0x07
  let bank := if bank = 0 then 1 else bank
  (0x1000 + ((bank - 1) * 0x1000) + offset) % 0x10000

/-- The index into `vram` of a bus address in `0x8000..0x9FFF`: the bank is bit 0
of `VBK`. -/
def vram_bank_index (vbk addy : Nat) : Nat :=
  let offset := addy - 0x8000
  let bank := vbk &&& 0x01
  (offset + (bank * 0x2000)) % 0x10000

/-- Embeds `ppu_vram_read` (ppu.c), for the linked pair: neither pointer is null. -/
def ppu_vram_read (m : Machine κ τ) (addr : Nat) : Nat :=
  if addr ≥ 0x4000 then 0xFF else m.bus.vram addr

/-- Embeds `ppu_vram_write` (ppu.c), for the linked pair. -/
def ppu_vram_write (m : Machine κ τ) (addr byte : Nat) : Machine κ τ :=
  if addr ≥ 0x4000 then m
  else { m with bus := { m.bus with vram := m.bus.vram.set addr byte } }

/-- The bootrom overlay at the head of `read_byte_bus`: `some v` when the read is
served from the bootrom, `none` when the decoder falls through. -/
def bootrom_overlay (bus : Bus_t κ τ) (addy : Nat) : Option Nat :=
  match bus.bootrom with
  | none => none
  | some rom =>
    if bus.bootrom_enabled then
      if addy < 0x0100 then some (rom addy)
      else if bus.bootrom_size > 256 ∧ addy ≥ 0x0200 ∧ addy < 0x0900 then
        some (rom (addy - 0x0100))
      else none
    else none

/-- The addresses of the audio window that the two `switch` statements list. -/
def audio_case (addy : Nat) : Bool :=
  (0xFF10 ≤ addy && addy ≤ 0xFF14) || (0xFF16 ≤ addy && addy ≤ 0xFF19) ||
  (0xFF1A ≤ addy && addy ≤ 0xFF1E) || (0xFF20 ≤ addy && addy ≤ 0xFF23) ||
  (0xFF24 ≤ addy && addy ≤ 0xFF26) || (0xFF30 ≤ addy && addy ≤ 0xFF3F)

/-- The `switch (addy)` of `read_byte_bus`: `some v` for a case that returns,
`none` for `default: break`. -/
def read_switch (E : Ext κ τ) (m : Machine κ τ) (addy : Nat) : Option Nat :=
  let bus := m.bus
  let ppu := m.ppu
  if addy = 0xFF00 then
    let select := bus.JOYP &&& 0x30
    let buttons := 0x0F
    let buttons := if select &&& 0x20 = 0 then bus.buttons_action &&& 0x0F else buttons
    let buttons :=
      if select &&& 0x10 = 0 then
        if select &&& 0x20 = 0 then (bus.buttons_action &&& bus.buttons_dir) &&& 0x0F
        else bus.buttons_dir &&& 0x0F
      else buttons
    some ((0xC0 ||| select ||| buttons) % 0x100)
  else if addy = 0xFF01 then some bus.SB
  else if addy = 0xFF02 then some bus.SC
  else if addy = 0xFF04 ∨ addy = 0xFF05 ∨ addy = 0xFF06 ∨ addy = 0xFF07 then
    some (E.timers_read bus.timers addy)
  else if addy = 0xFF0F then some ((0xE0 ||| (bus.IF &&& 0x1F)) % 0x100)
  else if audio_case addy then some (bus.audio_regs (addy - 0xFF10))
  else if addy = 0xFF40 then some ppu.LCDC
  else if addy = 0xFF41 then some ppu.STAT
  else if addy = 0xFF42 then some ppu.SCY
  else if addy = 0xFF43 then some ppu.SCX
  else if addy = 0xFF44 then some ppu.LY
  else if addy = 0xFF45 then some ppu.LYC
  else if addy = 0xFF46 then some ppu.DMA
  else if addy = 0xFF47 then some ppu.BGP
  else if addy = 0xFF48 then some ppu.OBP0
  else if addy = 0xFF49 then some ppu.OBP1
  else if addy = 0xFF4A then some ppu.WY
  else if addy = 0xFF4B then some ppu.WX
  else if addy = 0xFF4D then some ((bus.KEY1 ||| 0x7E) % 0x100)
  else if addy = 0xFF4F then some ((bus.VBK ||| 0xFE) % 0x100)
  else if addy = 0xFF51 then some ppu.HDMA1
  else if addy = 0xFF52 then some ppu.HDMA2
  else if addy = 0xFF53 then some ppu.HDMA3
  else if addy = 0xFF54 then some ppu.HDMA4
  else if addy = 0xFF55 then some ppu.HDMA5
  else if addy = 0xFF70 then some ((bus.SVBK ||| 0xF8) % 0x100)
  else if addy = 0xFF68 then some ppu.BCPS
  else if addy = 0xFF69 then
    let byte := ppu.BCPS &&& 0x3F
    some (ppu.bg_pallete byte)
  else if addy = 0xFF6A then some ppu.OCPS
  else if addy = 0xFF6B then
    let byte := ppu.OCPS &&& 0x3F
    some (ppu.obj_pallete byte)
  else none

/-- Embeds `read_byte_bus` (memory.c). -/
def read_byte_bus (E : Ext κ τ) (m : Machine κ τ) (addy : Nat) : Nat :=
  let bus := m.bus
  if m.ppu.dma_active then
    if addy ≥ 0xFF80 ∧ addy ≤ 0xFFFE then bus.hram (addy - 0xFF80)
    else if addy ≥ 0xFE00 ∧ addy ≤ 0xFE9F then 0xFF
    else 0xFF
  else
    match bootrom_overlay bus addy with
    | some v => v
    | none =>
      if addy < 0x8000 then E.cart_read bus.cartridge addy
      else if addy ≤ 0x9FFF then ppu_vram_read m (vram_bank_index bus.VBK addy)
      else if addy ≥ 0xA000 ∧ addy ≤ 0xBFFF then E.cart_read bus.cartridge addy
      else if addy ≥ 0xC000 ∧ addy ≤ 0xCFFF then bus.wram (addy - 0xC000)
      else if addy ≥ 0xD000 ∧ addy ≤ 0xDFFF then
        bus.wram (wram_bank_index bus.SVBK (addy - 0xD000))
      else if addy ≥ 0xE000 ∧ addy ≤ 0xEFFF then bus.wram (addy - 0xE000)
      else if addy ≥ 0xF000 ∧ addy ≤ 0xFDFF then
        bus.wram (wram_bank_index bus.SVBK (addy - 0xF000))
      else if addy ≥ 0xFE00 ∧ addy ≤ 0xFE9F then bus.oam (addy - 0xFE00)
      else if addy ≥ 0xFEA0 ∧ addy ≤ 0xFEFF then 0xFF
      else
        match read_switch E m addy with
        | some v => v
        | none =>
          if addy ≥ 0xFF80 ∧ addy ≤ 0xFFFE then bus.hram (addy - 0xFF80)
          else if addy = 0xFFFF then bus.IE
          else 0xFF

/-- The body of the general-purpose HDMA loop of `write_byte_bus`, iteration `i`:
read `src + i`, and store it at `dst + i` when that address is in VRAM.  The
store is the recursive call of `write_byte_bus`, passed as `wr`. -/
def gdma_step (wr : Machine κ τ → Nat → Nat → Machine κ τ) (E : Ext κ τ)
    (src dst : Nat) (m : Machine κ τ) (i : Nat) : Machine κ τ :=
  let data := read_byte_bus E m ((src + i) % 0x10000)
  let dst_addr := (dst + i) % 0x10000
  if dst_addr ≥ 0x8000 ∧ dst_addr < 0xA000 then wr m dst_addr data else m

/-- The `case 0xFF55` of `write_byte_bus` (HDMA5: length / mode / start). -/
def write_hdma5 (wr : Machine κ τ → Nat → Nat → Machine κ τ) (E : Ext κ τ)
    (m : Machine κ τ) (val : Nat) : Machine κ τ :=
  if ¬ m.bus.is_cgb then
    { m with ppu := { m.ppu with HDMA5 := 0xFF } }
  else if m.ppu.hdma_active ∧ val &&& 0x80 ≠ 0 then
    { m with ppu := { m.ppu with hdma_active := false, HDMA5 := 0xFF } }
  else
    let src := ((m.ppu.HDMA1 <<< 8) ||| (m.ppu.HDMA2 &&& 0xF0)) % 0x10000
    let dst := (0x8000 ||| ((m.ppu.HDMA3 &&& 0x1F) <<< 8) ||| (m.ppu.HDMA4 &&& 0xF0)) % 0x10000
    let length := (((val &&& 0x7F) + 1) * 0x10) % 0x10000
    if val &&& 0x80 = 0 then
      let m1 : Machine κ τ := { m with ppu := { m.ppu with hdma_active := false, HDMA5 := 0xFF } }
      (List.range length).foldl (gdma_step wr E src dst) m1
    else
      let blocks := (length / 0x10) % 0x100
      let blocks := if blocks ≠ 0 then blocks - 1 else blocks
      { m with ppu := { m.ppu with
          hdma_active := true, hdma_src := src, hdma_dst := dst,
          hdma_remaining := length, HDMA5 := blocks &&& 0x7F } }

/-- The `switch (addy)` of `write_byte_bus`: `some m` for a case that returns,
`none` for `default: break`.  `~0x03` and `~0x1F` act on a `uint8_t`, so they are
the masks `0xFC` and `0xE0`. -/
def write_switch (wr : Machine κ τ → Nat → Nat → Machine κ τ) (E : Ext κ τ)
    (m : Machine κ τ) (addy val : Nat) : Option (Machine κ τ) :=
  let bus := m.bus
  let ppu := m.ppu
  if addy = 0xFF00 then
    some { m with bus := { bus with JOYP := (bus.JOYP &&& 0xCF) ||| (val &&& 0x30) } }
  else if addy = 0xFF01 then some { m with bus := { bus with SB := val } }
  else if addy = 0xFF02 then
    some { m with bus := { bus with
      SC := val,
      serial_cycles := if val &&& 0x81 = 0x81 then 512 else bus.serial_cycles } }
  else if addy = 0xFF04 ∨ addy = 0xFF05 ∨ addy = 0xFF06 ∨ addy = 0xFF07 then
    some { m with bus := { bus with timers := E.timers_write bus.timers addy val } }
  else if addy = 0xFF0F then
    some { m with bus := { bus with IF := (bus.IF &&& 0xE0) ||| (val &&& 0x1F) } }
  else if audio_case addy then
    some { m with bus := { bus with audio_regs := bus.audio_regs.set (addy - 0xFF10) val } }
  else if addy = 0xFF40 then
    let old_lcdc := ppu.LCDC
    let was_enabled := old_lcdc &&& 0x80 ≠ 0
    let is_enabled := val &&& 0x80 ≠ 0
    if ¬ was_enabled ∧ is_enabled then
      some { m with ppu := { ppu with
        LCDC := val, LY := 0, cycles_in_line := 0, STAT := (ppu.STAT &&& 0xFC) ||| 2 } }
    else if was_enabled ∧ ¬ is_enabled then
      some { m with ppu := { ppu with
        LCDC := val, LY := 0, cycles_in_line := 0, STAT := (ppu.STAT &&& 0xFC) ||| 0 } }
    else some { m with ppu := { ppu with LCDC := val } }
  else if addy = 0xFF41 then
    some { m with ppu := { ppu with STAT := (val &&& 0x78) ||| (ppu.STAT &&& 0x07) } }
  else if addy = 0xFF42 then some { m with ppu := { ppu with SCY := val } }
  else if addy = 0xFF43 then some { m with ppu := { ppu with SCX := val } }
  else if addy = 0xFF44 then some m
  else if addy = 0xFF45 then some { m with ppu := { ppu with LYC := val } }
  else if addy = 0xFF46 then some { m with ppu := { ppu with DMA := val, dma_pending := true } }
  else if addy = 0xFF47 then some { m with ppu := { ppu with BGP := val } }
  else if addy = 0xFF48 then some { m with ppu := { ppu with OBP0 := val } }
  else if addy = 0xFF49 then some { m with ppu := { ppu with OBP1 := val } }
  else if addy = 0xFF50 then some m
  else if addy = 0xFF4A then some { m with ppu := { ppu with WY := val } }
  else if addy = 0xFF4B then some { m with ppu := { ppu with WX := val } }
  else if addy = 0xFF4D then
    some { m with bus := { bus with KEY1 := (bus.KEY1 &&& 0x80) ||| (val &&& 0x01) } }
  else if addy = 0xFF4F then some { m with bus := { bus with VBK := val &&& 0x01 } }
  else if addy = 0xFF56 then some { m with bus := { bus with RP := val } }
  else if addy = 0xFF70 then some { m with bus := { bus with SVBK := val &&& 0x07 } }
  else if addy = 0xFF51 then some { m with ppu := { ppu with HDMA1 := val } }
  else if addy = 0xFF52 then some { m with ppu := { ppu with HDMA2 := val } }
  else if addy = 0xFF53 then some { m with ppu := { ppu with HDMA3 := val } }
  else if addy = 0xFF54 then some { m with ppu := { ppu with HDMA4 := val } }
  else if addy = 0xFF55 then some (write_hdma5 wr E m val)
  else if addy = 0xFF68 then some { m with ppu := { ppu with BCPS := val } }
  else if addy = 0xFF69 then
    let byte := ppu.BCPS &&& 0x3F
    some { m with ppu := { ppu with
      bg_pallete := ppu.bg_pallete.set byte val,
      BCPS := if ppu.BCPS &&& 0x80 ≠ 0 then 0x80 ||| ((byte + 1) &&& 0x3F) else ppu.BCPS } }
  else if addy = 0xFF6A then some { m with ppu := { ppu with OCPS := val } }
  else if addy = 0xFF6B then
    let byte := ppu.OCPS &&& 0x3F
    some { m with ppu := { ppu with
      obj_pallete := ppu.obj_pallete.set byte val,
      OCPS := if ppu.OCPS &&& 0x80 ≠ 0 then 0x80 ||| ((byte + 1) &&& 0x3F) else ppu.OCPS } }
  else none

/-- The text of `write_byte_bus` (memory.c), with its recursive call (made only
from the general-purpose HDMA loop) left open as `wr`. -/
def write_byte_bus_body (wr : Machine κ τ → Nat → Nat → Machine κ τ) (E : Ext κ τ)
    (m : Machine κ τ) (addy val : Nat) : Machine κ τ :=
  let bus := m.bus
  if m.ppu.dma_active then
    if addy ≥ 0xFF80 ∧ addy ≤ 0xFFFE then
      { m with bus := { bus with hram := bus.hram.set (addy - 0xFF80) val } }
    else m
  else if addy < 0x8000 then
    { m with bus := { bus with cartridge := bus.cartridge.map (fun c => E.cart_write c addy val) } }
  else if addy ≤ 0x9FFF then ppu_vram_write m (vram_bank_index bus.VBK addy) val
  else if addy ≥ 0xA000 ∧ addy ≤ 0xBFFF then
    { m with bus := { bus with cartridge := bus.cartridge.map (fun c => E.cart_write c addy val) } }
  else if addy ≥ 0xC000 ∧ addy ≤ 0xCFFF then
    { m with bus := { bus with wram := bus.wram.set (addy - 0xC000) val } }
  else if addy ≥ 0xD000 ∧ addy ≤ 0xDFFF then
    { m with bus := { bus with
        wram := bus.wram.set (wram_bank_index bus.SVBK (addy - 0xD000)) val } }
  else if addy ≥ 0xE000 ∧ addy ≤ 0xEFFF then
    { m with bus := { bus with wram := bus.wram.set (addy - 0xE000) val } }
  else if addy ≥ 0xF000 ∧ addy ≤ 0xFDFF then
    { m with bus := { bus with
        wram := bus.wram.set (wram_bank_index bus.SVBK (addy - 0xF000)) val } }
  else if addy ≥ 0xFE00 ∧ addy ≤ 0xFE9F then
    { m with bus := { bus with oam := bus.oam.set (addy - 0xFE00) val } }
  else if addy ≥ 0xFEA0 ∧ addy ≤ 0xFEFF then m
  else
    match write_switch wr E m addy val with
    | some m1 => m1
    | none =>
      if addy ≥ 0xFF80 ∧ addy ≤ 0xFFFE then
        { m with bus := { bus with hram := bus.hram.set (addy - 0xFF80) val } }
      else if addy = 0xFFFF then { m with bus := { bus with IE := val &&& 0x1F } }
      else m

/-- The store that the general-purpose HDMA loop reaches: its address is always in
`0x8000..0x9FFF`, a region from which `write_byte_bus` does not call itself, so
the open call below is never made. -/
def write_byte_bus_leaf (E : Ext κ τ) (m : Machine κ τ) (addy val : Nat) : Machine κ τ :=
  write_byte_bus_body (fun m1 _ _ => m1) E m addy val

/-- Embeds `write_byte_bus` (memory.c).  `write_byte_bus_unfold` shows that it
satisfies the recursive equation of the C function. -/
def write_byte_bus (E : Ext κ τ) (m : Machine κ τ) (addy val : Nat) : Machine κ τ :=
  write_byte_bus_body (write_byte_bus_leaf E) E m addy val

/-- Embeds `bus_update_serial` (memory.c). -/
def bus_update_serial (m : Machine κ τ) (cycles : Int) : Machine κ τ :=
  if m.bus.serial_cycles > 0 then
    let sc := m.bus.serial_cycles - cycles
    if sc ≤ 0 then
      { m with bus := { m.bus with
          serial_cycles := 0, SC := m.bus.SC &&& 0x7F, IF := m.bus.IF ||| 0x08, SB := 0xFF } }
    else { m with bus := { m.bus with serial_cycles := sc } }
  else m

/-! ## ppu.c -/

/-- Embeds `bw_palette` (ppu.c). -/
def bw_palette : Mem := fun i =>
  if i = 0 then 0xC4CFA1 else if i = 1 then 0x8B956D else if i = 2 then 0x4D533C
  else if i = 3 then 0x1F1F1F else 0

/-- Embeds `sgb_palette` (ppu.c). -/
def sgb_palette : Mem := fun i =>
  if i = 0 then 0xFFFFFF else if i = 1 then 0xFFB3D9 else if i = 2 then 0xFFFFFF
  else if i = 3 then 0x000000 else 0

/-- Embeds `read_vram_bank` (ppu.c); `addr - 0x8000` is a `uint16_t` difference. -/
def read_vram_bank (bus : Bus_t κ τ) (addr bank : Nat) : Nat :=
  let offset := (addr + 0x10000 - 0x8000) % 0x10000
  let real_addr := (offset + (bank * 0x2000)) % 0x10000
  if real_addr ≥ 0x4000 then 0xFF else bus.vram real_addr

/-- The 5-bit to 8-bit channel expansion `(c << 3) | (c >> 2)` of `cgb_2_rgb`,
stored back in a `uint8_t`. -/
def expand5 (c : Nat) : Nat := ((c <<< 3) ||| (c >>> 2)) % 0x100

/-- Embeds `cgb_2_rgb` (ppu.c). -/
def cgb_2_rgb (pallete : Mem) (pallete_num color_id : Nat) : Nat :=
  let offset := (pallete_num * 8) + (color_id * 2)
  let rgb555 := (pallete offset ||| (pallete (offset + 1) <<< 8)) % 0x10000
  let r := (rgb555 &&& 0x1F) % 0x100
  let g := ((rgb555 >>> 5) &&& 0x1F) % 0x100
  let b := ((rgb555 >>> 10) &&& 0x1F) % 0x100
  let r := expand5 r
  let g := expand5 g
  let b := expand5 b
  (r <<< 16) ||| (g <<< 8) ||| b

/-- The table `default_bg_colors` of `init_default_palettes`. -/
def default_bg_colors : Mem := fun i =>
  if i = 0 then 0x7FFF else if i = 1 then 0x56B5 else if i = 2 then 0x294A else 0x0000

/-- The table `default_obj_colors` of `init_default_palettes`. -/
def default_obj_colors : Mem := fun i =>
  if i = 0 then 0x7FFF else if i = 1 then 0x7E10 else if i = 2 then 0x48E7
  else if i = 3 then 0x0000 else if i = 4 then 0x7FFF else if i = 5 then 0x3FE6
  else if i = 6 then 0x0200 else 0x0000

/-- One colour of one palette stored as two little-endian bytes, the loop body of
`init_default_palettes`. -/
def store_color (mem : Mem) (pal col color : Nat) : Mem :=
  let offset := (pal * 8) + (col * 2)
  (mem.set offset (color &&& 0xFF)).set (offset + 1) ((color >>> 8) &&& 0xFF)

/-- Embeds `init_default_palettes` (ppu.c). -/
def init_default_palettes (d : Ppu_t) : Ppu_t :=
  let bg := (List.range 8).foldl (fun mem pal =>
    (List.range 4).foldl (fun mem col => store_color mem pal col (default_bg_colors col)) mem)
    d.bg_pallete
  let obj := (List.range 8).foldl (fun mem pal =>
    (List.range 4).foldl (fun mem col =>
      store_color mem pal col
        (if pal < 2 then default_obj_colors (col + (pal * 4)) else default_obj_colors col)) mem)
    d.obj_pallete
  { d with bg_pallete := bg, obj_pallete := obj }

/-- The `Ppu_t` after `memset(display, 0, sizeof(Ppu_t))`. -/
def Ppu_t.zero : Ppu_t where
  LCDC := 0
  STAT := 0
  SCY := 0
  SCX := 0
  LY := 0
  LYC := 0
  DMA := 0
  BGP := 0
  OBP0 := 0
  OBP1 := 0
  WY := 0
  WX := 0
  HDMA1 := 0
  HDMA2 := 0
  HDMA3 := 0
  HDMA4 := 0
  HDMA5 := 0
  BCPS := 0
  OCPS := 0
  bg_pallete := fun _ => 0
  obj_pallete := fun _ => 0
  pallete := fun _ => 0
  framebuffer := fun _ => 0
  cycles_in_line := 0
  dma_pending := false
  dma_active := false
  dma_counter := 0
  dma_source := 0
  hdma_active := false
  hdma_src := 0
  hdma_dst := 0
  hdma_remaining := 0
  frame_ready := false

/-- Embeds `start_display` (ppu.c): the PPU it leaves in `*display`.  The scaled
and background buffers are host-side and are not modelled. -/
def start_display (E : Ext κ τ) (bus : Bus_t κ τ) : Ppu_t :=
  let d := Ppu_t.zero
  let d := { d with
    LCDC := 0x91, SCY := 0, SCX := 0, LY := 0, LYC := 0, BGP := 0xFC,
    OBP0 := 0xFF, OBP1 := 0xFF, WY := 0, WX := 0 }
  let d := { d with
    HDMA1 := 0xFF, HDMA2 := 0xFF, HDMA3 := 0xFF, HDMA4 := 0xFF, HDMA5 := 0xFF,
    hdma_active := false, hdma_src := 0, hdma_dst := 0, hdma_remaining := 0 }
  let d := init_default_palettes d
  let d := { d with BCPS := 0, OCPS := 0 }
  let palette_to_use :=
    match bus.cartridge with
    | some c => if E.cart_is_sgb c ∧ ¬ E.cart_is_cgb c then sgb_palette else bw_palette
    | none => bw_palette
  { d with
    pallete := fun i => if i ≤ 3 then palette_to_use i else 0,
    framebuffer := fun _ => 0 }

/-- One iteration of the 16-byte loop of `hdma_transfer1`, on the machine and the
local cursors `src` and `dst`. -/
def hdma_copy1 (E : Ext κ τ) (st : Machine κ τ × Nat × Nat) : Machine κ τ × Nat × Nat :=
  let m := st.1
  let src := st.2.1
  let dst := st.2.2
  let val := read_byte_bus E m src
  let m1 := if dst ≥ 0x8000 ∧ dst < 0xA000 then write_byte_bus E m dst val else m
  (m1, (src + 1) % 0x10000, (dst + 1) % 0x10000)

/-- The 16-byte copy loop of `hdma_transfer1`: the machine and the cursors after
it. -/
def hdma_block (E : Ext κ τ) (m : Machine κ τ) : Machine κ τ × Nat × Nat :=
  (List.range 0x10).foldl (fun st _ => hdma_copy1 E st) (m, m.ppu.hdma_src, m.ppu.hdma_dst)

/-- The tail of `hdma_transfer1` after the copy loop: store the cursors back and
account for the block in `hdma_remaining` and `HDMA5`. -/
def hdma_finish (m1 : Machine κ τ) (src dst : Nat) : Machine κ τ :=
  if m1.ppu.hdma_remaining ≤ 0x10 then
    { m1 with ppu := { m1.ppu with
        hdma_src := src, hdma_dst := dst,
        hdma_remaining := 0, hdma_active := false, HDMA5 := 0xFF } }
  else
    let remaining := m1.ppu.hdma_remaining - 0x10
    let blocks := (remaining / 0x10) % 0x100
    let blocks := if blocks ≠ 0 then blocks - 1 else blocks
    { m1 with ppu := { m1.ppu with
        hdma_src := src, hdma_dst := dst,
        hdma_remaining := remaining, HDMA5 := blocks &&& 0x7F } }

/-- Embeds `hdma_transfer1` (ppu.c). -/
def hdma_transfer1 (E : Ext κ τ) (m : Machine κ τ) : Machine κ τ :=
  if ¬ m.ppu.hdma_active ∨ m.bus.cartridge.isNone then m
  else if m.ppu.hdma_remaining = 0 then
    { m with ppu := { m.ppu with hdma_active := false, HDMA5 := 0xFF } }
  else
    let st := hdma_block E m
    hdma_finish st.1 st.2.1 st.2.2

/-- The pixel body shared, statement for statement, by the loops of
`render_bg_scanline` and `render_window_scanline`: from the tile-map address
`map_index` and the source coordinates (`ycoord` is `y` or `win_y`, `xcoord` is
`scx` or `win_x`), fetch the tile, cache attribute and colour id for screen column
`x`, and store the pixel. -/
def tile_pixel (E : Ext κ τ) (m : Machine κ τ) (map_index ycoord xcoord x : Nat) :
    Machine κ τ :=
  let d := m.ppu
  let cgb := m.bus.is_cgb
  let tile_data_addr := if d.LCDC &&& 0x10 ≠ 0 then 0x8000 else 0x8800
  let tile_num := read_byte_bus E m map_index
  let tile_attr := if cgb then read_vram_bank m.bus map_index 1 else 0
  let tile_addr :=
    if d.LCDC &&& 0x10 ≠ 0 then (tile_data_addr + (tile_num * 16)) % 0x10000
    else (tile_data_addr + ((tile_num + 128) % 0x100) * 16) % 0x10000
  let line := ycoord % 8
  let line := if cgb ∧ tile_attr &&& 0x40 ≠ 0 then 7 - line else line
  let bank := if cgb ∧ tile_attr &&& 0x08 ≠ 0 then 1 else 0
  let low := read_vram_bank m.bus ((tile_addr + (line * 2)) % 0x10000) bank
  let high := read_vram_bank m.bus ((tile_addr + (line * 2) + 1) % 0x10000) bank
  let bit := 7 - (xcoord % 8)
  let bit := if cgb ∧ tile_attr &&& 0x20 ≠ 0 then xcoord % 8 else bit
  let color_id := (((high >>> bit) &&& 1) <<< 1) ||| ((low >>> bit) &&& 1)
  let color :=
    if cgb then cgb_2_rgb d.bg_pallete (tile_attr &&& 0x07) color_id
    else d.pallete ((d.BGP >>> (color_id * 2)) &&& 3)
  { m with
    bg_tile_attrs := m.bg_tile_attrs.set x tile_attr,
    bg_color_ids := m.bg_color_ids.set x color_id,
    ppu := { d with framebuffer := d.framebuffer.set (d.LY * GB_WIDTH + x) (0xFF000000 ||| color) } }

/-- The loop body of `render_bg_scanline` for screen column `x`. -/
def bg_pixel (E : Ext κ τ) (m : Machine κ τ) (x : Nat) : Machine κ τ :=
  let d := m.ppu
  let bg_map_addr := if d.LCDC &&& 0x08 ≠ 0 then 0x9C00 else 0x9800
  let y := (d.SCY + d.LY) &&& 0xFF
  let scx := (d.SCX + x) &&& 0xFF
  let map_index := (bg_map_addr + ((y / 8) * 32) + (scx / 8)) % 0x10000
  tile_pixel E m map_index y scx x

/-- Embeds `render_bg_scanline` (ppu.c). -/
def render_bg_scanline (E : Ext κ τ) (m : Machine κ τ) : Machine κ τ :=
  if ¬ m.bus.is_cgb ∧ m.ppu.LCDC &&& 0x01 = 0 then m
  else (List.range GB_WIDTH).foldl (bg_pixel E) m

/-- The loop body of `render_window_scanline` for screen column `x`; it is reached
with `WY ≤ LY`. -/
def window_pixel (E : Ext κ τ) (m : Machine κ τ) (x : Nat) : Machine κ τ :=
  let d := m.ppu
  let win_map_addr := if d.LCDC &&& 0x40 ≠ 0 then 0x9C00 else 0x9800
  let win_y := d.LY - d.WY
  let win_x : Int := (x : Int) - ((d.WX : Int) - 7)
  if win_x < 0 then m
  else
    let map_index := (win_map_addr + ((win_y / 8) * 32) + (win_x.toNat / 8)) % 0x10000
    tile_pixel E m map_index win_y win_x.toNat x

/-- Embeds `render_window_scanline` (ppu.c). -/
def render_window_scanline (E : Ext κ τ) (m : Machine κ τ) : Machine κ τ :=
  if m.ppu.LCDC &&& 0x20 = 0 then m
  else if m.ppu.WY > m.ppu.LY then m
  else (List.range GB_WIDTH).foldl (window_pixel E) m

/-- The inner loop body of `render_sprites_scanline`: pixel `px` of a sprite row
whose tile bytes are `low` and `high`. -/
def sprite_pixel (m : Machine κ τ) (attributes palette sprite_palette : Nat) (sprite_x : Int)
    (low high px : Nat) : Machine κ τ :=
  let d := m.ppu
  let priority := attributes &&& 0x80
  let screen_x : Int := sprite_x + (px : Int)
  if screen_x < 0 ∨ screen_x ≥ (GB_WIDTH : Int) then m
  else
    let bit := if attributes &&& 0x20 ≠ 0 then px else 7 - px
    let color_id := (((high >>> bit) &&& 1) <<< 1) ||| ((low >>> bit) &&& 1)
    if color_id = 0 then m
    else
      let fb_index := d.LY * GB_WIDTH + screen_x.toNat
      if m.bus.is_cgb then
        let bg_tile_attr := m.bg_tile_attrs screen_x.toNat
        let bg_color_id := m.bg_color_ids screen_x.toNat
        let bg_priority := bg_tile_attr &&& 0x80 ≠ 0
        let lcdc_bg_enable := d.LCDC &&& 0x01 ≠ 0
        if lcdc_bg_enable ∧ bg_priority ∧ bg_color_id ≠ 0 then m
        else if lcdc_bg_enable ∧ priority ≠ 0 ∧ bg_color_id ≠ 0 then m
        else
          let color := cgb_2_rgb d.obj_pallete sprite_palette color_id
          { m with ppu := { d with framebuffer := d.framebuffer.set fb_index (0xFF000000 ||| color) } }
      else
        let bg_pixel := d.framebuffer fb_index
        let bg_color := bg_pixel &&& 0x00FFFFFF
        let bg_color0 := d.pallete 0 &&& 0x00FFFFFF
        if priority ≠ 0 ∧ bg_color ≠ bg_color0 then m
        else
          let shade := (palette >>> (color_id * 2)) &&& 0x03
          let color := d.pallete shade
          { m with ppu := { d with framebuffer := d.framebuffer.set fb_index (0xFF000000 ||| color) } }

/-- The row of a sprite that is on the current line: tile number and row after the
Y flip and the 8x16 adjustment, then the eight pixels. -/
def sprite_row (m : Machine κ τ) (sprite_height : Int) (tile_num attributes : Nat)
    (sprite_x line : Int) : Machine κ τ :=
  let d := m.ppu
  let palette := if attributes &&& 0x10 ≠ 0 then d.OBP1 else d.OBP0
  let sprite_palette := if m.bus.is_cgb then attributes &&& 0x07 else 0
  let line := if attributes &&& 0x40 ≠ 0 then sprite_height - 1 - line else line
  let tile_num16 := if line ≥ 8 then (tile_num &&& 0xFE) ||| 0x01 else tile_num &&& 0xFE
  let line16 := if line ≥ 8 then line - 8 else line
  let tile_num := if sprite_height = 16 then tile_num16 else tile_num
  let line := if sprite_height = 16 then line16 else line
  let tile_addr := (0x8000 + (tile_num * 16)) % 0x10000
  let bank := if m.bus.is_cgb ∧ attributes &&& 0x08 ≠ 0 then 1 else 0
  let low := read_vram_bank m.bus ((tile_addr + (line.toNat * 2)) % 0x10000) bank
  let high := read_vram_bank m.bus ((tile_addr + (line.toNat * 2) + 1) % 0x10000) bank
  (List.range 8).foldl
    (fun m1 px => sprite_pixel m1 attributes palette sprite_palette sprite_x low high px) m

/-- The outer loop body of `render_sprites_scanline` for OAM entry `i`, on the
machine and the local counter `sprites_drawn`. -/
def sprite_entry (st : Machine κ τ × Nat) (i : Nat) : Machine κ τ × Nat :=
  let m := st.1
  let sprites_drawn := st.2
  let d := m.ppu
  let sprite_height : Int := if d.LCDC &&& 0x04 ≠ 0 then 16 else 8
  let oam_addr := i * 4
  let oam_y := m.bus.oam oam_addr
  let oam_x := m.bus.oam (oam_addr + 1)
  let tile_num := m.bus.oam (oam_addr + 2)
  let attributes := m.bus.oam (oam_addr + 3)
  if oam_y = 0 ∨ oam_y ≥ 160 then (m, sprites_drawn)
  else
    let sprite_y : Int := (oam_y : Int) - 16
    let sprite_x : Int := (oam_x : Int) - 8
    let sprite_top := sprite_y
    let sprite_bottom := sprite_y + sprite_height
    if (d.LY : Int) < sprite_top ∨ (d.LY : Int) ≥ sprite_bottom then (m, sprites_drawn)
    else if sprites_drawn ≥ 10 then (m, sprites_drawn)
    else
      let line : Int := (d.LY : Int) - sprite_y
      if line < 0 ∨ line ≥ sprite_height then (m, sprites_drawn + 1)
      else (sprite_row m sprite_height tile_num attributes sprite_x line, sprites_drawn + 1)

/-- Embeds `render_sprites_scanline` (ppu.c): OAM entries 39 down to 0. -/
def render_sprites_scanline (m : Machine κ τ) : Machine κ τ :=
  if m.ppu.LCDC &&& 0x02 = 0 then m
  else ((List.range 40).reverse.foldl sprite_entry (m, 0)).1

/-- The byte that one iteration of the OAM-DMA loop of `display_cycle` fetches
from `src_addr`. -/
def dma_fetch (E : Ext κ τ) (m : Machine κ τ) (src_addr : Nat) : Nat :=
  let b := m.bus
  if src_addr < 0x8000 then E.cart_read b.cartridge src_addr
  else if src_addr ≥ 0x8000 ∧ src_addr < 0xA000 then read_byte_bus E m src_addr
  else if src_addr ≥ 0xA000 ∧ src_addr < 0xC000 then E.cart_read b.cartridge src_addr
  else if src_addr ≥ 0xC000 ∧ src_addr < 0xE000 then b.wram (src_addr - 0xC000)
  else if src_addr ≥ 0xE000 ∧ src_addr < 0xFE00 then b.wram (src_addr - 0xE000)
  else if src_addr ≥ 0xFF80 ∧ src_addr ≤ 0xFFFE then b.hram (src_addr - 0xFF80)
  else 0xFF

/-- One iteration of the OAM-DMA `while` loop of `display_cycle`. -/
def dma_copy_byte (E : Ext κ τ) (m : Machine κ τ) : Machine κ τ :=
  let src_addr := (m.ppu.dma_source + m.ppu.dma_counter) % 0x10000
  let byte := dma_fetch E m src_addr
  { m with
    dma_cycle_counter := m.dma_cycle_counter - 4,
    bus := { m.bus with oam := m.bus.oam.set m.ppu.dma_counter byte },
    ppu := { m.ppu with dma_counter := m.ppu.dma_counter + 1 } }

/-- The loop `while (dma_cycle_counter >= 4 && d->dma_counter < 160)` of
`display_cycle`, with at most `fuel` iterations.  Each iteration raises
`dma_counter` by one, so `160 - dma_counter` iterations always suffice
(`dma_loop_exit`). -/
def dma_loop (E : Ext κ τ) : Nat → Machine κ τ → Machine κ τ
  | 0, m => m
  | fuel + 1, m =>
    if m.dma_cycle_counter ≥ 4 ∧ m.ppu.dma_counter < 160 then dma_loop E fuel (dma_copy_byte E m)
    else m

/-- The latch of a pending OAM-DMA request at the head of `display_cycle`. -/
def dma_latch (m : Machine κ τ) : Machine κ τ :=
  if m.ppu.dma_pending then
    { m with ppu := { m.ppu with
        dma_pending := false, dma_active := true, dma_counter := 0,
        dma_source := (m.ppu.DMA <<< 8) % 0x10000 } }
  else m

/-- The end of the OAM-DMA block of `display_cycle`: after 160 bytes the transfer
is over. -/
def dma_finish (m : Machine κ τ) : Machine κ τ :=
  if m.ppu.dma_counter ≥ 160 then
    { m with dma_cycle_counter := 0, ppu := { m.ppu with dma_active := false, dma_counter := 0 } }
  else m

/-- The OAM-DMA block of `display_cycle` (`if (d->dma_active) ... else ...`). -/
def dma_run (E : Ext κ τ) (m : Machine κ τ) (cycles : Int) : Machine κ τ :=
  if m.ppu.dma_active then
    let m1 : Machine κ τ := { m with dma_cycle_counter := m.dma_cycle_counter + cycles }
    dma_finish (dma_loop E (160 - m1.ppu.dma_counter) m1)
  else { m with dma_cycle_counter := 0 }

/-- Line advance, first part: take 456 dots off the clock and step `LY` (a
`uint8_t`), wrapping after line 153. -/
def line_inc (m : Machine κ τ) : Machine κ τ :=
  let ly := (m.ppu.LY + 1) % 0x100
  let ly := if ly > 153 then 0 else ly
  { m with ppu := { m.ppu with cycles_in_line := m.ppu.cycles_in_line - 456, LY := ly } }

/-- Line advance, second part: the mode and interrupts of the line just started. -/
def line_mode (m : Machine κ τ) : Machine κ τ :=
  if m.ppu.LY = 144 then
    let stat := (m.ppu.STAT &&& 0xFC) ||| 1
    let if1 := m.bus.IF ||| 0x01
    let if2 := if stat &&& 0x10 ≠ 0 then if1 ||| 0x02 else if1
    { m with bus := { m.bus with IF := if2 }, ppu := { m.ppu with STAT := stat, frame_ready := true } }
  else if m.ppu.LY < 144 then
    let stat := (m.ppu.STAT &&& 0xFC) ||| 2
    let if2 := if stat &&& 0x20 ≠ 0 then m.bus.IF ||| 0x02 else m.bus.IF
    { m with bus := { m.bus with IF := if2 }, ppu := { m.ppu with STAT := stat } }
  else m

/-- Line advance, third part: the `LY == LYC` coincidence bit. -/
def line_lyc (m : Machine κ τ) : Machine κ τ :=
  if m.ppu.LY = m.ppu.LYC then
    let stat := m.ppu.STAT ||| 0x04
    let if2 := if stat &&& 0x40 ≠ 0 then m.bus.IF ||| 0x02 else m.bus.IF
    { m with bus := { m.bus with IF := if2 }, ppu := { m.ppu with STAT := stat } }
  else { m with ppu := { m.ppu with STAT := m.ppu.STAT &&& 0xFB } }

/-- The clearing loop that precedes the renderers, for screen column `x`. -/
def clear_pixel (m : Machine κ τ) (x : Nat) : Machine κ τ :=
  let bg_color := m.ppu.pallete 0
  { m with
    bg_tile_attrs := m.bg_tile_attrs.set x 0,
    bg_color_ids := m.bg_color_ids.set x 0,
    ppu := { m.ppu with
      framebuffer := m.ppu.framebuffer.set (m.ppu.LY * GB_WIDTH + x) (0xFF000000 ||| bg_color) } }

/-- Line advance, last part: render the newly started visible line. -/
def line_render (E : Ext κ τ) (m : Machine κ τ) : Machine κ τ :=
  if m.ppu.LY < 144 then
    render_sprites_scanline
      (render_window_scanline E (render_bg_scanline E ((List.range GB_WIDTH).foldl clear_pixel m)))
  else m

/-- The block `if (d->cycles_in_line >= 456) ...` of `display_cycle`. -/
def line_advance (E : Ext κ τ) (m : Machine κ τ) : Machine κ τ :=
  if m.ppu.cycles_in_line ≥ 456 then line_render E (line_lyc (line_mode (line_inc m)))
  else m

/-- The STAT interrupt request on entering HBlank (`if (d->STAT & 0x08)`). -/
def hblank_irq (m : Machine κ τ) : Machine κ τ :=
  if m.ppu.STAT &&& 0x08 ≠ 0 then { m with bus := { m.bus with IF := m.bus.IF ||| 0x02 } }
  else m

/-- The HBlank branch of the mode update of `display_cycle`. -/
def enter_hblank (E : Ext κ τ) (m : Machine κ τ) : Machine κ τ :=
  if m.ppu.STAT &&& 0x03 ≠ 0 then
    hblank_irq (if m.ppu.hdma_active then hdma_transfer1 E m else m)
  else m

/-- The final block `if (d->LY < 144) ...` of `display_cycle`: the STAT mode as a
function of the dot clock. -/
def mode_update (E : Ext κ τ) (m : Machine κ τ) : Machine κ τ :=
  if m.ppu.LY < 144 then
    if m.ppu.cycles_in_line < 80 then
      { m with ppu := { m.ppu with STAT := (m.ppu.STAT &&& 0xFC) ||| 2 } }
    else if m.ppu.cycles_in_line < 252 then
      { m with ppu := { m.ppu with STAT := (m.ppu.STAT &&& 0xFC) ||| 3 } }
    else
      let m1 := enter_hblank E m
      { m1 with ppu := { m1.ppu with STAT := (m1.ppu.STAT &&& 0xFC) ||| 0 } }
  else m

/-- The statement `d->cycles_in_line += cycles` of `display_cycle`. -/
def add_cycles (m : Machine κ τ) (cycles : Int) : Machine κ τ :=
  { m with ppu := { m.ppu with cycles_in_line := m.ppu.cycles_in_line + cycles } }

/-- Embeds `display_cycle` (ppu.c), the PPU step. -/
def display_cycle (E : Ext κ τ) (m : Machine κ τ) (cycles : Int) : Machine κ τ :=
  if m.ppu.LCDC &&& LCDC_ENABLE = 0 then m
  else mode_update E (line_advance E (dma_run E (dma_latch (add_cycles m cycles)) cycles))

/-- Embeds `ppu_is_mode2` (ppu.c). -/
def ppu_is_mode2 (m : Machine κ τ) : Bool := m.ppu.STAT &&& 0x03 = 2

/-- Embeds `init_bus` (memory.c): `memset` to zero, then the non-zero fields.
`timers0` is what `timers_init` leaves. -/
def init_bus (timers0 : τ) : Bus_t κ τ where
  cartridge := none
  timers := timers0
  wram := fun _ => 0
  vram := fun _ => 0
  oam := fun _ => 0
  hram := fun _ => 0
  audio_regs := fun _ => 0
  JOYP := 0xFF
  buttons_dir := 0x0F
  buttons_action := 0x0F
  SB := 0
  SC := 0
  serial_cycles := 0
  IF := 0
  IE := 0
  VBK := 0
  SVBK := 0
  KEY1 := 0
  RP := 0
  is_cgb := false
  bootrom_enabled := false
  bootrom := none
  bootrom_size := 0

/-! ## Concrete machines for evaluating the model -/

/-- Collaborators of a machine without cartridge or timer state: cartridge reads
give the open-bus byte `0xFF`. -/
def idleExt : Ext Unit Unit where
  cart_read := fun _ _ => 0xFF
  cart_write := fun c _ _ => c
  timers_read := fun _ _ => 0
  timers_write := fun t _ _ => t
  cart_is_cgb := fun _ => false
  cart_is_sgb := fun _ => false

/-- The machine main.c builds: `init_bus`, then `start_display`, with the static
variables of ppu.c at zero. -/
def powerOn : Machine Unit Unit where
  bus := init_bus ()
  ppu := start_display idleExt (init_bus ())
  dma_cycle_counter := 0
  bg_tile_attrs := fun _ => 0
  bg_color_ids := fun _ => 0

/-- The power-on machine in the middle of an OAM-DMA transfer. -/
def powerOnDma : Machine Unit Unit :=
  { powerOn with ppu := { powerOn.ppu with dma_active := true } }

/-- The power-on machine on its last scanline, `LY = 153`. -/
def powerOnLastLine : Machine Unit Unit :=
  { powerOn with ppu := { powerOn.ppu with LY := 153 } }

/-- The power-on machine with `0x42` placed at `wram[0]`. -/
def powerOnWram42 : Machine Unit Unit :=
  { powerOn with bus := { powerOn.bus with wram := powerOn.bus.wram.set 0 0x42 } }

/-- A CGB machine set up for an HDMA transfer of work RAM `0xC100..` to VRAM
`0x8000..`: 32 bytes of `0xAB` at `wram[0x100..0x120)`, `HDMA1..4 = C1,00,00,00`,
a cartridge present. -/
def powerOnHdma : Machine Unit Unit :=
  { powerOn with
    bus := { powerOn.bus with
      is_cgb := true,
      cartridge := some (),
      wram := fun i => if 0x100 ≤ i ∧ i < 0x120 then 0xAB else 0 },
    ppu := { powerOn.ppu with HDMA1 := 0xC1, HDMA2 := 0x00, HDMA3 := 0x00, HDMA4 := 0x00 } }

/-- The power-on machine with RIGHT held down: `buttons_dir = 0x0E` (pressed is 0),
`buttons_action = 0x0F`. -/
def powerOnRight : Machine Unit Unit :=
  { powerOn with bus := { powerOn.bus with buttons_dir := 0x0E, buttons_action := 0x0F } }

/-- The power-on machine (a DMG: `is_cgb = false`) with `0x42` placed at
`wram[0x2000]`, the first byte of work RAM bank 2. -/
def powerOnWramBank2 : Machine Unit Unit :=
  { powerOn with bus := { powerOn.bus with wram := powerOn.bus.wram.set 0x2000 0x42 } }

/-- The power-on machine with the LCD switched off: `LCDC = 0x11`, bit 7 clear. -/
def powerOnLcdOff : Machine Unit Unit :=
  { powerOn with ppu := { powerOn.ppu with LCDC := 0x11 } }

/-- The power-on machine with `0x42` placed at `vram[0]`, the byte behind the bus
address `0x8000` in VRAM bank 0. -/
def powerOnVram42 : Machine Unit Unit :=
  { powerOn with bus := { powerOn.bus with vram := powerOn.bus.vram.set 0 0x42 } }

/-- A CGB machine with work RAM bank 2 selected (`SVBK = 2`) and `0x42` placed at
`wram[0x2000]`, the byte behind the bus address `0xD000` in that bank. -/
def powerOnSvbk2 : Machine Unit Unit :=
  { powerOn with bus := { powerOn.bus with
      is_cgb := true, SVBK := 2, wram := powerOn.bus.wram.set 0x2000 0x42 } }

/-- A CGB machine at power-on with three bytes of video RAM set: the tile-map byte
for the top-left tile is `0x00` in bank 0 (tile 0) and `0x01` in bank 1 (attribute:
palette 1), row 1 of tile 1 and row 1 of tile `0xFF` have their leftmost pixel at
colour id 1, and every other byte of video RAM, tile 0 included, is zero. -/
def powerOnTiles : Machine Unit Unit :=
  { powerOn with bus := { powerOn.bus with
      is_cgb := true,
      vram := fun i =>
        if i = 0x3800 then 0x01 else if i = 0x12 then 0x80 else if i = 0xFF2 then 0x80 else 0 } }

/-- The power-on machine (a DMG) with sprites enabled (`LCDC = 0x93`) and one
sprite over one background tile: row 1 of background tile 0 has colour id 1 at
`x = 0` and colour id 0 at `x = 1`; OAM entry 0 is a sprite at the top-left corner
of line 1 (`y = 17`, `x = 8`) with tile 2 and attribute `0x80` (behind the
background), and row 0 of tile 2 has colour id 1 at its pixels 0 and 1. -/
def powerOnSprite : Machine Unit Unit :=
  { powerOn with
    bus := { powerOn.bus with
      vram := fun i => if i = 0x02 then 0x80 else if i = 0x20 then 0xC0 else 0,
      oam := fun i =>
        if i = 0 then 17 else if i = 1 then 8 else if i = 2 then 2 else if i = 3 then 0x80
        else 0 },
    ppu := { powerOn.ppu with LCDC := 0x93 } }

/-! ## Frames: the part of the machine a function leaves alone -/

/-- The machine with the outputs of the scanline renderer blanked: the
framebuffer and the two per-line caches. -/
def render_frame (m : Machine κ τ) : Machine κ τ :=
  { m with
    ppu := { m.ppu with framebuffer := fun _ => 0 },
    bg_tile_attrs := fun _ => 0,
    bg_color_ids := fun _ => 0 }

/-- The machine with video RAM blanked. -/
def vram_frame (m : Machine κ τ) : Machine κ τ :=
  { m with bus := { m.bus with vram := fun _ => 0 } }

/-- The machine with video RAM and the HDMA engine's registers blanked: what
`hdma_transfer1` can change. -/
def hdma_frame (m : Machine κ τ) : Machine κ τ :=
  { m with
    bus := { m.bus with vram := fun _ => 0 },
    ppu := { m.ppu with
      hdma_src := 0, hdma_dst := 0, hdma_remaining := 0, hdma_active := false, HDMA5 := 0 } }

/-- The machine with the state of the OAM-DMA engine blanked: OAM, the engine's
registers and its pacing accumulator.  This is what the OAM-DMA part of
`display_cycle` can change. -/
def dma_frame (m : Machine κ τ) : Machine κ τ :=
  { m with
    dma_cycle_counter := 0,
    bus := { m.bus with oam := fun _ => 0 },
    ppu := { m.ppu with
      dma_pending := false, dma_active := false, dma_counter := 0, dma_source := 0 } }

/-- The machine with everything blanked that one iteration of the OAM-DMA loop
changes: OAM, the byte counter and the pacing accumulator. -/
def oam_frame (m : Machine κ τ) : Machine κ τ :=
  { m with
    dma_cycle_counter := 0,
    bus := { m.bus with oam := fun _ => 0 },
    ppu := { m.ppu with dma_counter := 0 } }

/-- The machine with everything blanked that the line advance of `display_cycle`
can change: dot clock, `LY`, `STAT`, `IF`, `frame_ready` and the renderer's
outputs. -/
def line_frame (m : Machine κ τ) : Machine κ τ :=
  { m with
    bus := { m.bus with IF := 0 },
    ppu := { m.ppu with
      cycles_in_line := 0, LY := 0, STAT := 0, frame_ready := false, framebuffer := fun _ => 0 },
    bg_tile_attrs := fun _ => 0,
    bg_color_ids := fun _ => 0 }

/-- The machine with everything blanked that the mode update of `display_cycle`
can change: `STAT`, `IF`, and what an HBlank HDMA block changes. -/
def mode_frame (m : Machine κ τ) : Machine κ τ :=
  { m with
    bus := { m.bus with IF := 0, vram := fun _ => 0 },
    ppu := { m.ppu with
      STAT := 0,
      hdma_src := 0, hdma_dst := 0, hdma_remaining := 0, hdma_active := false, HDMA5 := 0 } }

/-- The machine with `STAT`, `IF` and `frame_ready` blanked: what the mode and
coincidence parts of the line advance can change. -/
def stat_frame (m : Machine κ τ) : Machine κ τ :=
  { m with bus := { m.bus with IF := 0 }, ppu := { m.ppu with STAT := 0, frame_ready := false } }

/-- The machine with `STAT` and `IF` blanked: what the coincidence part of the
line advance can change. -/
def irq_frame (m : Machine κ τ) : Machine κ τ :=
  { m with bus := { m.bus with IF := 0 }, ppu := { m.ppu with STAT := 0 } }

/-! ## Runs of steps, address arithmetic and invariants -/

/-- The machine on which the line advance and mode update of a step run: the dot
clock advanced, a pending OAM-DMA latched, the OAM-DMA engine run. -/
def after_dma (E : Ext κ τ) (m : Machine κ τ) (cycles : Int) : Machine κ τ :=
  dma_run E (dma_latch (add_cycles m cycles)) cycles

/-- The line-advance block of `display_cycle` runs in this step: the LCD is on and
the dot clock reaches 456. -/
def advances_line (m : Machine κ τ) (cycles : Int) : Bool :=
  decide (m.ppu.LCDC &&& LCDC_ENABLE ≠ 0) && decide (m.ppu.cycles_in_line + cycles ≥ 456)

/-- The machine after a sequence of PPU steps with the given cycle counts. -/
def run_steps (E : Ext κ τ) (m : Machine κ τ) (cs : List Int) : Machine κ τ :=
  cs.foldl (display_cycle E) m

/-- The number of steps of a sequence in which the line-advance block runs. -/
def count_line_advances (E : Ext κ τ) : Machine κ τ → List Int → Nat
  | _, [] => 0
  | m, c :: cs =>
    (if advances_line m c then 1 else 0) + count_line_advances E (display_cycle E m c) cs

/-- The state of the frame after `q` line advances: LCD on, dot clock within the
line, `LY` the line number modulo 154, and VBlank signalled (flag `frame_ready`
and bit 0 of `IF`) once line 144 has been entered. -/
def FrameInv (m : Machine κ τ) (q : Nat) : Prop :=
  m.ppu.LCDC &&& LCDC_ENABLE ≠ 0 ∧
  0 ≤ m.ppu.cycles_in_line ∧ m.ppu.cycles_in_line < 456 ∧
  m.ppu.LY = q % 154 ∧
  (144 ≤ q → m.ppu.frame_ready = true ∧ m.bus.IF % 2 = 1)

/-- The pacing accumulator of the OAM-DMA engine is at rest (zero) whenever no
transfer is active. -/
def DmaAtRest (m : Machine κ τ) : Prop :=
  m.ppu.dma_active = false → m.dma_cycle_counter = 0

/-- The progress of an OAM-DMA transfer from work RAM bank 0, `t` cycles after its
latch, relative to the machine `m0` in which it was requested with source `src`:
`min 160 (t / 4)` bytes are in OAM, the rest of OAM is as it was, and the engine is
active with its counters at `t / 4` and `t % 4` until `t` reaches 640. -/
def DmaInv (m0 m : Machine κ τ) (src t : Nat) : Prop :=
  m.ppu.LCDC = m0.ppu.LCDC ∧ m.bus.wram = m0.bus.wram ∧ m.bus.hram = m0.bus.hram ∧
  m.ppu.dma_pending = false ∧
  (∀ i, m.bus.oam i
    = if i < min 160 (t / 4) then m0.bus.wram (src - 0xC000 + i) else m0.bus.oam i) ∧
  (t < 640 → m.ppu.dma_active = true ∧ m.ppu.dma_source = src ∧
    m.ppu.dma_counter = t / 4 ∧ m.dma_cycle_counter = ((t % 4 : Nat) : Int)) ∧
  (640 ≤ t → m.ppu.dma_active = false ∧ m.dma_cycle_counter = 0)

/-- The machine after a write of the page `p` to `0xFF46` and a sequence of PPU
steps with the given cycle counts. -/
def after_oam_dma (E : Ext κ τ) (m : Machine κ τ) (p : Nat) (cs : List Nat) : Machine κ τ :=
  run_steps E (write_byte_bus E m 0xFF46 p) (cs.map (fun c => (c : Int)))

/-- The index into `wram` that the bus uses for an address in `0xC000..0xFDFF`:
bank 0, the switchable bank, and their two echoes. -/
def wram_index (svbk addy : Nat) : Nat :=
  if addy ≤ 0xCFFF then addy - 0xC000
  else if addy ≤ 0xDFFF then wram_bank_index svbk (addy - 0xD000)
  else if addy ≤ 0xEFFF then addy - 0xE000
  else wram_bank_index svbk (addy - 0xF000)

/-- The source address latched by a write to HDMA5: `(HDMA1 << 8) | (HDMA2 & 0xF0)`. -/
def hdma_source (d : Ppu_t) : Nat := (d.HDMA1 <<< 8) ||| (d.HDMA2 &&& 0xF0)

/-- The destination address latched by a write to HDMA5:
`0x8000 | ((HDMA3 & 0x1F) << 8) | (HDMA4 & 0xF0)`. -/
def hdma_dest (d : Ppu_t) : Nat := 0x8000 ||| ((d.HDMA3 &&& 0x1F) <<< 8) ||| (d.HDMA4 &&& 0xF0)

/-- The byte count requested by a write of `val` to HDMA5. -/
def hdma_length (val : Nat) : Nat := ((val &&& 0x7F) + 1) * 0x10

/-- The machine after `k` HBlank entries with HDMA active, each of which makes
`display_cycle` call `hdma_transfer1`. -/
def hblank_entries (E : Ext κ τ) : Nat → Machine κ τ → Machine κ τ
  | 0, m => m
  | k + 1, m => hblank_entries E k (hdma_transfer1 E m)

/-- The state of an HBlank HDMA transfer of `n + 1` blocks after `k` entries,
relative to the machine `m` in which it was armed: cursors advanced by `16 * k`,
`(n + 1 - k) * 16` bytes left, `HDMA5 = n - k` while blocks remain and the engine
idle with `HDMA5 = 0xFF` after the last; nothing but video RAM and the HDMA
registers differs from `m`. -/
def HdmaInv (m mk : Machine κ τ) (n k : Nat) : Prop :=
  hdma_frame mk = hdma_frame m ∧
  mk.ppu.hdma_src = (hdma_source m.ppu + 16 * k) % 0x10000 ∧
  mk.ppu.hdma_dst = hdma_dest m.ppu + 16 * k ∧
  mk.ppu.hdma_remaining = (n + 1 - k) * 16 ∧
  (k ≤ n → mk.ppu.hdma_active = true ∧ mk.ppu.HDMA5 = n - k) ∧
  (n < k → mk.ppu.hdma_active = false ∧ mk.ppu.HDMA5 = 0xFF)

/-- The machine after successive writes of the bytes `bs` to `0xFF69` (BCPD). -/
def palette_writes (E : Ext κ τ) (m : Machine κ τ) (bs : List Nat) : Machine κ τ :=
  bs.foldl (fun m1 b => write_byte_bus E m1 0xFF69 b) m

/-- The machine after successive calls of `bus_update_serial` with the given cycle
counts. -/
def serial_ticks (m : Machine κ τ) (cs : List Int) : Machine κ τ :=
  cs.foldl bus_update_serial m

/-- An operation of the CPU driver on the machine: a PPU step with a cycle count,
or a bus write. -/
inductive BusOp where
  | step (cycles : Int)
  | write (addy val : Nat)

/-- The machine after one operation of the driver. -/
def apply_op (E : Ext κ τ) (m : Machine κ τ) : BusOp → Machine κ τ
  | BusOp.step cycles => display_cycle E m cycles
  | BusOp.write addy val => write_byte_bus E m addy val

/-- The machine after a sequence of PPU steps and bus writes. -/
def run_ops (E : Ext κ τ) (m : Machine κ τ) (ops : List BusOp) : Machine κ τ :=
  ops.foldl (apply_op E) m

/-- The line counter is within the frame, and on the VBlank lines `144..153` the
STAT mode bits say mode 1. -/
def VBlankInv (m : Machine κ τ) : Prop :=
  m.ppu.LY ≤ 153 ∧ (144 ≤ m.ppu.LY → m.ppu.STAT &&& 0x03 = 1)

/-- The progress of an OAM-DMA transfer from any source page, `t` cycles after its
latch, relative to the machine `m0` in which it was requested with source `src`:
the bytes fetched are `g 0, g 1, ...`; `min 160 (t / 4)` of them are in OAM, the rest
of OAM is as it was, and the engine is active with its counters at `t / 4` and
`t % 4` until `t` reaches 640. -/
def DmaProgress (m0 m : Machine κ τ) (g : Nat → Nat) (src t : Nat) : Prop :=
  m.ppu.LCDC = m0.ppu.LCDC ∧ m.bus.wram = m0.bus.wram ∧
  m.ppu.dma_pending = false ∧
  (∀ i, m.bus.oam i = if i < min 160 (t / 4) then g i else m0.bus.oam i) ∧
  (t < 640 → m.ppu.dma_active = true ∧ m.ppu.dma_source = src ∧
    m.ppu.dma_counter = t / 4 ∧ m.dma_cycle_counter = ((t % 4 : Nat) : Int)) ∧
  (640 ≤ t → m.ppu.dma_active = false ∧ m.dma_cycle_counter = 0)

/-! # Theorems -/

/-! ## Basic facts about the embedding -/

@[simp] theorem Mem.set_same (m : Mem) (i v : Nat) : m.set i v i = v := by
  simp [Mem.set]

theorem Mem.set_other (m : Mem) (i v j : Nat) (h : j ≠ i) : m.set i v j = m j := by
  simp [Mem.set, h]

/-- Outside `0xFF55` the text of `write_byte_bus` makes no recursive call. -/
theorem write_byte_bus_body_congr (wr1 wr2 : Machine κ τ → Nat → Nat → Machine κ τ)
    (E : Ext κ τ) (m : Machine κ τ) (addy val : Nat) (h : addy ≠ 0xFF55) :
    write_byte_bus_body wr1 E m addy val = write_byte_bus_body wr2 E m addy val := by
  have hs : write_switch wr1 E m addy val = write_switch wr2 E m addy val := by
    simp [write_switch, h]
  simp only [write_byte_bus_body, hs]

/-- The general-purpose HDMA loop only stores to VRAM addresses, so its body does
not depend on how deep the recursion is unfolded. -/
theorem gdma_step_congr (wr1 wr2 : Machine κ τ → Nat → Nat → Machine κ τ) (E : Ext κ τ)
    (h : ∀ m a v, a ≠ 0xFF55 → wr1 m a v = wr2 m a v) (src dst : Nat) (m : Machine κ τ) (i : Nat) :
    gdma_step wr1 E src dst m i = gdma_step wr2 E src dst m i := by
  unfold gdma_step
  by_cases hd : (dst + i) % 0x10000 ≥ 0x8000 ∧ (dst + i) % 0x10000 < 0xA000
  · simp only [hd, and_self, if_true]
    exact h _ _ _ (by omega)
  · simp only [hd, if_false]

/-- The recursive equation of the C function `write_byte_bus`: the embedding is a
fixed point of its own text. -/
theorem write_byte_bus_unfold (E : Ext κ τ) (m : Machine κ τ) (addy val : Nat) :
    write_byte_bus E m addy val = write_byte_bus_body (write_byte_bus E) E m addy val := by
  have hwr : ∀ (m : Machine κ τ) a v, a ≠ 0xFF55 →
      write_byte_bus_leaf E m a v = write_byte_bus E m a v := fun m a v ha =>
    write_byte_bus_body_congr _ _ E m a v ha
  have hstep : gdma_step (write_byte_bus_leaf E) E = gdma_step (write_byte_bus E) E := by
    funext src dst m1 i
    exact gdma_step_congr _ _ E hwr src dst m1 i
  have hh : write_hdma5 (write_byte_bus_leaf E) E m val = write_hdma5 (write_byte_bus E) E m val := by
    simp only [write_hdma5, hstep]
  have hs : write_switch (write_byte_bus_leaf E) E m addy val
      = write_switch (write_byte_bus E) E m addy val := by
    simp only [write_switch, hh]
  simp only [write_byte_bus, write_byte_bus_body, hs]

/-! ## C1: the bus during OAM-DMA -/

/-- C1. While OAM-DMA is active, a read outside `0xFF80..0xFFFE` returns `0xFF` and
a write there leaves the whole machine unchanged; inside `0xFF80..0xFFFE` the read
returns `hram[addr - 0xFF80]` and the write stores the value at that index of
`hram` and changes nothing else. -/
theorem dma_active_bus_access (E : Ext κ τ) (m : Machine κ τ) (addr v : Nat)
    (hdma : m.ppu.dma_active = true) :
    (¬ (0xFF80 ≤ addr ∧ addr ≤ 0xFFFE) →
      read_byte_bus E m addr = 0xFF ∧ write_byte_bus E m addr v = m) ∧
    (0xFF80 ≤ addr ∧ addr ≤ 0xFFFE →
      read_byte_bus E m addr = m.bus.hram (addr - 0xFF80) ∧
      write_byte_bus E m addr v
        = { m with bus := { m.bus with hram := m.bus.hram.set (addr - 0xFF80) v } } ∧
      (write_byte_bus E m addr v).bus.hram (addr - 0xFF80) = v ∧
      ∀ j, j ≠ addr - 0xFF80 → (write_byte_bus E m addr v).bus.hram j = m.bus.hram j) := by
  constructor
  · intro hout
    have hout2 : ¬ (addr ≥ 0xFF80 ∧ addr ≤ 0xFFFE) := hout
    constructor
    · simp only [read_byte_bus, hdma, if_true, hout2, if_false, ite_self]
    · simp only [write_byte_bus, write_byte_bus_body, hdma, if_true, hout2, if_false]
  · intro hin
    have hin2 : addr ≥ 0xFF80 ∧ addr ≤ 0xFFFE := hin
    have hw : write_byte_bus E m addr v
        = { m with bus := { m.bus with hram := m.bus.hram.set (addr - 0xFF80) v } } := by
      simp only [write_byte_bus, write_byte_bus_body, hdma, if_true, hin2, and_self]
    refine ⟨?_, hw, ?_, ?_⟩
    · simp only [read_byte_bus, hdma, if_true, hin2, and_self]
    · rw [hw]; simp
    · intro j hj
      rw [hw]; simp [Mem.set_other _ _ _ _ hj]

theorem dma_active_bus_access_witness :
    powerOnDma.ppu.dma_active = true ∧
    read_byte_bus idleExt powerOnDma 0xC000 = 0xFF ∧
    write_byte_bus idleExt powerOnDma 0xC000 0x42 = powerOnDma :=
  ⟨rfl, (dma_active_bus_access idleExt powerOnDma 0xC000 0x42 rfl).1 (by decide)⟩
/-! ## C2, C3: work RAM banking and echo RAM -/

theorem bootrom_overlay_none (bus : Bus_t κ τ) (addy : Nat) (h : 0x0900 ≤ addy) :
    bootrom_overlay bus addy = none := by
  unfold bootrom_overlay
  cases bus.bootrom with
  | none => rfl
  | some rom =>
    have h1 : ¬ addy < 0x0100 := by omega
    have h2 : ¬ (bus.bootrom_size > 256 ∧ addy ≥ 0x0200 ∧ addy < 0x0900) := by omega
    simp only [h1, h2, if_false, ite_self]

theorem and7_le (x : Nat) : x &&& 0x07 ≤ 7 := Nat.and_le_right

/-- The banked index in closed form: bank `max 1 (SVBK & 7)`, no wrap-around. -/
theorem wram_bank_index_eq (svbk offset : Nat) (h : offset < 0x1000) :
    wram_bank_index svbk offset = 0x1000 + (max 1 (svbk &&& 7) - 1) * 0x1000 + offset := by
  unfold wram_bank_index
  have h7 := and7_le svbk
  generalize svbk &&& 7 = b at h7 ⊢
  by_cases h0 : b = 0
  · subst h0; simp; omega
  · have hm : max 1 b = b := max_eq_right (by omega)
    simp only [h0, if_false, hm]
    omega

/-- A read of the switchable window `0xD000..0xDFFF` with no OAM-DMA active. -/
theorem read_wram_banked (E : Ext κ τ) (m : Machine κ τ) (addr : Nat)
    (hdma : m.ppu.dma_active = false) (hlo : 0xD000 ≤ addr) (hhi : addr ≤ 0xDFFF) :
    read_byte_bus E m addr = m.bus.wram (wram_bank_index m.bus.SVBK (addr - 0xD000)) := by
  have hb := bootrom_overlay_none m.bus addr (by omega)
  have h1 : ¬ addr < 0x8000 := by omega
  have h2 : ¬ addr ≤ 0x9FFF := by omega
  have h3 : ¬ (addr ≥ 0xA000 ∧ addr ≤ 0xBFFF) := by omega
  have h4 : ¬ (addr ≥ 0xC000 ∧ addr ≤ 0xCFFF) := by omega
  have h5 : addr ≥ 0xD000 ∧ addr ≤ 0xDFFF := ⟨hlo, hhi⟩
  simp only [read_byte_bus, hdma, hb, h1, h2, h3, h4, h5, if_false, if_true, and_self,
    Bool.false_eq_true]

/-- C2. With no OAM-DMA active, a read of `addr` in `0xD000..0xDFFF` returns
`wram[0x1000 + (max(1, SVBK & 7) - 1) * 0x1000 + (addr - 0xD000)]` for every value
of `SVBK`; in particular `SVBK = 0` and `SVBK = 1` read the same byte. -/
theorem read_wram_bank_window (E : Ext κ τ) (m : Machine κ τ) (addr : Nat)
    (hdma : m.ppu.dma_active = false) (hlo : 0xD000 ≤ addr) (hhi : addr ≤ 0xDFFF) :
    read_byte_bus E m addr
      = m.bus.wram (0x1000 + (max 1 (m.bus.SVBK &&& 7) - 1) * 0x1000 + (addr - 0xD000)) ∧
    read_byte_bus E { m with bus := { m.bus with SVBK := 0 } } addr
      = read_byte_bus E { m with bus := { m.bus with SVBK := 1 } } addr := by
  constructor
  · rw [read_wram_banked E m addr hdma hlo hhi, wram_bank_index_eq _ _ (by omega)]
  · have h0 := read_wram_banked E { m with bus := { m.bus with SVBK := 0 } } addr hdma hlo hhi
    have h1 := read_wram_banked E { m with bus := { m.bus with SVBK := 1 } } addr hdma hlo hhi
    rw [h0, h1]
    show m.bus.wram (wram_bank_index 0 (addr - 0xD000))
      = m.bus.wram (wram_bank_index 1 (addr - 0xD000))
    simp [wram_bank_index]

theorem read_wram_bank_window_witness :
    powerOn.ppu.dma_active = false ∧ 0xD000 ≤ 0xD123 ∧ 0xD123 ≤ 0xDFFF ∧
    read_byte_bus idleExt powerOn 0xD123
      = powerOn.bus.wram (0x1000 + (max 1 (powerOn.bus.SVBK &&& 7) - 1) * 0x1000
          + (0xD123 - 0xD000)) :=
  ⟨rfl, by decide, by decide,
    (read_wram_bank_window idleExt powerOn 0xD123 rfl (by decide) (by decide)).1⟩
/-- A read of work RAM bank 0 (`0xC000..0xCFFF`) with no OAM-DMA active. -/
theorem read_wram_bank0 (E : Ext κ τ) (m : Machine κ τ) (addr : Nat)
    (hdma : m.ppu.dma_active = false) (hlo : 0xC000 ≤ addr) (hhi : addr ≤ 0xCFFF) :
    read_byte_bus E m addr = m.bus.wram (addr - 0xC000) := by
  have hb := bootrom_overlay_none m.bus addr (by omega)
  have h1 : ¬ addr < 0x8000 := by omega
  have h2 : ¬ addr ≤ 0x9FFF := by omega
  have h3 : ¬ (addr ≥ 0xA000 ∧ addr ≤ 0xBFFF) := by omega
  have h4 : addr ≥ 0xC000 ∧ addr ≤ 0xCFFF := ⟨hlo, hhi⟩
  simp only [read_byte_bus, hdma, hb, h1, h2, h3, h4, if_false, if_true, and_self,
    Bool.false_eq_true]

/-- A write to the echo of bank 0 (`0xE000..0xEFFF`) with no OAM-DMA active. -/
theorem write_echo_bank0 (E : Ext κ τ) (m : Machine κ τ) (addr v : Nat)
    (hdma : m.ppu.dma_active = false) (hlo : 0xE000 ≤ addr) (hhi : addr ≤ 0xEFFF) :
    write_byte_bus E m addr v
      = { m with bus := { m.bus with wram := m.bus.wram.set (addr - 0xE000) v } } := by
  have h1 : ¬ addr < 0x8000 := by omega
  have h2 : ¬ addr ≤ 0x9FFF := by omega
  have h3 : ¬ (addr ≥ 0xA000 ∧ addr ≤ 0xBFFF) := by omega
  have h4 : ¬ (addr ≥ 0xC000 ∧ addr ≤ 0xCFFF) := by omega
  have h5 : ¬ (addr ≥ 0xD000 ∧ addr ≤ 0xDFFF) := by omega
  have h6 : addr ≥ 0xE000 ∧ addr ≤ 0xEFFF := ⟨hlo, hhi⟩
  simp only [write_byte_bus, write_byte_bus_body, hdma, h1, h2, h3, h4, h5, h6, if_false,
    if_true, and_self, Bool.false_eq_true]

/-- A write to the echo of the switchable bank (`0xF000..0xFDFF`) with no OAM-DMA
active. -/
theorem write_echo_banked (E : Ext κ τ) (m : Machine κ τ) (addr v : Nat)
    (hdma : m.ppu.dma_active = false) (hlo : 0xF000 ≤ addr) (hhi : addr ≤ 0xFDFF) :
    write_byte_bus E m addr v
      = { m with bus := { m.bus with
            wram := m.bus.wram.set (wram_bank_index m.bus.SVBK (addr - 0xF000)) v } } := by
  have h1 : ¬ addr < 0x8000 := by omega
  have h2 : ¬ addr ≤ 0x9FFF := by omega
  have h3 : ¬ (addr ≥ 0xA000 ∧ addr ≤ 0xBFFF) := by omega
  have h4 : ¬ (addr ≥ 0xC000 ∧ addr ≤ 0xCFFF) := by omega
  have h5 : ¬ (addr ≥ 0xD000 ∧ addr ≤ 0xDFFF) := by omega
  have h6 : ¬ (addr ≥ 0xE000 ∧ addr ≤ 0xEFFF) := by omega
  have h7 : addr ≥ 0xF000 ∧ addr ≤ 0xFDFF := ⟨hlo, hhi⟩
  simp only [write_byte_bus, write_byte_bus_body, hdma, h1, h2, h3, h4, h5, h6, h7, if_false,
    if_true, and_self, Bool.false_eq_true]

/-- C3. Echo RAM is transparent: with no OAM-DMA active, for every `k < 0x1E00`,
every value `v` and every `SVBK`, writing `v` to `0xE000 + k` and then reading
`0xC000 + k` returns `v`. -/
theorem echo_ram_transparent (E : Ext κ τ) (m : Machine κ τ) (k v : Nat)
    (hdma : m.ppu.dma_active = false) (hk : k < 0x1E00) :
    read_byte_bus E (write_byte_bus E m (0xE000 + k) v) (0xC000 + k) = v := by
  by_cases hlow : k < 0x1000
  · rw [write_echo_bank0 E m _ v hdma (by omega) (by omega), read_wram_bank0]
    · have : 0xC000 + k - 0xC000 = 0xE000 + k - 0xE000 := by omega
      simp [this]
    · exact hdma
    · omega
    · omega
  · rw [write_echo_banked E m _ v hdma (by omega) (by omega), read_wram_banked]
    · have : 0xC000 + k - 0xD000 = 0xE000 + k - 0xF000 := by omega
      simp [this]
    · exact hdma
    · omega
    · omega

theorem echo_ram_transparent_witness :
    powerOn.ppu.dma_active = false ∧ 0x1234 < 0x1E00 ∧
    read_byte_bus idleExt (write_byte_bus idleExt powerOn (0xE000 + 0x1234) 0x5A)
      (0xC000 + 0x1234) = 0x5A :=
  ⟨rfl, by decide, echo_ram_transparent idleExt powerOn 0x1234 0x5A rfl (by decide)⟩

/-! ## Frames: what each part of the PPU step can change -/

theorem foldl_preserves {α β γ : Type} (g : α → γ) (f : α → β → α)
    (h : ∀ a b, g (f a b) = g a) (l : List β) (a : α) : g (l.foldl f a) = g a := by
  induction l generalizing a with
  | nil => rfl
  | cons x xs ih => rw [List.foldl_cons, ih, h]

theorem tile_pixel_frame (E : Ext κ τ) (m : Machine κ τ) (a b c x : Nat) :
    render_frame (tile_pixel E m a b c x) = render_frame m := rfl

theorem bg_pixel_frame (E : Ext κ τ) (m : Machine κ τ) (x : Nat) :
    render_frame (bg_pixel E m x) = render_frame m := rfl

theorem window_pixel_frame (E : Ext κ τ) (m : Machine κ τ) (x : Nat) :
    render_frame (window_pixel E m x) = render_frame m := by
  unfold window_pixel
  simp only []
  split_ifs <;> rfl

theorem clear_pixel_frame (m : Machine κ τ) (x : Nat) :
    render_frame (clear_pixel m x) = render_frame m := rfl

theorem sprite_pixel_frame (m : Machine κ τ) (a p sp : Nat) (sx : Int) (lo hi px : Nat) :
    render_frame (sprite_pixel m a p sp sx lo hi px) = render_frame m := by
  unfold sprite_pixel
  simp only []
  split_ifs <;> rfl

theorem sprite_row_frame (m : Machine κ τ) (h : Int) (t a : Nat) (sx line : Int) :
    render_frame (sprite_row m h t a sx line) = render_frame m := by
  unfold sprite_row
  exact foldl_preserves render_frame _ (fun m1 px => sprite_pixel_frame m1 _ _ _ _ _ _ px) _ m

theorem sprite_entry_frame (st : Machine κ τ × Nat) (i : Nat) :
    render_frame (sprite_entry st i).1 = render_frame st.1 := by
  unfold sprite_entry
  simp only []
  split_ifs <;> first | rfl | exact sprite_row_frame _ _ _ _ _ _

theorem render_bg_scanline_frame (E : Ext κ τ) (m : Machine κ τ) :
    render_frame (render_bg_scanline E m) = render_frame m := by
  unfold render_bg_scanline
  split_ifs
  · rfl
  · exact foldl_preserves render_frame _ (bg_pixel_frame E) _ m

theorem render_window_scanline_frame (E : Ext κ τ) (m : Machine κ τ) :
    render_frame (render_window_scanline E m) = render_frame m := by
  unfold render_window_scanline
  split_ifs
  · rfl
  · rfl
  · exact foldl_preserves render_frame _ (window_pixel_frame E) _ m

theorem render_sprites_scanline_frame (m : Machine κ τ) :
    render_frame (render_sprites_scanline m) = render_frame m := by
  unfold render_sprites_scanline
  split_ifs
  · rfl
  · exact foldl_preserves (fun st : Machine κ τ × Nat => render_frame st.1) _
      sprite_entry_frame _ (m, 0)

/-- Rendering a line changes nothing but the framebuffer and the per-line caches. -/
theorem line_render_frame (E : Ext κ τ) (m : Machine κ τ) :
    render_frame (line_render E m) = render_frame m := by
  unfold line_render
  split_ifs
  · rw [render_sprites_scanline_frame, render_window_scanline_frame, render_bg_scanline_frame]
    exact foldl_preserves render_frame _ clear_pixel_frame _ m
  · rfl

/-- A bus write to a VRAM address `0x8000..0x9FFF`: dropped during OAM-DMA,
otherwise a store through `ppu_vram_write` in the bank selected by `VBK`. -/
theorem write_vram (E : Ext κ τ) (m : Machine κ τ) (addr v : Nat)
    (hlo : 0x8000 ≤ addr) (hhi : addr < 0xA000) :
    write_byte_bus E m addr v
      = if m.ppu.dma_active then m
        else ppu_vram_write m (vram_bank_index m.bus.VBK addr) v := by
  have h0 : ¬ (addr ≥ 0xFF80 ∧ addr ≤ 0xFFFE) := by omega
  have h1 : ¬ addr < 0x8000 := by omega
  have h2 : addr ≤ 0x9FFF := by omega
  simp only [write_byte_bus, write_byte_bus_body, h0, h1, h2, if_false, if_true]

theorem ppu_vram_write_frame (m : Machine κ τ) (a v : Nat) :
    vram_frame (ppu_vram_write m a v) = vram_frame m := by
  unfold ppu_vram_write
  split_ifs <;> rfl

theorem write_vram_frame (E : Ext κ τ) (m : Machine κ τ) (addr v : Nat)
    (hlo : 0x8000 ≤ addr) (hhi : addr < 0xA000) :
    vram_frame (write_byte_bus E m addr v) = vram_frame m := by
  rw [write_vram E m addr v hlo hhi]
  split_ifs
  · rfl
  · exact ppu_vram_write_frame _ _ _

theorem hdma_copy1_frame (E : Ext κ τ) (st : Machine κ τ × Nat × Nat) :
    vram_frame (hdma_copy1 E st).1 = vram_frame st.1 := by
  unfold hdma_copy1
  simp only []
  split_ifs with h
  · exact write_vram_frame E _ _ _ h.1 h.2
  · rfl

theorem hdma_block_frame (E : Ext κ τ) (m : Machine κ τ) :
    vram_frame (hdma_block E m).1 = vram_frame m :=
  foldl_preserves (fun st : Machine κ τ × Nat × Nat => vram_frame st.1) _
    (fun st _ => hdma_copy1_frame E st) _ (m, m.ppu.hdma_src, m.ppu.hdma_dst)

theorem hdma_frame_of_vram_frame (m1 m2 : Machine κ τ) (h : vram_frame m1 = vram_frame m2) :
    hdma_frame m1 = hdma_frame m2 :=
  congrArg (fun m : Machine κ τ => { m with ppu := { m.ppu with
      hdma_src := 0, hdma_dst := 0, hdma_remaining := 0, hdma_active := false, HDMA5 := 0 } }) h

theorem hdma_finish_frame (m : Machine κ τ) (src dst : Nat) :
    hdma_frame (hdma_finish m src dst) = hdma_frame m := by
  unfold hdma_finish
  simp only []
  split_ifs <;> rfl

/-- An HBlank block transfer changes nothing but video RAM and the HDMA registers. -/
theorem hdma_transfer1_frame (E : Ext κ τ) (m : Machine κ τ) :
    hdma_frame (hdma_transfer1 E m) = hdma_frame m := by
  unfold hdma_transfer1
  split_ifs
  · rfl
  · rfl
  · simp only []
    rw [hdma_finish_frame]
    exact hdma_frame_of_vram_frame _ _ (hdma_block_frame E m)

theorem dma_latch_frame (m : Machine κ τ) : dma_frame (dma_latch m) = dma_frame m := by
  unfold dma_latch
  split_ifs <;> rfl

theorem dma_loop_frame (E : Ext κ τ) (fuel : Nat) (m : Machine κ τ) :
    dma_frame (dma_loop E fuel m) = dma_frame m := by
  induction fuel generalizing m with
  | zero => rfl
  | succ n ih =>
    unfold dma_loop
    split_ifs
    · rw [ih]; rfl
    · rfl

theorem dma_finish_frame (m : Machine κ τ) : dma_frame (dma_finish m) = dma_frame m := by
  unfold dma_finish
  split_ifs <;> rfl

theorem dma_run_frame (E : Ext κ τ) (m : Machine κ τ) (cycles : Int) :
    dma_frame (dma_run E m cycles) = dma_frame m := by
  unfold dma_run
  split_ifs
  · simp only []
    rw [dma_finish_frame, dma_loop_frame]
    rfl
  · rfl

theorem line_frame_of_render_frame (m1 m2 : Machine κ τ) (h : render_frame m1 = render_frame m2) :
    line_frame m1 = line_frame m2 :=
  congrArg (fun m : Machine κ τ => { m with
    bus := { m.bus with IF := 0 },
    ppu := { m.ppu with cycles_in_line := 0, LY := 0, STAT := 0, frame_ready := false } }) h

theorem line_mode_frame (m : Machine κ τ) : line_frame (line_mode m) = line_frame m := by
  unfold line_mode
  simp only []
  split_ifs <;> rfl

theorem line_lyc_frame (m : Machine κ τ) : line_frame (line_lyc m) = line_frame m := by
  unfold line_lyc
  simp only []
  split_ifs <;> rfl

theorem line_advance_frame (E : Ext κ τ) (m : Machine κ τ) :
    line_frame (line_advance E m) = line_frame m := by
  unfold line_advance
  split_ifs
  · rw [line_frame_of_render_frame _ _ (line_render_frame E _), line_lyc_frame, line_mode_frame]
    rfl
  · rfl

theorem mode_frame_of_hdma_frame (m1 m2 : Machine κ τ) (h : hdma_frame m1 = hdma_frame m2) :
    mode_frame m1 = mode_frame m2 :=
  congrArg (fun m : Machine κ τ => { m with
    bus := { m.bus with IF := 0 }, ppu := { m.ppu with STAT := 0 } }) h

theorem hblank_irq_frame (m : Machine κ τ) : mode_frame (hblank_irq m) = mode_frame m := by
  unfold hblank_irq
  split_ifs <;> rfl

theorem enter_hblank_frame (E : Ext κ τ) (m : Machine κ τ) :
    mode_frame (enter_hblank E m) = mode_frame m := by
  unfold enter_hblank
  split_ifs
  · rw [hblank_irq_frame]
    exact mode_frame_of_hdma_frame _ _ (hdma_transfer1_frame E m)
  · exact hblank_irq_frame m
  · rfl

theorem mode_update_frame (E : Ext κ τ) (m : Machine κ τ) :
    mode_frame (mode_update E m) = mode_frame m := by
  unfold mode_update
  split_ifs
  · rfl
  · rfl
  · exact enter_hblank_frame E m
  · rfl

theorem line_mode_stat_frame (m : Machine κ τ) : stat_frame (line_mode m) = stat_frame m := by
  unfold line_mode
  simp only []
  split_ifs <;> rfl

theorem line_lyc_stat_frame (m : Machine κ τ) : stat_frame (line_lyc m) = stat_frame m := by
  unfold line_lyc
  simp only []
  split_ifs <;> rfl

/-- A field that a frame does not blank has the same value in two machines with
the same frame. -/
theorem proj_of_frame {α : Type} (F : Machine κ τ → Machine κ τ) (f : Machine κ τ → α)
    (hf : ∀ m, f (F m) = f m) {m1 m2 : Machine κ τ} (h : F m1 = F m2) : f m1 = f m2 := by
  rw [← hf m1, ← hf m2, h]

/-- The mode and coincidence parts of the line advance and the rendering of the
line, together: only `STAT`, `IF`, `frame_ready` and the renderer's outputs
change. -/
theorem line_tail_LY (E : Ext κ τ) (m : Machine κ τ) :
    (line_render E (line_lyc (line_mode m))).ppu.LY = m.ppu.LY := by
  have h1 : (line_render E (line_lyc (line_mode m))).ppu.LY = (line_lyc (line_mode m)).ppu.LY :=
    proj_of_frame render_frame (fun x => x.ppu.LY) (fun _ => rfl) (line_render_frame E _)
  have h2 : (line_lyc (line_mode m)).ppu.LY = (line_mode m).ppu.LY :=
    proj_of_frame stat_frame (fun x => x.ppu.LY) (fun _ => rfl) (line_lyc_stat_frame _)
  have h3 : (line_mode m).ppu.LY = m.ppu.LY :=
    proj_of_frame stat_frame (fun x => x.ppu.LY) (fun _ => rfl) (line_mode_stat_frame _)
  rw [h1, h2, h3]

theorem line_tail_cycles (E : Ext κ τ) (m : Machine κ τ) :
    (line_render E (line_lyc (line_mode m))).ppu.cycles_in_line = m.ppu.cycles_in_line := by
  have h1 : (line_render E (line_lyc (line_mode m))).ppu.cycles_in_line
      = (line_lyc (line_mode m)).ppu.cycles_in_line :=
    proj_of_frame render_frame (fun x => x.ppu.cycles_in_line) (fun _ => rfl)
      (line_render_frame E _)
  have h2 : (line_lyc (line_mode m)).ppu.cycles_in_line = (line_mode m).ppu.cycles_in_line :=
    proj_of_frame stat_frame (fun x => x.ppu.cycles_in_line) (fun _ => rfl)
      (line_lyc_stat_frame _)
  have h3 : (line_mode m).ppu.cycles_in_line = m.ppu.cycles_in_line :=
    proj_of_frame stat_frame (fun x => x.ppu.cycles_in_line) (fun _ => rfl)
      (line_mode_stat_frame _)
  rw [h1, h2, h3]

/-- The dot clock after the line-advance block. -/
theorem line_advance_cycles (E : Ext κ τ) (m : Machine κ τ) :
    (line_advance E m).ppu.cycles_in_line
      = if m.ppu.cycles_in_line ≥ 456 then m.ppu.cycles_in_line - 456
        else m.ppu.cycles_in_line := by
  unfold line_advance
  split_ifs
  · rw [line_tail_cycles]; rfl
  · rfl

/-- The line counter after the line-advance block. -/
theorem line_advance_LY (E : Ext κ τ) (m : Machine κ τ) :
    (line_advance E m).ppu.LY
      = if m.ppu.cycles_in_line ≥ 456 then
          (if (m.ppu.LY + 1) % 0x100 > 153 then 0 else (m.ppu.LY + 1) % 0x100)
        else m.ppu.LY := by
  unfold line_advance
  split_ifs with h hw
  · rw [line_tail_LY]
    show (if (m.ppu.LY + 1) % 0x100 > 153 then 0 else (m.ppu.LY + 1) % 0x100) = 0
    rw [if_pos hw]
  · rw [line_tail_LY]
    show (if (m.ppu.LY + 1) % 0x100 > 153 then 0 else (m.ppu.LY + 1) % 0x100) = _
    rw [if_neg hw]
  · rfl

theorem display_cycle_on (E : Ext κ τ) (m : Machine κ τ) (cycles : Int)
    (hon : m.ppu.LCDC &&& LCDC_ENABLE ≠ 0) :
    display_cycle E m cycles = mode_update E (line_advance E (after_dma E m cycles)) := by
  simp only [display_cycle, hon, if_false, after_dma]

theorem display_cycle_off (E : Ext κ τ) (m : Machine κ τ) (cycles : Int)
    (hoff : m.ppu.LCDC &&& LCDC_ENABLE = 0) : display_cycle E m cycles = m := by
  simp only [display_cycle, hoff, if_true]

theorem after_dma_frame (E : Ext κ τ) (m : Machine κ τ) (cycles : Int) :
    dma_frame (after_dma E m cycles) = dma_frame (add_cycles m cycles) := by
  unfold after_dma
  rw [dma_run_frame, dma_latch_frame]

/-- The dot clock, the line counter and LCDC after a step with the LCD enabled: at
most one line advance, whatever the cycle count. -/
theorem display_cycle_clock (E : Ext κ τ) (m : Machine κ τ) (cycles : Int)
    (hon : m.ppu.LCDC &&& LCDC_ENABLE ≠ 0) :
    (display_cycle E m cycles).ppu.cycles_in_line
      = (if m.ppu.cycles_in_line + cycles ≥ 456 then m.ppu.cycles_in_line + cycles - 456
         else m.ppu.cycles_in_line + cycles) ∧
    (display_cycle E m cycles).ppu.LY
      = (if m.ppu.cycles_in_line + cycles ≥ 456 then
          (if (m.ppu.LY + 1) % 0x100 > 153 then 0 else (m.ppu.LY + 1) % 0x100)
         else m.ppu.LY) ∧
    (display_cycle E m cycles).ppu.LCDC = m.ppu.LCDC := by
  rw [display_cycle_on E m cycles hon]
  have hc : (after_dma E m cycles).ppu.cycles_in_line = (add_cycles m cycles).ppu.cycles_in_line :=
    proj_of_frame dma_frame (fun x => x.ppu.cycles_in_line) (fun _ => rfl)
      (after_dma_frame E m cycles)
  have hl : (after_dma E m cycles).ppu.LY = (add_cycles m cycles).ppu.LY :=
    proj_of_frame dma_frame (fun x => x.ppu.LY) (fun _ => rfl) (after_dma_frame E m cycles)
  have hd : (after_dma E m cycles).ppu.LCDC = (add_cycles m cycles).ppu.LCDC :=
    proj_of_frame dma_frame (fun x => x.ppu.LCDC) (fun _ => rfl) (after_dma_frame E m cycles)
  have hc2 : (add_cycles m cycles).ppu.cycles_in_line = m.ppu.cycles_in_line + cycles := rfl
  have hl2 : (add_cycles m cycles).ppu.LY = m.ppu.LY := rfl
  have hd2 : (add_cycles m cycles).ppu.LCDC = m.ppu.LCDC := rfl
  rw [hc2] at hc
  rw [hl2] at hl
  rw [hd2] at hd
  refine ⟨?_, ?_, ?_⟩
  · have h1 : (mode_update E (line_advance E (after_dma E m cycles))).ppu.cycles_in_line
        = (line_advance E (after_dma E m cycles)).ppu.cycles_in_line :=
      proj_of_frame mode_frame (fun x => x.ppu.cycles_in_line) (fun _ => rfl)
        (mode_update_frame E _)
    rw [h1, line_advance_cycles, hc]
  · have h1 : (mode_update E (line_advance E (after_dma E m cycles))).ppu.LY
        = (line_advance E (after_dma E m cycles)).ppu.LY :=
      proj_of_frame mode_frame (fun x => x.ppu.LY) (fun _ => rfl) (mode_update_frame E _)
    rw [h1, line_advance_LY, hc, hl]
  · have h1 : (mode_update E (line_advance E (after_dma E m cycles))).ppu.LCDC
        = (line_advance E (after_dma E m cycles)).ppu.LCDC :=
      proj_of_frame mode_frame (fun x => x.ppu.LCDC) (fun _ => rfl) (mode_update_frame E _)
    have h2 : (line_advance E (after_dma E m cycles)).ppu.LCDC = (after_dma E m cycles).ppu.LCDC :=
      proj_of_frame line_frame (fun x => x.ppu.LCDC) (fun _ => rfl) (line_advance_frame E _)
    rw [h1, h2, hd]

/-! ## C4, C5: the dot clock and the line counter -/

/-- C4 (counterexample). From the power-on machine, whose dot clock is 0, one step
of 912 cycles leaves `cycles_in_line = 456`, outside `[0,455]`: a step takes at
most one line of 456 dots off the clock. -/
theorem cycles_in_line_escapes :
    powerOn.ppu.cycles_in_line = 0 ∧
    (display_cycle idleExt powerOn 912).ppu.cycles_in_line = 456 := by
  refine ⟨rfl, ?_⟩
  rw [(display_cycle_clock idleExt powerOn 912 (by decide)).1]
  decide

/-- C4 (amended). Starting from `cycles_in_line` in `[0,455]`, a step of at most
456 cycles (and at least 0) leaves `cycles_in_line` in `[0,455]`. -/
theorem cycles_in_line_range (E : Ext κ τ) (m : Machine κ τ) (cycles : Int)
    (hlo : 0 ≤ m.ppu.cycles_in_line) (hhi : m.ppu.cycles_in_line ≤ 455)
    (hc0 : 0 ≤ cycles) (hc1 : cycles ≤ 456) :
    0 ≤ (display_cycle E m cycles).ppu.cycles_in_line ∧
    (display_cycle E m cycles).ppu.cycles_in_line ≤ 455 := by
  by_cases hon : m.ppu.LCDC &&& LCDC_ENABLE = 0
  · rw [display_cycle_off E m cycles hon]
    exact ⟨hlo, hhi⟩
  · rw [(display_cycle_clock E m cycles hon).1]
    split_ifs <;> omega

theorem cycles_in_line_range_witness :
    0 ≤ powerOn.ppu.cycles_in_line ∧ powerOn.ppu.cycles_in_line ≤ 455 ∧
    (0 : Int) ≤ 456 ∧ (456 : Int) ≤ 456 ∧
    0 ≤ (display_cycle idleExt powerOn 456).ppu.cycles_in_line ∧
    (display_cycle idleExt powerOn 456).ppu.cycles_in_line ≤ 455 :=
  ⟨by decide, by decide, by decide, by decide,
    cycles_in_line_range idleExt powerOn 456 (by decide) (by decide) (by decide) (by decide)⟩

/-- C5. Starting from `LY` in `[0,153]`, `LY` is again in `[0,153]` after a step
with any cycle count; and a step that advances the line (LCD enabled, the dot
clock reaching 456) from `LY = 153` leaves `LY = 0`. -/
theorem LY_range (E : Ext κ τ) (m : Machine κ τ) (cycles : Int) (hly : m.ppu.LY ≤ 153) :
    (display_cycle E m cycles).ppu.LY ≤ 153 ∧
    (m.ppu.LCDC &&& LCDC_ENABLE ≠ 0 → m.ppu.cycles_in_line + cycles ≥ 456 →
      m.ppu.LY = 153 → (display_cycle E m cycles).ppu.LY = 0) := by
  constructor
  · by_cases hon : m.ppu.LCDC &&& LCDC_ENABLE = 0
    · rw [display_cycle_off E m cycles hon]
      exact hly
    · rw [(display_cycle_clock E m cycles hon).2.1]
      split_ifs <;> omega
  · intro hon hadv h153
    rw [(display_cycle_clock E m cycles hon).2.1, if_pos hadv, h153]
    decide

theorem LY_range_witness :
    powerOnLastLine.ppu.LY ≤ 153 ∧
    (display_cycle idleExt powerOnLastLine 456).ppu.LY ≤ 153 ∧
    (display_cycle idleExt powerOnLastLine 456).ppu.LY = 0 :=
  ⟨by decide, (LY_range idleExt powerOnLastLine 456 (by decide)).1,
    (LY_range idleExt powerOnLastLine 456 (by decide)).2 (by decide) (by decide) rfl⟩

/-! ## C6: one frame of steps -/

theorem or2_mod2 (x : Nat) : (x ||| 0x02) % 2 = x % 2 := by
  rcases Nat.mod_two_eq_zero_or_one x with h | h
  · rcases Nat.mod_two_eq_zero_or_one (x ||| 0x02) with h2 | h2
    · rw [h, h2]
    · rw [Nat.or_mod_two_eq_one] at h2; omega
  · have : (x ||| 0x02) % 2 = 1 := Nat.or_mod_two_eq_one.mpr (Or.inl h)
    rw [this, h]

theorem or1_mod2 (x : Nat) : (x ||| 0x01) % 2 = 1 :=
  Nat.or_mod_two_eq_one.mpr (Or.inr rfl)

theorem line_lyc_irq_frame (m : Machine κ τ) : irq_frame (line_lyc m) = irq_frame m := by
  unfold line_lyc
  simp only []
  split_ifs <;> rfl

theorem line_lyc_IF (m : Machine κ τ) : (line_lyc m).bus.IF % 2 = m.bus.IF % 2 := by
  unfold line_lyc
  simp only []
  split_ifs
  · exact or2_mod2 _
  · rfl
  · rfl

theorem line_mode_ready (m : Machine κ τ) :
    (line_mode m).ppu.frame_ready = if m.ppu.LY = 144 then true else m.ppu.frame_ready := by
  unfold line_mode
  simp only []
  split_ifs <;> rfl

theorem line_mode_IF (m : Machine κ τ) :
    (line_mode m).bus.IF % 2 = if m.ppu.LY = 144 then 1 else m.bus.IF % 2 := by
  unfold line_mode
  simp only []
  split_ifs
  · show ((m.bus.IF ||| 0x01) ||| 0x02) % 2 = 1
    rw [or2_mod2, or1_mod2]
  · exact or1_mod2 _
  · exact or2_mod2 _
  · rfl
  · rfl

theorem hblank_irq_IF (m : Machine κ τ) : (hblank_irq m).bus.IF % 2 = m.bus.IF % 2 := by
  unfold hblank_irq
  split_ifs
  · exact or2_mod2 _
  · rfl

theorem enter_hblank_IF (E : Ext κ τ) (m : Machine κ τ) :
    (enter_hblank E m).bus.IF % 2 = m.bus.IF % 2 := by
  unfold enter_hblank
  split_ifs
  · rw [hblank_irq_IF]
    exact congrArg (fun x => x % 2)
      (proj_of_frame hdma_frame (fun x => x.bus.IF) (fun _ => rfl) (hdma_transfer1_frame E m))
  · exact hblank_irq_IF m
  · rfl

theorem mode_update_IF (E : Ext κ τ) (m : Machine κ τ) :
    (mode_update E m).bus.IF % 2 = m.bus.IF % 2 := by
  unfold mode_update
  split_ifs
  · rfl
  · rfl
  · exact enter_hblank_IF E m
  · rfl

/-- Bit 0 of `IF` after the line-advance block: set on entering line 144, kept
otherwise. -/
theorem line_advance_IF (E : Ext κ τ) (m : Machine κ τ) :
    (line_advance E m).bus.IF % 2
      = if m.ppu.cycles_in_line ≥ 456 ∧ (line_inc m).ppu.LY = 144 then 1 else m.bus.IF % 2 := by
  unfold line_advance
  by_cases h : m.ppu.cycles_in_line ≥ 456
  · rw [if_pos h]
    have h1 : (line_render E (line_lyc (line_mode (line_inc m)))).bus.IF
        = (line_lyc (line_mode (line_inc m))).bus.IF :=
      proj_of_frame render_frame (fun x => x.bus.IF) (fun _ => rfl) (line_render_frame E _)
    rw [h1, line_lyc_IF, line_mode_IF]
    simp only [h, true_and]
    rfl
  · rw [if_neg h]
    simp only [h, false_and, if_false]

/-- The flag `frame_ready` after the line-advance block: raised on entering line
144, kept otherwise. -/
theorem line_advance_ready (E : Ext κ τ) (m : Machine κ τ) :
    (line_advance E m).ppu.frame_ready
      = if m.ppu.cycles_in_line ≥ 456 ∧ (line_inc m).ppu.LY = 144 then true
        else m.ppu.frame_ready := by
  unfold line_advance
  by_cases h : m.ppu.cycles_in_line ≥ 456
  · rw [if_pos h]
    have h1 : (line_render E (line_lyc (line_mode (line_inc m)))).ppu.frame_ready
        = (line_lyc (line_mode (line_inc m))).ppu.frame_ready :=
      proj_of_frame render_frame (fun x => x.ppu.frame_ready) (fun _ => rfl)
        (line_render_frame E _)
    have h2 : (line_lyc (line_mode (line_inc m))).ppu.frame_ready
        = (line_mode (line_inc m)).ppu.frame_ready :=
      proj_of_frame irq_frame (fun x => x.ppu.frame_ready) (fun _ => rfl)
        (line_lyc_irq_frame _)
    rw [h1, h2, line_mode_ready]
    simp only [h, true_and]
    rfl
  · rw [if_neg h]
    simp only [h, false_and, if_false]

/-- The OAM-DMA part of a step leaves the line counter and the VBlank signals
alone, and the dot clock as the step advanced it. -/
theorem after_dma_fields (E : Ext κ τ) (m : Machine κ τ) (cycles : Int) :
    (after_dma E m cycles).ppu.cycles_in_line = m.ppu.cycles_in_line + cycles ∧
    (after_dma E m cycles).ppu.LY = m.ppu.LY ∧
    (after_dma E m cycles).ppu.frame_ready = m.ppu.frame_ready ∧
    (after_dma E m cycles).bus.IF = m.bus.IF := by
  have hc : (after_dma E m cycles).ppu.cycles_in_line = (add_cycles m cycles).ppu.cycles_in_line :=
    proj_of_frame dma_frame (fun x => x.ppu.cycles_in_line) (fun _ => rfl)
      (after_dma_frame E m cycles)
  have hl : (after_dma E m cycles).ppu.LY = (add_cycles m cycles).ppu.LY :=
    proj_of_frame dma_frame (fun x => x.ppu.LY) (fun _ => rfl) (after_dma_frame E m cycles)
  have hr : (after_dma E m cycles).ppu.frame_ready = (add_cycles m cycles).ppu.frame_ready :=
    proj_of_frame dma_frame (fun x => x.ppu.frame_ready) (fun _ => rfl)
      (after_dma_frame E m cycles)
  have hi : (after_dma E m cycles).bus.IF = (add_cycles m cycles).bus.IF :=
    proj_of_frame dma_frame (fun x => x.bus.IF) (fun _ => rfl) (after_dma_frame E m cycles)
  exact ⟨hc, hl, hr, hi⟩

/-- VBlank signalling after a step with the LCD enabled: `frame_ready` and bit 0 of
`IF` are raised when the step enters line 144, and are kept otherwise. -/
theorem display_cycle_vblank (E : Ext κ τ) (m : Machine κ τ) (cycles : Int)
    (hon : m.ppu.LCDC &&& LCDC_ENABLE ≠ 0) :
    (display_cycle E m cycles).ppu.frame_ready
      = (if m.ppu.cycles_in_line + cycles ≥ 456 ∧
            (if (m.ppu.LY + 1) % 0x100 > 153 then 0 else (m.ppu.LY + 1) % 0x100) = 144
         then true else m.ppu.frame_ready) ∧
    (display_cycle E m cycles).bus.IF % 2
      = (if m.ppu.cycles_in_line + cycles ≥ 456 ∧
            (if (m.ppu.LY + 1) % 0x100 > 153 then 0 else (m.ppu.LY + 1) % 0x100) = 144
         then 1 else m.bus.IF % 2) := by
  rw [display_cycle_on E m cycles hon]
  obtain ⟨hc, hl, hr, hi⟩ := after_dma_fields E m cycles
  have hinc : (line_inc (after_dma E m cycles)).ppu.LY
      = if (m.ppu.LY + 1) % 0x100 > 153 then 0 else (m.ppu.LY + 1) % 0x100 := by
    show (if ((after_dma E m cycles).ppu.LY + 1) % 0x100 > 153 then 0
      else ((after_dma E m cycles).ppu.LY + 1) % 0x100) = _
    rw [hl]
  constructor
  · have h1 : (mode_update E (line_advance E (after_dma E m cycles))).ppu.frame_ready
        = (line_advance E (after_dma E m cycles)).ppu.frame_ready :=
      proj_of_frame mode_frame (fun x => x.ppu.frame_ready) (fun _ => rfl)
        (mode_update_frame E _)
    rw [h1, line_advance_ready, hc, hinc, hr]
  · rw [mode_update_IF, line_advance_IF, hc, hinc, hi]

/-- One step of at most one line keeps the frame invariant, with one more line
counted exactly when the line-advance block runs. -/
theorem FrameInv_step (E : Ext κ τ) (m : Machine κ τ) (q : Nat) (c : Int)
    (hinv : FrameInv m q) (hc0 : 1 ≤ c) (hc1 : c ≤ 456) :
    FrameInv (display_cycle E m c) (q + if advances_line m c then 1 else 0) ∧
    456 * ((q + if advances_line m c then 1 else 0 : Nat) : Int)
        + (display_cycle E m c).ppu.cycles_in_line
      = 456 * (q : Int) + m.ppu.cycles_in_line + c := by
  obtain ⟨hon, hlo, hhi, hly, hvb⟩ := hinv
  obtain ⟨hcl, hl, hd⟩ := display_cycle_clock E m c hon
  obtain ⟨hfr, hif⟩ := display_cycle_vblank E m c hon
  have hq : q % 154 < 154 := Nat.mod_lt _ (by decide)
  by_cases hadv : m.ppu.cycles_in_line + c ≥ 456
  · have ha : advances_line m c = true := by simp [advances_line, hon, hadv]
    rw [if_pos hadv] at hcl hl
    simp only [ha, if_true]
    refine ⟨⟨?_, ?_, ?_, ?_, ?_⟩, ?_⟩
    · rw [hd]; exact hon
    · rw [hcl]; omega
    · rw [hcl]; omega
    · rw [hl, hly]; split_ifs <;> omega
    · intro h144
      by_cases hq143 : q = 143
      · have hnext : (if (m.ppu.LY + 1) % 0x100 > 153 then 0 else (m.ppu.LY + 1) % 0x100) = 144 := by
          rw [hly, hq143]; decide
        rw [hfr, hif, if_pos ⟨hadv, hnext⟩, if_pos ⟨hadv, hnext⟩]
        exact ⟨rfl, rfl⟩
      · have hprev := hvb (by omega)
        rw [hfr, hif]
        by_cases hnext : m.ppu.cycles_in_line + c ≥ 456 ∧
            (if (m.ppu.LY + 1) % 0x100 > 153 then 0 else (m.ppu.LY + 1) % 0x100) = 144
        · rw [if_pos hnext, if_pos hnext]
          exact ⟨rfl, rfl⟩
        · rw [if_neg hnext, if_neg hnext]
          exact hprev
    · rw [hcl]; push_cast; omega
  · have ha : advances_line m c = false := by simp [advances_line, hadv]
    rw [if_neg hadv] at hcl hl
    simp only [ha, Bool.false_eq_true, if_false, Nat.add_zero]
    refine ⟨⟨?_, ?_, ?_, ?_, ?_⟩, ?_⟩
    · rw [hd]; exact hon
    · rw [hcl]; omega
    · rw [hcl]; omega
    · rw [hl, hly]
    · intro h144
      have hprev := hvb h144
      rw [hfr, hif]
      have hno : ¬ (m.ppu.cycles_in_line + c ≥ 456 ∧
          (if (m.ppu.LY + 1) % 0x100 > 153 then 0 else (m.ppu.LY + 1) % 0x100) = 144) :=
        fun h => hadv h.1
      rw [if_neg hno, if_neg hno]
      exact hprev
    · rw [hcl]; omega

/-- A sequence of steps of at most one line each keeps the frame invariant; the
lines counted are the steps in which the line-advance block runs, and the dots
add up. -/
theorem FrameInv_run (E : Ext κ τ) (cs : List Int) :
    ∀ (m : Machine κ τ) (q : Nat), FrameInv m q → (∀ c ∈ cs, 1 ≤ c ∧ c ≤ 456) →
      FrameInv (run_steps E m cs) (q + count_line_advances E m cs) ∧
      456 * ((q + count_line_advances E m cs : Nat) : Int)
          + (run_steps E m cs).ppu.cycles_in_line
        = 456 * (q : Int) + m.ppu.cycles_in_line + cs.sum := by
  induction cs with
  | nil =>
    intro m q hinv _
    simp only [run_steps, count_line_advances, List.foldl_nil, List.sum_nil, Nat.add_zero]
    exact ⟨hinv, by omega⟩
  | cons c cs ih =>
    intro m q hinv hcs
    have hc := hcs c (List.mem_cons_self c cs)
    obtain ⟨hstep, hsum⟩ := FrameInv_step E m q c hinv hc.1 hc.2
    obtain ⟨hrun, hsum2⟩ := ih (display_cycle E m c) _ hstep
      (fun x hx => hcs x (List.mem_cons_of_mem c hx))
    have hrs : run_steps E m (c :: cs) = run_steps E (display_cycle E m c) cs := rfl
    have hcount : q + count_line_advances E m (c :: cs)
        = q + (if advances_line m c then 1 else 0) + count_line_advances E (display_cycle E m c) cs := by
      simp only [count_line_advances]; omega
    rw [hrs, hcount, List.sum_cons]
    refine ⟨hrun, ?_⟩
    rw [hsum2, hsum]
    omega

/-- C6. VBlank cadence: from a PPU in its freshly initialised state (`LCDC = 0x91`,
`LY = 0`, `cycles_in_line = 0`), after every sequence of steps whose cycle counts
are each in `[1,456]` and sum to 70224, `frame_ready` is set, bit 0 of `IF` is
set, `LY = 0` and `cycles_in_line = 0`, and the line-advance block ran in exactly
154 of the steps. -/
theorem vblank_cadence (E : Ext κ τ) (m : Machine κ τ) (cs : List Int)
    (hlcdc : m.ppu.LCDC = 0x91) (hly : m.ppu.LY = 0) (hclk : m.ppu.cycles_in_line = 0)
    (hcs : ∀ c ∈ cs, 1 ≤ c ∧ c ≤ 456) (hsum : cs.sum = 70224) :
    (run_steps E m cs).ppu.frame_ready = true ∧
    (run_steps E m cs).bus.IF &&& 0x01 = 0x01 ∧
    (run_steps E m cs).ppu.LY = 0 ∧
    (run_steps E m cs).ppu.cycles_in_line = 0 ∧
    count_line_advances E m cs = 154 := by
  have h0 : FrameInv m 0 := by
    refine ⟨?_, ?_, ?_, ?_, ?_⟩
    · rw [hlcdc]; decide
    · omega
    · omega
    · rw [hly]
    · intro h; omega
  obtain ⟨⟨_, hlo, hhi, hl, hvb⟩, hs⟩ := FrameInv_run E cs m 0 h0 hcs
  rw [hclk, hsum] at hs
  have hq : count_line_advances E m cs = 154 := by omega
  have hz : (run_steps E m cs).ppu.cycles_in_line = 0 := by omega
  rw [Nat.zero_add, hq] at hl hvb
  obtain ⟨hfr, hif⟩ := hvb (by decide)
  refine ⟨hfr, ?_, hl, hz, hq⟩
  rw [Nat.and_one_is_mod]
  exact hif

theorem vblank_cadence_witness :
    powerOn.ppu.LCDC = 0x91 ∧ powerOn.ppu.LY = 0 ∧ powerOn.ppu.cycles_in_line = 0 ∧
    (List.replicate 154 (456 : Int)).sum = 70224 ∧
    (run_steps idleExt powerOn (List.replicate 154 456)).ppu.frame_ready = true ∧
    (run_steps idleExt powerOn (List.replicate 154 456)).bus.IF &&& 0x01 = 0x01 ∧
    (run_steps idleExt powerOn (List.replicate 154 456)).ppu.LY = 0 ∧
    (run_steps idleExt powerOn (List.replicate 154 456)).ppu.cycles_in_line = 0 ∧
    count_line_advances idleExt powerOn (List.replicate 154 456) = 154 :=
  ⟨rfl, rfl, rfl, by simp,
    vblank_cadence idleExt powerOn (List.replicate 154 456) rfl rfl rfl
      (fun c hc => by rw [List.eq_of_mem_replicate hc]; decide) (by simp)⟩

/-! ## C7: OAM-DMA -/

/-- A bus read of a VRAM address `0x8000..0x9FFF`: `0xFF` during OAM-DMA,
otherwise a load through `ppu_vram_read` in the bank selected by `VBK`. -/
theorem read_vram (E : Ext κ τ) (m : Machine κ τ) (addr : Nat)
    (hlo : 0x8000 ≤ addr) (hhi : addr < 0xA000) :
    read_byte_bus E m addr
      = if m.ppu.dma_active then 0xFF
        else ppu_vram_read m (vram_bank_index m.bus.VBK addr) := by
  have hb := bootrom_overlay_none m.bus addr (by omega)
  have h0 : ¬ (addr ≥ 0xFF80 ∧ addr ≤ 0xFFFE) := by omega
  have h1 : ¬ addr < 0x8000 := by omega
  have h2 : addr ≤ 0x9FFF := by omega
  simp only [read_byte_bus, hb, h0, h1, h2, if_false, if_true, ite_self]

/-- The byte an OAM-DMA iteration fetches does not depend on what the loop itself
changes. -/
theorem dma_fetch_congr (E : Ext κ τ) (m1 m2 : Machine κ τ) (a : Nat)
    (h : oam_frame m1 = oam_frame m2) : dma_fetch E m1 a = dma_fetch E m2 a := by
  have key : ∀ m : Machine κ τ, dma_fetch E m a = dma_fetch E (oam_frame m) a := by
    intro m
    unfold dma_fetch
    by_cases hv : a ≥ 0x8000 ∧ a < 0xA000
    · have h1 : ¬ a < 0x8000 := by omega
      simp only [h1, hv, and_self, if_true, if_false]
      rw [read_vram E m a hv.1 hv.2, read_vram E (oam_frame m) a hv.1 hv.2]
      rfl
    · simp only [hv, if_false]
      rfl
  rw [key m1, key m2, h]

theorem dma_copy_byte_oam_frame (E : Ext κ τ) (m : Machine κ τ) :
    oam_frame (dma_copy_byte E m) = oam_frame m := rfl

/-- What the OAM-DMA loop does, from an accumulator of `r` cycles: it copies
`n = min (160 - dma_counter) (r / 4)` bytes, byte `i` from `dma_source + i` to
`oam[i]`, and takes `4 * n` cycles off the accumulator. The fuel `160 - dma_counter`
is enough. -/
theorem dma_loop_spec (E : Ext κ τ) (fuel : Nat) :
    ∀ (m : Machine κ τ) (r : Nat), m.dma_cycle_counter = (r : Int) →
      m.ppu.dma_counter ≤ 160 → 160 - m.ppu.dma_counter ≤ fuel →
      oam_frame (dma_loop E fuel m) = oam_frame m ∧
      (dma_loop E fuel m).ppu.dma_counter
        = m.ppu.dma_counter + min (160 - m.ppu.dma_counter) (r / 4) ∧
      (dma_loop E fuel m).dma_cycle_counter
        = ((r - 4 * min (160 - m.ppu.dma_counter) (r / 4) : Nat) : Int) ∧
      ∀ i, (dma_loop E fuel m).bus.oam i
        = if m.ppu.dma_counter ≤ i ∧ i < m.ppu.dma_counter + min (160 - m.ppu.dma_counter) (r / 4)
          then dma_fetch E m ((m.ppu.dma_source + i) % 0x10000)
          else m.bus.oam i := by
  induction fuel with
  | zero =>
    intro m r hr hle hfuel
    have hn : min (160 - m.ppu.dma_counter) (r / 4) = 0 := by omega
    rw [hn]
    refine ⟨rfl, rfl, ?_, ?_⟩
    · show m.dma_cycle_counter = _
      rw [hr]; simp
    · intro i
      have : ¬ (m.ppu.dma_counter ≤ i ∧ i < m.ppu.dma_counter + 0) := by omega
      rw [if_neg this]; rfl
  | succ fuel ih =>
    intro m r hr hle hfuel
    unfold dma_loop
    by_cases hcond : m.dma_cycle_counter ≥ 4 ∧ m.ppu.dma_counter < 160
    · rw [if_pos hcond]
      have hr4 : 4 ≤ r := by have := hcond.1; omega
      have hr1 : (dma_copy_byte E m).dma_cycle_counter = ((r - 4 : Nat) : Int) := by
        show m.dma_cycle_counter - 4 = _
        omega
      have hc1 : (dma_copy_byte E m).ppu.dma_counter = m.ppu.dma_counter + 1 := rfl
      have hs1 : (dma_copy_byte E m).ppu.dma_source = m.ppu.dma_source := rfl
      obtain ⟨hf, hcnt, hacc, hoam⟩ := ih (dma_copy_byte E m) (r - 4) hr1
        (by rw [hc1]; omega) (by rw [hc1]; omega)
      rw [hc1] at hcnt hacc hoam
      have hmin : min (160 - (m.ppu.dma_counter + 1)) ((r - 4) / 4) + 1
          = min (160 - m.ppu.dma_counter) (r / 4) := by omega
      refine ⟨hf.trans (dma_copy_byte_oam_frame E m), ?_, ?_, ?_⟩
      · rw [hcnt]; omega
      · rw [hacc]; congr 1; omega
      · intro i
        rw [hoam i, hs1]
        by_cases hi : i = m.ppu.dma_counter
        · have h1 : ¬ (m.ppu.dma_counter + 1 ≤ i ∧
              i < m.ppu.dma_counter + 1 + min (160 - (m.ppu.dma_counter + 1)) ((r - 4) / 4)) := by
            omega
          have h2 : m.ppu.dma_counter ≤ i ∧
              i < m.ppu.dma_counter + min (160 - m.ppu.dma_counter) (r / 4) := by omega
          rw [if_neg h1, if_pos h2, hi]
          show m.bus.oam.set m.ppu.dma_counter _ m.ppu.dma_counter = _
          rw [Mem.set_same]
        · by_cases h2 : m.ppu.dma_counter ≤ i ∧
              i < m.ppu.dma_counter + min (160 - m.ppu.dma_counter) (r / 4)
          · have h1 : m.ppu.dma_counter + 1 ≤ i ∧
                i < m.ppu.dma_counter + 1 + min (160 - (m.ppu.dma_counter + 1)) ((r - 4) / 4) := by
              omega
            rw [if_pos h1, if_pos h2]
            exact dma_fetch_congr E _ _ _ (dma_copy_byte_oam_frame E m)
          · have h1 : ¬ (m.ppu.dma_counter + 1 ≤ i ∧
                i < m.ppu.dma_counter + 1 + min (160 - (m.ppu.dma_counter + 1)) ((r - 4) / 4)) := by
              omega
            rw [if_neg h1, if_neg h2]
            show m.bus.oam.set m.ppu.dma_counter _ i = _
            rw [Mem.set_other _ _ _ _ hi]
    · rw [if_neg hcond]
      have hn : min (160 - m.ppu.dma_counter) (r / 4) = 0 := by
        have : ¬ ((r : Int) ≥ 4 ∧ m.ppu.dma_counter < 160) := by rw [← hr]; exact hcond
        omega
      rw [hn]
      refine ⟨rfl, rfl, ?_, ?_⟩
      · rw [hr]; simp
      · intro i
        have : ¬ (m.ppu.dma_counter ≤ i ∧ i < m.ppu.dma_counter + 0) := by omega
        rw [if_neg this]

/-- The OAM-DMA loop of `display_cycle` always ends by its own condition: after
`160 - dma_counter` iterations at most, fewer than 4 cycles are left in the
accumulator or all 160 bytes are copied. -/
theorem dma_loop_exit (E : Ext κ τ) (m : Machine κ τ) (hle : m.ppu.dma_counter ≤ 160) :
    ¬ ((dma_loop E (160 - m.ppu.dma_counter) m).dma_cycle_counter ≥ 4 ∧
       (dma_loop E (160 - m.ppu.dma_counter) m).ppu.dma_counter < 160) := by
  by_cases hneg : 0 ≤ m.dma_cycle_counter
  · have hr : m.dma_cycle_counter = ((m.dma_cycle_counter.toNat : Nat) : Int) :=
      (Int.toNat_of_nonneg hneg).symm
    obtain ⟨_, hcnt, hacc, _⟩ :=
      dma_loop_spec E (160 - m.ppu.dma_counter) m _ hr hle (le_refl _)
    rw [hcnt, hacc]
    omega
  · have hstop : ∀ fuel, dma_loop E fuel m = m := by
      intro fuel
      cases fuel with
      | zero => rfl
      | succ n =>
        unfold dma_loop
        rw [if_neg (by omega)]
    rw [hstop]
    omega

/-- A work-RAM source address is fetched from `wram` directly. -/
theorem dma_fetch_wram (E : Ext κ τ) (m : Machine κ τ) (a : Nat)
    (hlo : 0xC000 ≤ a) (hhi : a < 0xE000) : dma_fetch E m a = m.bus.wram (a - 0xC000) := by
  have h1 : ¬ a < 0x8000 := by omega
  have h2 : ¬ (a ≥ 0x8000 ∧ a < 0xA000) := by omega
  have h3 : ¬ (a ≥ 0xA000 ∧ a < 0xC000) := by omega
  have h4 : a ≥ 0xC000 ∧ a < 0xE000 := ⟨hlo, hhi⟩
  simp only [dma_fetch, h1, h2, h3, h4, and_self, if_true, if_false]

/-- After the OAM-DMA part of a step, the line advance and the mode update change
nothing of the OAM-DMA engine, of OAM, work RAM or HRAM, nor LCDC. -/
theorem step_tail_fields (E : Ext κ τ) (m : Machine κ τ) :
    (mode_update E (line_advance E m)).ppu.LCDC = m.ppu.LCDC ∧
    (mode_update E (line_advance E m)).bus.wram = m.bus.wram ∧
    (mode_update E (line_advance E m)).bus.hram = m.bus.hram ∧
    (mode_update E (line_advance E m)).bus.oam = m.bus.oam ∧
    (mode_update E (line_advance E m)).ppu.dma_pending = m.ppu.dma_pending ∧
    (mode_update E (line_advance E m)).ppu.dma_active = m.ppu.dma_active ∧
    (mode_update E (line_advance E m)).ppu.dma_source = m.ppu.dma_source ∧
    (mode_update E (line_advance E m)).ppu.dma_counter = m.ppu.dma_counter ∧
    (mode_update E (line_advance E m)).dma_cycle_counter = m.dma_cycle_counter := by
  have hm := mode_update_frame E (line_advance E m)
  have hl := line_advance_frame E m
  refine ⟨?_, ?_, ?_, ?_, ?_, ?_, ?_, ?_, ?_⟩
  · exact (proj_of_frame mode_frame (fun x => x.ppu.LCDC) (fun _ => rfl) hm).trans
      (proj_of_frame line_frame (fun x => x.ppu.LCDC) (fun _ => rfl) hl)
  · exact (proj_of_frame mode_frame (fun x => x.bus.wram) (fun _ => rfl) hm).trans
      (proj_of_frame line_frame (fun x => x.bus.wram) (fun _ => rfl) hl)
  · exact (proj_of_frame mode_frame (fun x => x.bus.hram) (fun _ => rfl) hm).trans
      (proj_of_frame line_frame (fun x => x.bus.hram) (fun _ => rfl) hl)
  · exact (proj_of_frame mode_frame (fun x => x.bus.oam) (fun _ => rfl) hm).trans
      (proj_of_frame line_frame (fun x => x.bus.oam) (fun _ => rfl) hl)
  · exact (proj_of_frame mode_frame (fun x => x.ppu.dma_pending) (fun _ => rfl) hm).trans
      (proj_of_frame line_frame (fun x => x.ppu.dma_pending) (fun _ => rfl) hl)
  · exact (proj_of_frame mode_frame (fun x => x.ppu.dma_active) (fun _ => rfl) hm).trans
      (proj_of_frame line_frame (fun x => x.ppu.dma_active) (fun _ => rfl) hl)
  · exact (proj_of_frame mode_frame (fun x => x.ppu.dma_source) (fun _ => rfl) hm).trans
      (proj_of_frame line_frame (fun x => x.ppu.dma_source) (fun _ => rfl) hl)
  · exact (proj_of_frame mode_frame (fun x => x.ppu.dma_counter) (fun _ => rfl) hm).trans
      (proj_of_frame line_frame (fun x => x.ppu.dma_counter) (fun _ => rfl) hl)
  · exact (proj_of_frame mode_frame (fun x => x.dma_cycle_counter) (fun _ => rfl) hm).trans
      (proj_of_frame line_frame (fun x => x.dma_cycle_counter) (fun _ => rfl) hl)

/-- The OAM-DMA block of a step keeps the progress invariant, `c` cycles later. -/
theorem DmaInv_dma_run (E : Ext κ τ) (m0 m : Machine κ τ) (p t c : Nat)
    (hp0 : 0xC0 ≤ p) (hp1 : p ≤ 0xCF) (hinv : DmaInv m0 m (p * 256) t) :
    DmaInv m0 (dma_run E m (c : Int)) (p * 256) (t + c) := by
  obtain ⟨hlcdc, hwram, hhram, hpend, hoam, hact, hdone⟩ := hinv
  have hfr := dma_run_frame E m (c : Int)
  have hlcdc2 : (dma_run E m (c : Int)).ppu.LCDC = m.ppu.LCDC :=
    proj_of_frame dma_frame (fun x => x.ppu.LCDC) (fun _ => rfl) hfr
  have hwram2 : (dma_run E m (c : Int)).bus.wram = m.bus.wram :=
    proj_of_frame dma_frame (fun x => x.bus.wram) (fun _ => rfl) hfr
  have hhram2 : (dma_run E m (c : Int)).bus.hram = m.bus.hram :=
    proj_of_frame dma_frame (fun x => x.bus.hram) (fun _ => rfl) hfr
  by_cases ht : t < 640
  · obtain ⟨ha, hsrc, hcnt, hacc⟩ := hact ht
    have hrun : dma_run E m (c : Int)
        = dma_finish (dma_loop E (160 - m.ppu.dma_counter)
            { m with dma_cycle_counter := m.dma_cycle_counter + (c : Int) }) := by
      simp only [dma_run, ha, if_true]
    obtain ⟨hlf, hlc, hla, hlo⟩ := dma_loop_spec E (160 - m.ppu.dma_counter)
      { m with dma_cycle_counter := m.dma_cycle_counter + (c : Int) } (t % 4 + c)
      (by show m.dma_cycle_counter + (c : Int) = _; rw [hacc]; push_cast; rfl)
      (by show m.ppu.dma_counter ≤ 160; omega) (le_refl _)
    set ml := dma_loop E (160 - m.ppu.dma_counter)
      { m with dma_cycle_counter := m.dma_cycle_counter + (c : Int) } with hml
    have hlc2 : ml.ppu.dma_counter = min 160 ((t + c) / 4) := by
      rw [hlc]; show m.ppu.dma_counter + min (160 - m.ppu.dma_counter) _ = _
      rw [hcnt]; omega
    have hla2 : ml.dma_cycle_counter
        = ((t % 4 + c - 4 * (min 160 ((t + c) / 4) - t / 4) : Nat) : Int) := by
      rw [hla]; show ((_ - 4 * min (160 - m.ppu.dma_counter) _ : Nat) : Int) = _
      rw [hcnt]; congr 2; omega
    have hlp : ml.ppu.dma_pending = false :=
      (proj_of_frame oam_frame (fun x => x.ppu.dma_pending) (fun _ => rfl) hlf).trans hpend
    have hlact : ml.ppu.dma_active = true :=
      (proj_of_frame oam_frame (fun x => x.ppu.dma_active) (fun _ => rfl) hlf).trans ha
    have hlsrc : ml.ppu.dma_source = p * 256 :=
      (proj_of_frame oam_frame (fun x => x.ppu.dma_source) (fun _ => rfl) hlf).trans hsrc
    have hloam : ∀ i, ml.bus.oam i
        = if i < min 160 ((t + c) / 4) then m0.bus.wram (p * 256 - 0xC000 + i)
          else m0.bus.oam i := by
      intro i
      rw [hlo i]
      show (if m.ppu.dma_counter ≤ i ∧ i < m.ppu.dma_counter + min (160 - m.ppu.dma_counter) _
        then dma_fetch E _ ((m.ppu.dma_source + i) % 0x10000) else m.bus.oam i) = _
      rw [hcnt, hsrc, hoam i]
      by_cases h1 : t / 4 ≤ i ∧ i < t / 4 + min (160 - t / 4) ((t % 4 + c) / 4)
      · have h2 : i < min 160 ((t + c) / 4) := by omega
        rw [if_pos h1, if_pos h2]
        have hmod : (p * 256 + i) % 0x10000 = p * 256 + i := by omega
        rw [hmod, dma_fetch_wram E _ _ (by omega) (by omega)]
        show m.bus.wram _ = _
        have hidx : p * 256 + i - 0xC000 = p * 256 - 0xC000 + i := by omega
        rw [hwram, hidx]
      · rw [if_neg h1]
        by_cases h2 : i < min 160 (t / 4)
        · have h3 : i < min 160 ((t + c) / 4) := by omega
          rw [if_pos h2, if_pos h3]
        · have h3 : ¬ i < min 160 ((t + c) / 4) := by omega
          rw [if_neg h2, if_neg h3]
    rw [hrun]
    unfold dma_finish
    by_cases hfin : ml.ppu.dma_counter ≥ 160
    · rw [if_pos hfin]
      have h640 : 640 ≤ t + c := by omega
      refine ⟨?_, ?_, ?_, hlp, hloam, ?_, ?_⟩
      · rw [← hlcdc, ← hlcdc2, hrun]; unfold dma_finish; rw [if_pos hfin]
      · rw [← hwram, ← hwram2, hrun]; unfold dma_finish; rw [if_pos hfin]
      · rw [← hhram, ← hhram2, hrun]; unfold dma_finish; rw [if_pos hfin]
      · intro h; omega
      · intro _; exact ⟨rfl, rfl⟩
    · rw [if_neg hfin]
      have h640 : t + c < 640 := by omega
      refine ⟨?_, ?_, ?_, hlp, hloam, ?_, ?_⟩
      · rw [← hlcdc, ← hlcdc2, hrun]; unfold dma_finish; rw [if_neg hfin]
      · rw [← hwram, ← hwram2, hrun]; unfold dma_finish; rw [if_neg hfin]
      · rw [← hhram, ← hhram2, hrun]; unfold dma_finish; rw [if_neg hfin]
      · intro _
        refine ⟨hlact, hlsrc, ?_, ?_⟩
        · rw [hlc2]; omega
        · rw [hla2]; congr 1; omega
      · intro h; omega
  · obtain ⟨ha, hacc⟩ := hdone (by omega)
    have hrun : dma_run E m (c : Int) = { m with dma_cycle_counter := 0 } := by
      simp only [dma_run, ha, Bool.false_eq_true, if_false]
    rw [hrun]
    refine ⟨hlcdc, hwram, hhram, hpend, ?_, ?_, ?_⟩
    · intro i
      have := hoam i
      have h1 : min 160 (t / 4) = 160 := by omega
      have h2 : min 160 ((t + c) / 4) = 160 := by omega
      rw [h2]; rw [h1] at this; exact this
    · intro h; omega
    · intro _; exact ⟨ha, rfl⟩

/-- The progress invariant only looks at LCDC, work RAM, HRAM, OAM and the OAM-DMA
engine. -/
theorem DmaInv_of_fields (m0 m m2 : Machine κ τ) (src t : Nat) (hinv : DmaInv m0 m src t)
    (h1 : m2.ppu.LCDC = m.ppu.LCDC) (h2 : m2.bus.wram = m.bus.wram)
    (h3 : m2.bus.hram = m.bus.hram) (h4 : m2.bus.oam = m.bus.oam)
    (h5 : m2.ppu.dma_pending = m.ppu.dma_pending) (h6 : m2.ppu.dma_active = m.ppu.dma_active)
    (h7 : m2.ppu.dma_source = m.ppu.dma_source) (h8 : m2.ppu.dma_counter = m.ppu.dma_counter)
    (h9 : m2.dma_cycle_counter = m.dma_cycle_counter) : DmaInv m0 m2 src t := by
  unfold DmaInv at hinv ⊢
  rw [h1, h2, h3, h4, h5, h6, h7, h8, h9]
  exact hinv

/-- A step with no OAM-DMA request pending, `c` cycles further into a transfer. -/
theorem DmaInv_step (E : Ext κ τ) (m0 m : Machine κ τ) (p t c : Nat)
    (hon : m0.ppu.LCDC &&& LCDC_ENABLE ≠ 0) (hp0 : 0xC0 ≤ p) (hp1 : p ≤ 0xCF)
    (hinv : DmaInv m0 m (p * 256) t) :
    DmaInv m0 (display_cycle E m (c : Int)) (p * 256) (t + c) := by
  have hon2 : m.ppu.LCDC &&& LCDC_ENABLE ≠ 0 := by rw [hinv.1]; exact hon
  have hpend : m.ppu.dma_pending = false := hinv.2.2.2.1
  have hlatch : dma_latch (add_cycles m (c : Int)) = add_cycles m (c : Int) := by
    unfold dma_latch
    have : (add_cycles m (c : Int)).ppu.dma_pending = false := hpend
    rw [this]; rfl
  have hstep : display_cycle E m (c : Int)
      = mode_update E (line_advance E (dma_run E (add_cycles m (c : Int)) (c : Int))) := by
    rw [display_cycle_on E m _ hon2, after_dma, hlatch]
  have hadd : DmaInv m0 (add_cycles m (c : Int)) (p * 256) t :=
    DmaInv_of_fields m0 m _ _ _ hinv rfl rfl rfl rfl rfl rfl rfl rfl rfl
  have hrun := DmaInv_dma_run E m0 (add_cycles m (c : Int)) p t c hp0 hp1 hadd
  obtain ⟨f1, f2, f3, f4, f5, f6, f7, f8, f9⟩ :=
    step_tail_fields E (dma_run E (add_cycles m (c : Int)) (c : Int))
  rw [hstep]
  exact DmaInv_of_fields m0 _ _ _ _ hrun f1 f2 f3 f4 f5 f6 f7 f8 f9

/-- A sequence of steps with no OAM-DMA request pending. -/
theorem DmaInv_run (E : Ext κ τ) (m0 : Machine κ τ) (p : Nat)
    (hon : m0.ppu.LCDC &&& LCDC_ENABLE ≠ 0) (hp0 : 0xC0 ≤ p) (hp1 : p ≤ 0xCF) (cs : List Nat) :
    ∀ (m : Machine κ τ) (t : Nat), DmaInv m0 m (p * 256) t →
      DmaInv m0 (run_steps E m (cs.map (fun c => (c : Int)))) (p * 256) (t + cs.sum) := by
  induction cs with
  | nil => intro m t hinv; exact hinv
  | cons c cs ih =>
    intro m t hinv
    have h := ih (display_cycle E m (c : Int)) (t + c) (DmaInv_step E m0 m p t c hon hp0 hp1 hinv)
    rw [List.sum_cons, ← Nat.add_assoc]
    exact h

/-- A write to `0xFF46` with no OAM-DMA active stores the page and raises
`dma_pending`. -/
theorem write_dma_register (E : Ext κ τ) (m : Machine κ τ) (p : Nat)
    (hdma : m.ppu.dma_active = false) :
    write_byte_bus E m 0xFF46 p
      = { m with ppu := { m.ppu with DMA := p, dma_pending := true } } := by
  simp [write_byte_bus, write_byte_bus_body, write_switch, audio_case, hdma]

/-- The first step after a write of a work-RAM bank 0 page to `0xFF46` latches the
request and starts the transfer. -/
theorem DmaInv_first (E : Ext κ τ) (m : Machine κ τ) (p c : Nat)
    (hon : m.ppu.LCDC &&& LCDC_ENABLE ≠ 0) (hdma : m.ppu.dma_active = false)
    (hacc : m.dma_cycle_counter = 0) (hp0 : 0xC0 ≤ p) (hp1 : p ≤ 0xCF) :
    DmaInv m (display_cycle E (write_byte_bus E m 0xFF46 p) (c : Int)) (p * 256) c := by
  rw [write_dma_register E m p hdma]
  set m1 : Machine κ τ := { m with ppu := { m.ppu with DMA := p, dma_pending := true } } with hm1
  have hon1 : m1.ppu.LCDC &&& LCDC_ENABLE ≠ 0 := hon
  have hsrc : (p <<< 8) % 0x10000 = p * 256 := by
    rw [Nat.shiftLeft_eq]; omega
  set ml : Machine κ τ := { m1 with ppu := { (add_cycles m1 (c : Int)).ppu with
      dma_pending := false, dma_active := true, dma_counter := 0,
      dma_source := p * 256 } } with hml
  have hlatch : dma_latch (add_cycles m1 (c : Int)) = ml := by
    unfold dma_latch
    have hp : (add_cycles m1 (c : Int)).ppu.dma_pending = true := rfl
    have hd : (add_cycles m1 (c : Int)).ppu.DMA = p := rfl
    rw [hp, if_pos rfl, hd, hsrc]
    rfl
  have hinv0 : DmaInv m ml (p * 256) 0 := by
    refine ⟨rfl, rfl, rfl, rfl, ?_, ?_, ?_⟩
    · intro i; simp
    · intro _; exact ⟨rfl, rfl, rfl, hacc⟩
    · intro h; omega
  have hrun := DmaInv_dma_run E m ml p 0 c hp0 hp1 hinv0
  rw [Nat.zero_add] at hrun
  obtain ⟨f1, f2, f3, f4, f5, f6, f7, f8, f9⟩ := step_tail_fields E (dma_run E ml (c : Int))
  rw [display_cycle_on E m1 _ hon1, after_dma, hlatch]
  exact DmaInv_of_fields m _ _ _ _ hrun f1 f2 f3 f4 f5 f6 f7 f8 f9

/-- Reads while OAM-DMA is active: `0xC000` gives `0xFF`, `0xFF80` gives `hram[0]`. -/
theorem read_during_dma (E : Ext κ τ) (m : Machine κ τ) (hdma : m.ppu.dma_active = true) :
    read_byte_bus E m 0xC000 = 0xFF ∧ read_byte_bus E m 0xFF80 = m.bus.hram 0 := by
  constructor <;> simp [read_byte_bus, hdma]

/-- C7. OAM-DMA from work RAM bank 0: with the LCD enabled and no OAM-DMA active
(so that the pacing accumulator is at rest, `DmaAtRest`, as it is in every state
the bus and the PPU step reach from power-on), after a write of a page `p` in
`0xC0..0xCF` to `0xFF46`, steps totalling `c` cycles have copied exactly
`min 160 (c / 4)` bytes:
`oam[i] = wram[(p << 8) - 0xC000 + i]` below that count and `oam[i]` unchanged from
it on.  Once the steps total 640 cycles all 160 bytes are copied and `dma_active`
is false.  While the transfer runs (at least one step, fewer than 640 cycles)
`dma_active` is true, a read of `0xC000` returns `0xFF` and a read of `0xFF80`
returns `hram[0]`. -/
theorem oam_dma_from_wram0 (E : Ext κ τ) (m : Machine κ τ) (p : Nat) (cs : List Nat)
    (hon : m.ppu.LCDC &&& LCDC_ENABLE ≠ 0) (hdma : m.ppu.dma_active = false)
    (hrest : DmaAtRest m) (hp0 : 0xC0 ≤ p) (hp1 : p ≤ 0xCF) :
    (∀ i, i < min 160 (cs.sum / 4) →
      (after_oam_dma E m p cs).bus.oam i = m.bus.wram ((p <<< 8) - 0xC000 + i)) ∧
    (∀ i, min 160 (cs.sum / 4) ≤ i → (after_oam_dma E m p cs).bus.oam i = m.bus.oam i) ∧
    (640 ≤ cs.sum →
      (∀ i, i < 160 → (after_oam_dma E m p cs).bus.oam i = m.bus.wram ((p <<< 8) - 0xC000 + i)) ∧
      (after_oam_dma E m p cs).ppu.dma_active = false) ∧
    (cs ≠ [] → cs.sum < 640 →
      (after_oam_dma E m p cs).ppu.dma_active = true ∧
      read_byte_bus E (after_oam_dma E m p cs) 0xC000 = 0xFF ∧
      read_byte_bus E (after_oam_dma E m p cs) 0xFF80 = m.bus.hram 0) := by
  have hacc : m.dma_cycle_counter = 0 := hrest hdma
  have hshift : p <<< 8 = p * 256 := by rw [Nat.shiftLeft_eq]
  rw [hshift]
  cases cs with
  | nil =>
    have hm : after_oam_dma E m p [] = { m with ppu := { m.ppu with DMA := p, dma_pending := true } } := by
      unfold after_oam_dma run_steps
      rw [write_dma_register E m p hdma]; rfl
    refine ⟨?_, ?_, ?_, ?_⟩
    · intro i hi; simp at hi
    · intro i _; rw [hm]
    · intro h; simp at h
    · intro h; exact absurd rfl h
  | cons c cs =>
    have hfirst := DmaInv_first E m p c hon hdma hacc hp0 hp1
    have hrun := DmaInv_run E m p hon hp0 hp1 cs _ _ hfirst
    have hm : after_oam_dma E m p (c :: cs)
        = run_steps E (display_cycle E (write_byte_bus E m 0xFF46 p) (c : Int))
            (cs.map (fun c => (c : Int))) := rfl
    rw [← hm, ← List.sum_cons] at hrun
    obtain ⟨_, _, hhram, _, hoam, hact, hdone⟩ := hrun
    refine ⟨?_, ?_, ?_, ?_⟩
    · intro i hi; rw [hoam i, if_pos hi]
    · intro i hi; rw [hoam i, if_neg (by omega)]
    · intro h640
      refine ⟨?_, (hdone h640).1⟩
      intro i hi
      rw [hoam i, if_pos (by omega)]
    · intro _ hlt
      have ha := (hact hlt).1
      obtain ⟨hr1, hr2⟩ := read_during_dma E _ ha
      refine ⟨ha, hr1, ?_⟩
      rw [hr2, hhram]
theorem oam_dma_from_wram0_witness :
    powerOnWram42.ppu.LCDC &&& LCDC_ENABLE ≠ 0 ∧ powerOnWram42.ppu.dma_active = false ∧
    DmaAtRest powerOnWram42 ∧ 0xC0 ≤ 0xC0 ∧ 0xC0 ≤ 0xCF ∧
    (after_oam_dma idleExt powerOnWram42 0xC0 [320, 320]).bus.oam 0 = 0x42 ∧
    (after_oam_dma idleExt powerOnWram42 0xC0 [320, 320]).ppu.dma_active = false ∧
    (after_oam_dma idleExt powerOnWram42 0xC0 [320]).ppu.dma_active = true ∧
    read_byte_bus idleExt (after_oam_dma idleExt powerOnWram42 0xC0 [320]) 0xC000 = 0xFF :=
  ⟨by decide, rfl, fun _ => rfl, by decide, by decide,
    ((oam_dma_from_wram0 idleExt powerOnWram42 0xC0 [320, 320] (by decide) rfl (fun _ => rfl)
      (by decide) (by decide)).2.2.1 (by decide)).1 0 (by decide),
    ((oam_dma_from_wram0 idleExt powerOnWram42 0xC0 [320, 320] (by decide) rfl (fun _ => rfl)
      (by decide) (by decide)).2.2.1 (by decide)).2,
    ((oam_dma_from_wram0 idleExt powerOnWram42 0xC0 [320] (by decide) rfl (fun _ => rfl)
      (by decide) (by decide)).2.2.2 (by decide) (by decide)).1,
    ((oam_dma_from_wram0 idleExt powerOnWram42 0xC0 [320] (by decide) rfl (fun _ => rfl)
      (by decide) (by decide)).2.2.2 (by decide) (by decide)).2.1⟩

/-! ## C8: general-purpose HDMA -/

/-- A read of work RAM or its echo (`0xC000..0xFDFF`) with no OAM-DMA active. -/
theorem read_wram (E : Ext κ τ) (m : Machine κ τ) (addr : Nat)
    (hdma : m.ppu.dma_active = false) (hlo : 0xC000 ≤ addr) (hhi : addr ≤ 0xFDFF) :
    read_byte_bus E m addr = m.bus.wram (wram_index m.bus.SVBK addr) := by
  have hb := bootrom_overlay_none m.bus addr (by omega)
  have h1 : ¬ addr < 0x8000 := by omega
  have h2 : ¬ addr ≤ 0x9FFF := by omega
  have h3 : ¬ (addr ≥ 0xA000 ∧ addr ≤ 0xBFFF) := by omega
  by_cases hc : addr ≤ 0xCFFF
  · have h4 : addr ≥ 0xC000 ∧ addr ≤ 0xCFFF := ⟨hlo, hc⟩
    simp only [read_byte_bus, wram_index, hdma, hb, h1, h2, h3, h4, hc, if_false, if_true,
      and_self, and_false, Bool.false_eq_true]
  · have h4 : ¬ (addr ≥ 0xC000 ∧ addr ≤ 0xCFFF) := by omega
    by_cases hd : addr ≤ 0xDFFF
    · have h5 : addr ≥ 0xD000 ∧ addr ≤ 0xDFFF := ⟨by omega, hd⟩
      simp only [read_byte_bus, wram_index, hdma, hb, h1, h2, h3, h4, h5, hc, hd, if_false,
        if_true, and_self, and_false, Bool.false_eq_true]
    · have h5 : ¬ (addr ≥ 0xD000 ∧ addr ≤ 0xDFFF) := by omega
      by_cases he : addr ≤ 0xEFFF
      · have h6 : addr ≥ 0xE000 ∧ addr ≤ 0xEFFF := ⟨by omega, he⟩
        simp only [read_byte_bus, wram_index, hdma, hb, h1, h2, h3, h4, h5, h6, hc, hd, he,
          if_false, if_true, and_self, and_false, Bool.false_eq_true]
      · have h6 : ¬ (addr ≥ 0xE000 ∧ addr ≤ 0xEFFF) := by omega
        have h7 : addr ≥ 0xF000 ∧ addr ≤ 0xFDFF := ⟨by omega, hhi⟩
        simp only [read_byte_bus, wram_index, hdma, hb, h1, h2, h3, h4, h5, h6, h7, hc, hd, he,
          if_false, if_true, and_self, and_false, Bool.false_eq_true]

/-- A read of work RAM or its echo does not see video RAM or the HDMA registers. -/
theorem read_wram_congr (E : Ext κ τ) (m1 m2 : Machine κ τ) (addr : Nat)
    (h : hdma_frame m1 = hdma_frame m2) (hlo : 0xC000 ≤ addr) (hhi : addr ≤ 0xFDFF) :
    read_byte_bus E m1 addr = read_byte_bus E m2 addr := by
  have hd : m1.ppu.dma_active = m2.ppu.dma_active :=
    proj_of_frame hdma_frame (fun x => x.ppu.dma_active) (fun _ => rfl) h
  have hh : m1.bus.hram = m2.bus.hram :=
    proj_of_frame hdma_frame (fun x => x.bus.hram) (fun _ => rfl) h
  have hw : m1.bus.wram = m2.bus.wram :=
    proj_of_frame hdma_frame (fun x => x.bus.wram) (fun _ => rfl) h
  have hs : m1.bus.SVBK = m2.bus.SVBK :=
    proj_of_frame hdma_frame (fun x => x.bus.SVBK) (fun _ => rfl) h
  cases hact : m2.ppu.dma_active with
  | false =>
    rw [read_wram E m1 addr (hd.trans hact) hlo hhi, read_wram E m2 addr hact hlo hhi, hw, hs]
  | true =>
    have h1 : ¬ (addr ≥ 0xFF80 ∧ addr ≤ 0xFFFE) := by omega
    simp only [read_byte_bus, hd, hact, h1, if_true, if_false, ite_self]

/-- A store of the general-purpose HDMA loop with no OAM-DMA active: a point update
of `vram` at the banked index. -/
theorem leaf_write_vram (E : Ext κ τ) (m : Machine κ τ) (addr v : Nat)
    (hdma : m.ppu.dma_active = false) (hlo : 0x8000 ≤ addr) (hhi : addr < 0xA000) :
    write_byte_bus_leaf E m addr v
      = { m with bus := { m.bus with
            vram := m.bus.vram.set (addr - 0x8000 + (m.bus.VBK &&& 0x01) * 0x2000) v } } := by
  have hw : write_byte_bus_leaf E m addr v = write_byte_bus E m addr v :=
    write_byte_bus_body_congr _ _ E m addr v (by omega)
  have hb : m.bus.VBK &&& 0x01 ≤ 1 := Nat.and_le_right
  have hidx : vram_bank_index m.bus.VBK addr = addr - 0x8000 + (m.bus.VBK &&& 0x01) * 0x2000 := by
    unfold vram_bank_index
    simp only []
    omega
  rw [hw, write_vram E m addr v hlo hhi, hdma, hidx]
  simp only [Bool.false_eq_true, if_false]
  unfold ppu_vram_write
  have hlt : ¬ (addr - 0x8000 + (m.bus.VBK &&& 0x01) * 0x2000 ≥ 0x4000) := by omega
  rw [if_neg hlt]
theorem or_low8 (a b : Nat) (hb : b < 256) : (a <<< 8) ||| b = a * 256 + b := by
  rw [Nat.shiftLeft_eq]
  have h := Nat.mul_add_lt_is_or (i := 8) (b := b) hb a
  rw [show a * 2 ^ 8 = 2 ^ 8 * a from Nat.mul_comm _ _, ← h]
  omega

theorem or_dest (x y : Nat) (hx : x ≤ 0x1F) (hy : y < 256) :
    0x8000 ||| (x <<< 8) ||| y = 0x8000 + x * 256 + y := by
  have h1 : 0x8000 ||| (x <<< 8) = (0x80 + x) <<< 8 := by
    rw [Nat.shiftLeft_eq, Nat.shiftLeft_eq]
    have h := Nat.mul_add_lt_is_or (i := 15) (b := x * 2 ^ 8) (by omega) 1
    rw [show (0x8000 : Nat) = 2 ^ 15 * 1 from rfl, ← h]
    omega
  rw [h1, or_low8 _ _ hy]
  omega

/-- The HDMA source in arithmetic form; it is a multiple of 16. -/
theorem hdma_source_eq (d : Ppu_t) :
    hdma_source d = d.HDMA1 * 256 + (d.HDMA2 &&& 0xF0) ∧ (d.HDMA2 &&& 0xF0) ≤ 0xF0 ∧
    (d.HDMA2 &&& 0xF0) % 16 = 0 := by
  have hle : d.HDMA2 &&& 0xF0 ≤ 0xF0 := Nat.and_le_right
  refine ⟨?_, hle, ?_⟩
  · unfold hdma_source
    exact or_low8 _ _ (by omega)
  · have h : (d.HDMA2 &&& 0xF0) &&& 0x0F = 0 := by
      rw [Nat.and_assoc, show (0xF0 : Nat) &&& 0x0F = 0 from rfl, Nat.and_zero]
    have h2 := Nat.and_pow_two_sub_one_eq_mod (d.HDMA2 &&& 0xF0) 4
    rw [show (2 : Nat) ^ 4 - 1 = 0x0F from rfl, h] at h2
    omega

/-- The HDMA destination in arithmetic form: always in `0x8000..0x9FF0`, a multiple
of 16. -/
theorem hdma_dest_eq (d : Ppu_t) :
    hdma_dest d = 0x8000 + (d.HDMA3 &&& 0x1F) * 256 + (d.HDMA4 &&& 0xF0) ∧
    (d.HDMA3 &&& 0x1F) ≤ 0x1F ∧ (d.HDMA4 &&& 0xF0) ≤ 0xF0 ∧ (d.HDMA4 &&& 0xF0) % 16 = 0 := by
  have h3 : d.HDMA3 &&& 0x1F ≤ 0x1F := Nat.and_le_right
  have h4 : d.HDMA4 &&& 0xF0 ≤ 0xF0 := Nat.and_le_right
  refine ⟨?_, h3, h4, ?_⟩
  · unfold hdma_dest
    exact or_dest _ _ h3 (by omega)
  · have h : (d.HDMA4 &&& 0xF0) &&& 0x0F = 0 := by
      rw [Nat.and_assoc, show (0xF0 : Nat) &&& 0x0F = 0 from rfl, Nat.and_zero]
    have h2 := Nat.and_pow_two_sub_one_eq_mod (d.HDMA4 &&& 0xF0) 4
    rw [show (2 : Nat) ^ 4 - 1 = 0x0F from rfl, h] at h2
    omega

/-- The HDMA length is `n + 1` blocks of 16 bytes, `n` the low 7 bits of the value
written. -/
theorem hdma_length_eq (val : Nat) :
    hdma_length val = (val % 128 + 1) * 16 := by
  unfold hdma_length
  have h := Nat.and_pow_two_sub_one_eq_mod val 7
  rw [show (2 : Nat) ^ 7 - 1 = 0x7F from rfl] at h
  rw [h]

/-- The general-purpose HDMA loop after `k` iterations, for a source in work RAM:
the first `k` bytes that fall in VRAM are copied, every byte as the bus read it
before the transfer, and nothing but `vram` has changed. -/
theorem gdma_loop_spec (E : Ext κ τ) (m m1 : Machine κ τ) (src dst : Nat)
    (hdma : m.ppu.dma_active = false) (hm1 : hdma_frame m1 = hdma_frame m)
    (hv1 : m1.bus.vram = m.bus.vram)
    (hs0 : 0xC000 ≤ src) (hs1 : src ≤ 0xDFF0) (hd0 : 0x8000 ≤ dst) (hd1 : dst ≤ 0x9FF0)
    (k : Nat) (hk : k ≤ 2048) :
    vram_frame ((List.range k).foldl (gdma_step (write_byte_bus_leaf E) E src dst) m1)
      = vram_frame m1 ∧
    ∀ j, ((List.range k).foldl (gdma_step (write_byte_bus_leaf E) E src dst) m1).bus.vram j
      = if dst - 0x8000 + (m.bus.VBK &&& 0x01) * 0x2000 ≤ j ∧
            j < dst - 0x8000 + (m.bus.VBK &&& 0x01) * 0x2000 + min k (0xA000 - dst)
        then read_byte_bus E m (src + (j - (dst - 0x8000 + (m.bus.VBK &&& 0x01) * 0x2000)))
        else m.bus.vram j := by
  induction k with
  | zero =>
    refine ⟨rfl, ?_⟩
    intro j
    have : ¬ (dst - 0x8000 + (m.bus.VBK &&& 0x01) * 0x2000 ≤ j ∧
        j < dst - 0x8000 + (m.bus.VBK &&& 0x01) * 0x2000 + min 0 (0xA000 - dst)) := by omega
    rw [if_neg this]
    show m1.bus.vram j = _
    rw [hv1]
  | succ k ih =>
    obtain ⟨hfr, hvram⟩ := ih (by omega)
    rw [List.range_succ, List.foldl_append, List.foldl_cons, List.foldl_nil]
    set mk := (List.range k).foldl (gdma_step (write_byte_bus_leaf E) E src dst) m1 with hmk
    have hfrk : hdma_frame mk = hdma_frame m :=
      (hdma_frame_of_vram_frame _ _ hfr).trans hm1
    have hdk : mk.ppu.dma_active = false :=
      (proj_of_frame hdma_frame (fun x => x.ppu.dma_active) (fun _ => rfl) hfrk).trans hdma
    have hvbk : mk.bus.VBK = m.bus.VBK :=
      proj_of_frame hdma_frame (fun x => x.bus.VBK) (fun _ => rfl) hfrk
    have hsrc : (src + k) % 0x10000 = src + k := by omega
    have hdst : (dst + k) % 0x10000 = dst + k := by omega
    have hread : read_byte_bus E mk (src + k) = read_byte_bus E m (src + k) :=
      read_wram_congr E mk m (src + k) hfrk (by omega) (by omega)
    unfold gdma_step
    simp only [hsrc, hdst, hread]
    by_cases hin : dst + k ≥ 0x8000 ∧ dst + k < 0xA000
    · rw [if_pos hin, leaf_write_vram E mk (dst + k) _ hdk hin.1 hin.2, hvbk]
      refine ⟨hfr, ?_⟩
      intro j
      show mk.bus.vram.set (dst + k - 0x8000 + (m.bus.VBK &&& 0x01) * 0x2000) _ j = _
      by_cases hj : j = dst + k - 0x8000 + (m.bus.VBK &&& 0x01) * 0x2000
      · have hc : dst - 0x8000 + (m.bus.VBK &&& 0x01) * 0x2000 ≤ j ∧
            j < dst - 0x8000 + (m.bus.VBK &&& 0x01) * 0x2000 + min (k + 1) (0xA000 - dst) := by
          omega
        have hidx : j - (dst - 0x8000 + (m.bus.VBK &&& 0x01) * 0x2000) = k := by omega
        rw [if_pos hc, hidx, hj, Mem.set_same]
      · rw [Mem.set_other _ _ _ _ hj, hvram j]
        by_cases hc : dst - 0x8000 + (m.bus.VBK &&& 0x01) * 0x2000 ≤ j ∧
            j < dst - 0x8000 + (m.bus.VBK &&& 0x01) * 0x2000 + min k (0xA000 - dst)
        · have hc2 : dst - 0x8000 + (m.bus.VBK &&& 0x01) * 0x2000 ≤ j ∧
              j < dst - 0x8000 + (m.bus.VBK &&& 0x01) * 0x2000 + min (k + 1) (0xA000 - dst) := by
            omega
          rw [if_pos hc, if_pos hc2]
        · have hc2 : ¬ (dst - 0x8000 + (m.bus.VBK &&& 0x01) * 0x2000 ≤ j ∧
              j < dst - 0x8000 + (m.bus.VBK &&& 0x01) * 0x2000 + min (k + 1) (0xA000 - dst)) := by
            omega
          rw [if_neg hc, if_neg hc2]
    · rw [if_neg hin]
      refine ⟨hfr, ?_⟩
      intro j
      rw [hvram j]
      have hmin : min (k + 1) (0xA000 - dst) = min k (0xA000 - dst) := by omega
      rw [hmin]
/-- A write to `0xFF55` with no OAM-DMA active runs `case 0xFF55`. -/
theorem write_hdma5_register (E : Ext κ τ) (m : Machine κ τ) (v : Nat)
    (hdma : m.ppu.dma_active = false) :
    write_byte_bus E m 0xFF55 v = write_hdma5 (write_byte_bus_leaf E) E m v := by
  simp [write_byte_bus, write_byte_bus_body, write_switch, audio_case, hdma]

/-- A write to `0xFF55` with bit 7 clear, in CGB mode with no OAM-DMA active and a
source page below `0xE0`, is the general-purpose loop over `hdma_length` bytes. -/
theorem write_hdma5_gdma (E : Ext κ τ) (m : Machine κ τ) (v : Nat)
    (hcgb : m.bus.is_cgb = true) (hdma : m.ppu.dma_active = false) (hbit7 : v &&& 0x80 = 0)
    (hsrc1 : m.ppu.HDMA1 ≤ 0xDF) :
    write_byte_bus E m 0xFF55 v
      = (List.range (hdma_length v)).foldl
          (gdma_step (write_byte_bus_leaf E) E (hdma_source m.ppu) (hdma_dest m.ppu))
          { m with ppu := { m.ppu with hdma_active := false, HDMA5 := 0xFF } } := by
  obtain ⟨hs, hs2, _⟩ := hdma_source_eq m.ppu
  obtain ⟨hd, hd3, hd4, _⟩ := hdma_dest_eq m.ppu
  have hl := hdma_length_eq v
  have hsm : hdma_source m.ppu % 0x10000 = hdma_source m.ppu := by omega
  have hdm : hdma_dest m.ppu % 0x10000 = hdma_dest m.ppu := by omega
  have hlm : hdma_length v % 0x10000 = hdma_length v := by omega
  rw [write_hdma5_register E m v hdma]
  unfold write_hdma5
  have h1 : ¬ ¬ m.bus.is_cgb = true := by rw [hcgb]; simp
  have h2 : ¬ (m.ppu.hdma_active = true ∧ v &&& 0x80 ≠ 0) := fun h => h.2 hbit7
  rw [if_neg h1, if_neg h2]
  simp only []
  rw [if_pos hbit7]
  show (List.range (hdma_length v % 0x10000)).foldl
      (gdma_step (write_byte_bus_leaf E) E (hdma_source m.ppu % 0x10000)
        (hdma_dest m.ppu % 0x10000)) _ = _
  rw [hsm, hdm, hlm]

/-- C8. General-purpose HDMA: in CGB mode with no OAM-DMA active and the source
page `HDMA1` in work RAM (`0xC0..0xDF`), a write to `0xFF55` of a value with bit 7
clear copies `length = ((v & 0x7F) + 1) * 16` bytes at once: for every `i < length`
with `dst + i < 0xA000`, the VRAM byte at `dst + i` in the bank selected by `VBK`
is the byte the bus read at `src + i` before the write; every other VRAM byte is
unchanged; outside VRAM only `hdma_active` (now false) and `HDMA5` (now `0xFF`)
can differ; and a read of `0xFF55` returns `0xFF`. -/
theorem gdma_copies_to_vram (E : Ext κ τ) (m : Machine κ τ) (v : Nat)
    (hcgb : m.bus.is_cgb = true) (hdma : m.ppu.dma_active = false) (hbit7 : v &&& 0x80 = 0)
    (hsrc0 : 0xC0 ≤ m.ppu.HDMA1) (hsrc1 : m.ppu.HDMA1 ≤ 0xDF) :
    (∀ i, i < hdma_length v → hdma_dest m.ppu + i < 0xA000 →
      (write_byte_bus E m 0xFF55 v).bus.vram (vram_bank_index m.bus.VBK (hdma_dest m.ppu + i))
        = read_byte_bus E m (hdma_source m.ppu + i)) ∧
    (∀ j, (∀ i, i < hdma_length v → hdma_dest m.ppu + i < 0xA000 →
        j ≠ vram_bank_index m.bus.VBK (hdma_dest m.ppu + i)) →
      (write_byte_bus E m 0xFF55 v).bus.vram j = m.bus.vram j) ∧
    vram_frame (write_byte_bus E m 0xFF55 v)
      = vram_frame { m with ppu := { m.ppu with hdma_active := false, HDMA5 := 0xFF } } ∧
    (write_byte_bus E m 0xFF55 v).ppu.hdma_active = false ∧
    read_byte_bus E (write_byte_bus E m 0xFF55 v) 0xFF55 = 0xFF := by
  obtain ⟨hs, hs2, _⟩ := hdma_source_eq m.ppu
  obtain ⟨hd, hd3, hd4, _⟩ := hdma_dest_eq m.ppu
  have hl := hdma_length_eq v
  have hb : m.bus.VBK &&& 0x01 ≤ 1 := Nat.and_le_right
  have hidx : ∀ i, hdma_dest m.ppu + i < 0xA000 →
      vram_bank_index m.bus.VBK (hdma_dest m.ppu + i)
        = hdma_dest m.ppu - 0x8000 + (m.bus.VBK &&& 0x01) * 0x2000 + i := by
    intro i hi
    unfold vram_bank_index
    simp only []
    omega
  obtain ⟨hfr, hvram⟩ := gdma_loop_spec E m
    { m with ppu := { m.ppu with hdma_active := false, HDMA5 := 0xFF } }
    (hdma_source m.ppu) (hdma_dest m.ppu) hdma rfl rfl (by omega) (by omega) (by omega) (by omega)
    (hdma_length v) (by omega)
  rw [← write_hdma5_gdma E m v hcgb hdma hbit7 hsrc1] at hfr hvram
  refine ⟨?_, ?_, hfr, ?_, ?_⟩
  · intro i hi hin
    rw [hidx i hin, hvram]
    have hc : hdma_dest m.ppu - 0x8000 + (m.bus.VBK &&& 0x01) * 0x2000
          ≤ hdma_dest m.ppu - 0x8000 + (m.bus.VBK &&& 0x01) * 0x2000 + i ∧
        hdma_dest m.ppu - 0x8000 + (m.bus.VBK &&& 0x01) * 0x2000 + i
          < hdma_dest m.ppu - 0x8000 + (m.bus.VBK &&& 0x01) * 0x2000
            + min (hdma_length v) (0xA000 - hdma_dest m.ppu) := by omega
    rw [if_pos hc]
    congr 2
    omega
  · intro j hj
    rw [hvram]
    by_cases hc : hdma_dest m.ppu - 0x8000 + (m.bus.VBK &&& 0x01) * 0x2000 ≤ j ∧
        j < hdma_dest m.ppu - 0x8000 + (m.bus.VBK &&& 0x01) * 0x2000
          + min (hdma_length v) (0xA000 - hdma_dest m.ppu)
    · exfalso
      refine hj (j - (hdma_dest m.ppu - 0x8000 + (m.bus.VBK &&& 0x01) * 0x2000))
        (by omega) (by omega) ?_
      rw [hidx _ (by omega)]
      omega
    · rw [if_neg hc]
  · exact proj_of_frame vram_frame (fun x => x.ppu.hdma_active) (fun _ => rfl) hfr
  · have hd2 : (write_byte_bus E m 0xFF55 v).ppu.dma_active = false :=
      (proj_of_frame vram_frame (fun x => x.ppu.dma_active) (fun _ => rfl) hfr).trans hdma
    have h5 : (write_byte_bus E m 0xFF55 v).ppu.HDMA5 = 0xFF :=
      proj_of_frame vram_frame (fun x => x.ppu.HDMA5) (fun _ => rfl) hfr
    have hbr := bootrom_overlay_none (write_byte_bus E m 0xFF55 v).bus 0xFF55 (by decide)
    simp [read_byte_bus, read_switch, audio_case, hd2, hbr, h5]
theorem gdma_copies_to_vram_witness :
    powerOnHdma.bus.is_cgb = true ∧ powerOnHdma.ppu.dma_active = false ∧
    0x01 &&& 0x80 = 0 ∧ 0xC0 ≤ powerOnHdma.ppu.HDMA1 ∧ powerOnHdma.ppu.HDMA1 ≤ 0xDF ∧
    (write_byte_bus idleExt powerOnHdma 0xFF55 0x01).bus.vram
      (vram_bank_index powerOnHdma.bus.VBK (hdma_dest powerOnHdma.ppu + 0x1F)) = 0xAB ∧
    (write_byte_bus idleExt powerOnHdma 0xFF55 0x01).ppu.hdma_active = false ∧
    read_byte_bus idleExt (write_byte_bus idleExt powerOnHdma 0xFF55 0x01) 0xFF55 = 0xFF :=
  ⟨rfl, rfl, by decide, by decide, by decide,
    ((gdma_copies_to_vram idleExt powerOnHdma 0x01 rfl rfl (by decide) (by decide)
      (by decide)).1 0x1F (by decide) (by decide)).trans (by decide),
    (gdma_copies_to_vram idleExt powerOnHdma 0x01 rfl rfl (by decide) (by decide)
      (by decide)).2.2.2.1,
    (gdma_copies_to_vram idleExt powerOnHdma 0x01 rfl rfl (by decide) (by decide)
      (by decide)).2.2.2.2⟩

/-! ## C9: HBlank HDMA -/

/-- Outside `0x8000..0x9FFF` a bus read does not look at video RAM. -/
theorem read_byte_bus_vram_frame (E : Ext κ τ) (m : Machine κ τ) (a : Nat)
    (hout : ¬ (0x8000 ≤ a ∧ a < 0xA000)) :
    read_byte_bus E (vram_frame m) a = read_byte_bus E m a := by
  by_cases hlow : a < 0x8000
  · simp only [read_byte_bus, hlow, if_true]
    rfl
  · have h2 : ¬ a ≤ 0x9FFF := by omega
    simp only [read_byte_bus, hlow, h2, if_false]
    rfl

/-- Two machines that differ only in video RAM give the same bus read, provided
that a read inside VRAM finds the same byte at its banked index. -/
theorem read_byte_bus_vram_congr (E : Ext κ τ) (m1 m2 : Machine κ τ) (a : Nat)
    (hfr : vram_frame m1 = vram_frame m2)
    (hv : 0x8000 ≤ a → a < 0xA000 →
      m1.bus.vram (vram_bank_index m2.bus.VBK a) = m2.bus.vram (vram_bank_index m2.bus.VBK a)) :
    read_byte_bus E m1 a = read_byte_bus E m2 a := by
  by_cases hin : 0x8000 ≤ a ∧ a < 0xA000
  · have hd : m1.ppu.dma_active = m2.ppu.dma_active :=
      proj_of_frame vram_frame (fun x => x.ppu.dma_active) (fun _ => rfl) hfr
    have hb : m1.bus.VBK = m2.bus.VBK :=
      proj_of_frame vram_frame (fun x => x.bus.VBK) (fun _ => rfl) hfr
    rw [read_vram E m1 a hin.1 hin.2, read_vram E m2 a hin.1 hin.2, hd, hb]
    unfold ppu_vram_read
    rw [hv hin.1 hin.2]
  · rw [← read_byte_bus_vram_frame E m1 a hin, ← read_byte_bus_vram_frame E m2 a hin, hfr]
/-- A bus write to VRAM with no OAM-DMA active: a point update of `vram` at the
banked index. -/
theorem write_vram_inactive (E : Ext κ τ) (m : Machine κ τ) (addr v : Nat)
    (hdma : m.ppu.dma_active = false) (hlo : 0x8000 ≤ addr) (hhi : addr < 0xA000) :
    write_byte_bus E m addr v
      = { m with bus := { m.bus with
            vram := m.bus.vram.set (addr - 0x8000 + (m.bus.VBK &&& 0x01) * 0x2000) v } } := by
  rw [← leaf_write_vram E m addr v hdma hlo hhi]
  exact (write_byte_bus_body_congr _ _ E m addr v (by omega)).symm

/-- The 16-byte loop of `hdma_transfer1` after `i` iterations, from cursors that
are multiples of 16 and with no OAM-DMA active: both cursors have advanced by `i`
and, when the destination block lies in VRAM, its first `i` bytes hold what the bus
read at the source before the block; nothing but `vram` has changed. -/
theorem hdma_loop_spec (E : Ext κ τ) (m : Machine κ τ) (src dst : Nat)
    (hdma : m.ppu.dma_active = false) (hs : src < 0x10000) (hd : dst < 0x10000)
    (hsa : src % 16 = 0) (hda : dst % 16 = 0) (i : Nat) (hi : i ≤ 16) :
    ((List.range i).foldl (fun st _ => hdma_copy1 E st) (m, src, dst)).2.1
      = (src + i) % 0x10000 ∧
    ((List.range i).foldl (fun st _ => hdma_copy1 E st) (m, src, dst)).2.2
      = (dst + i) % 0x10000 ∧
    vram_frame ((List.range i).foldl (fun st _ => hdma_copy1 E st) (m, src, dst)).1
      = vram_frame m ∧
    ∀ j, ((List.range i).foldl (fun st _ => hdma_copy1 E st) (m, src, dst)).1.bus.vram j
      = if (0x8000 ≤ dst ∧ dst < 0xA000) ∧
            dst - 0x8000 + (m.bus.VBK &&& 0x01) * 0x2000 ≤ j ∧
            j < dst - 0x8000 + (m.bus.VBK &&& 0x01) * 0x2000 + i
        then read_byte_bus E m
          ((src + (j - (dst - 0x8000 + (m.bus.VBK &&& 0x01) * 0x2000))) % 0x10000)
        else m.bus.vram j := by
  have hb : m.bus.VBK &&& 0x01 ≤ 1 := Nat.and_le_right
  induction i with
  | zero =>
    refine ⟨?_, ?_, rfl, ?_⟩
    · show src = _; omega
    · show dst = _; omega
    · intro j
      have : ¬ ((0x8000 ≤ dst ∧ dst < 0xA000) ∧
          dst - 0x8000 + (m.bus.VBK &&& 0x01) * 0x2000 ≤ j ∧
          j < dst - 0x8000 + (m.bus.VBK &&& 0x01) * 0x2000 + 0) := by omega
      rw [if_neg this]; rfl
  | succ i ih =>
    obtain ⟨hsrc, hdst, hfr, hvram⟩ := ih (by omega)
    rw [List.range_succ, List.foldl_append, List.foldl_cons, List.foldl_nil]
    set st := (List.range i).foldl (fun st _ => hdma_copy1 E st) (m, src, dst) with hst
    have hdk : st.1.ppu.dma_active = false :=
      (proj_of_frame vram_frame (fun x => x.ppu.dma_active) (fun _ => rfl) hfr).trans hdma
    have hvbk : st.1.bus.VBK = m.bus.VBK :=
      proj_of_frame vram_frame (fun x => x.bus.VBK) (fun _ => rfl) hfr
    have hdst2 : st.2.2 = dst + i := by rw [hdst]; omega
    have hread : read_byte_bus E st.1 ((src + i) % 0x10000)
        = read_byte_bus E m ((src + i) % 0x10000) := by
      apply read_byte_bus_vram_congr E st.1 m _ hfr
      intro h1 h2
      rw [hvram]
      have hidx : vram_bank_index m.bus.VBK ((src + i) % 0x10000)
          = (src + i) % 0x10000 - 0x8000 + (m.bus.VBK &&& 0x01) * 0x2000 := by
        unfold vram_bank_index
        simp only []
        omega
      rw [hidx]
      have : ¬ ((0x8000 ≤ dst ∧ dst < 0xA000) ∧
          dst - 0x8000 + (m.bus.VBK &&& 0x01) * 0x2000
            ≤ (src + i) % 0x10000 - 0x8000 + (m.bus.VBK &&& 0x01) * 0x2000 ∧
          (src + i) % 0x10000 - 0x8000 + (m.bus.VBK &&& 0x01) * 0x2000
            < dst - 0x8000 + (m.bus.VBK &&& 0x01) * 0x2000 + i) := by omega
      rw [if_neg this]
    unfold hdma_copy1
    simp only [hsrc, hread, hdst2]
    refine ⟨by omega, by omega, ?_, ?_⟩
    · by_cases hin : dst + i ≥ 0x8000 ∧ dst + i < 0xA000
      · rw [if_pos hin]
        exact (write_vram_frame E st.1 _ _ hin.1 hin.2).trans hfr
      · rw [if_neg hin]; exact hfr
    · intro j
      by_cases hin : dst + i ≥ 0x8000 ∧ dst + i < 0xA000
      · rw [if_pos hin, write_vram_inactive E st.1 _ _ hdk hin.1 hin.2, hvbk]
        show st.1.bus.vram.set (dst + i - 0x8000 + (m.bus.VBK &&& 0x01) * 0x2000) _ j = _
        have hinV : 0x8000 ≤ dst ∧ dst < 0xA000 := by omega
        by_cases hj : j = dst + i - 0x8000 + (m.bus.VBK &&& 0x01) * 0x2000
        · have hc : (0x8000 ≤ dst ∧ dst < 0xA000) ∧
              dst - 0x8000 + (m.bus.VBK &&& 0x01) * 0x2000 ≤ j ∧
              j < dst - 0x8000 + (m.bus.VBK &&& 0x01) * 0x2000 + (i + 1) := by omega
          have hidx : j - (dst - 0x8000 + (m.bus.VBK &&& 0x01) * 0x2000) = i := by omega
          rw [if_pos hc, hidx, hj, Mem.set_same]
        · rw [Mem.set_other _ _ _ _ hj, hvram j]
          by_cases hc : (0x8000 ≤ dst ∧ dst < 0xA000) ∧
              dst - 0x8000 + (m.bus.VBK &&& 0x01) * 0x2000 ≤ j ∧
              j < dst - 0x8000 + (m.bus.VBK &&& 0x01) * 0x2000 + i
          · have hc2 : (0x8000 ≤ dst ∧ dst < 0xA000) ∧
                dst - 0x8000 + (m.bus.VBK &&& 0x01) * 0x2000 ≤ j ∧
                j < dst - 0x8000 + (m.bus.VBK &&& 0x01) * 0x2000 + (i + 1) := by omega
            rw [if_pos hc, if_pos hc2]
          · have hc2 : ¬ ((0x8000 ≤ dst ∧ dst < 0xA000) ∧
                dst - 0x8000 + (m.bus.VBK &&& 0x01) * 0x2000 ≤ j ∧
                j < dst - 0x8000 + (m.bus.VBK &&& 0x01) * 0x2000 + (i + 1)) := by omega
            rw [if_neg hc, if_neg hc2]
      · rw [if_neg hin, hvram j]
        have hnotV : ¬ (0x8000 ≤ dst ∧ dst < 0xA000) := by omega
        have hc : ¬ ((0x8000 ≤ dst ∧ dst < 0xA000) ∧
            dst - 0x8000 + (m.bus.VBK &&& 0x01) * 0x2000 ≤ j ∧
            j < dst - 0x8000 + (m.bus.VBK &&& 0x01) * 0x2000 + i) := fun h => hnotV h.1
        have hc2 : ¬ ((0x8000 ≤ dst ∧ dst < 0xA000) ∧
            dst - 0x8000 + (m.bus.VBK &&& 0x01) * 0x2000 ≤ j ∧
            j < dst - 0x8000 + (m.bus.VBK &&& 0x01) * 0x2000 + (i + 1)) := fun h => hnotV h.1
        rw [if_neg hc, if_neg hc2]
theorem hblank_entries_succ (E : Ext κ τ) (k : Nat) (m : Machine κ τ) :
    hblank_entries E (k + 1) m = hdma_transfer1 E (hblank_entries E k m) := by
  induction k generalizing m with
  | zero => rfl
  | succ k ih =>
    show hblank_entries E (k + 1) (hdma_transfer1 E m) = _
    rw [ih]
    rfl

theorem or80_bits : ∀ n, n ≤ 0x7F →
    (0x80 ||| n) &&& 0x7F = n ∧ (0x80 ||| n) &&& 0x80 = 0x80 := by
  decide

theorem and7F_small (x : Nat) (h : x ≤ 0x7F) : x &&& 0x7F = x :=
  Nat.and_pow_two_sub_one_of_lt_two_pow (n := 7) (by omega)

/-- A read of `0xFF55` with no OAM-DMA active returns `HDMA5`. -/
theorem read_hdma5 (E : Ext κ τ) (m : Machine κ τ) (hdma : m.ppu.dma_active = false) :
    read_byte_bus E m 0xFF55 = m.ppu.HDMA5 := by
  have hbr := bootrom_overlay_none m.bus 0xFF55 (by decide)
  simp [read_byte_bus, read_switch, audio_case, hdma, hbr]

/-- A write to `0xFF55` of `0x80 | n` in CGB mode, with neither OAM-DMA nor HDMA
active, arms the HBlank transfer and changes nothing else. -/
theorem write_hdma5_hblank (E : Ext κ τ) (m : Machine κ τ) (n : Nat)
    (hcgb : m.bus.is_cgb = true) (hdma : m.ppu.dma_active = false)
    (hidle : m.ppu.hdma_active = false) (hn : n ≤ 0x7F) :
    write_byte_bus E m 0xFF55 (0x80 ||| n)
      = { m with ppu := { m.ppu with
            hdma_active := true,
            hdma_src := hdma_source m.ppu % 0x10000,
            hdma_dst := hdma_dest m.ppu,
            hdma_remaining := (n + 1) * 16,
            HDMA5 := n } } := by
  obtain ⟨hb1, hb2⟩ := or80_bits n hn
  obtain ⟨hd, hd3, hd4, _⟩ := hdma_dest_eq m.ppu
  have hdm : hdma_dest m.ppu % 0x10000 = hdma_dest m.ppu := by omega
  rw [write_hdma5_register E m _ hdma]
  unfold write_hdma5
  have h1 : ¬ ¬ m.bus.is_cgb = true := by rw [hcgb]; simp
  have h2 : ¬ (m.ppu.hdma_active = true ∧ (0x80 ||| n) &&& 0x80 ≠ 0) := by
    rw [hidle]; simp
  have h3 : ¬ ((0x80 ||| n) &&& 0x80 = 0) := by rw [hb2]; decide
  rw [if_neg h1, if_neg h2]
  simp only []
  rw [if_neg h3, hb1]
  have hlen : ((n + 1) * 0x10) % 0x10000 = (n + 1) * 16 := by omega
  have hblk : ((n + 1) * 16 / 0x10) % 0x100 = n + 1 := by omega
  have hne : n + 1 ≠ 0 := by omega
  rw [hlen, hblk, if_pos hne, Nat.add_sub_cancel, and7F_small n hn]
  show ({ m with ppu := { m.ppu with
      hdma_active := true, hdma_src := hdma_source m.ppu % 0x10000,
      hdma_dst := hdma_dest m.ppu % 0x10000, hdma_remaining := (n + 1) * 16,
      HDMA5 := n } } : Machine κ τ) = _
  rw [hdm]

/-- The tail of `hdma_transfer1`: the cursors are stored back, video RAM is left
alone, and one block is taken off `hdma_remaining` and `HDMA5`. -/
theorem hdma_finish_spec (m1 : Machine κ τ) (src dst : Nat) :
    (hdma_finish m1 src dst).ppu.hdma_src = src ∧
    (hdma_finish m1 src dst).ppu.hdma_dst = dst ∧
    (hdma_finish m1 src dst).bus.vram = m1.bus.vram ∧
    (m1.ppu.hdma_remaining ≤ 16 →
      (hdma_finish m1 src dst).ppu.hdma_remaining = 0 ∧
      (hdma_finish m1 src dst).ppu.hdma_active = false ∧
      (hdma_finish m1 src dst).ppu.HDMA5 = 0xFF) ∧
    (16 < m1.ppu.hdma_remaining → m1.ppu.hdma_remaining ≤ 0x800 →
      (hdma_finish m1 src dst).ppu.hdma_remaining = m1.ppu.hdma_remaining - 16 ∧
      (hdma_finish m1 src dst).ppu.hdma_active = m1.ppu.hdma_active ∧
      (hdma_finish m1 src dst).ppu.HDMA5 = (m1.ppu.hdma_remaining - 16) / 16 - 1) := by
  unfold hdma_finish
  by_cases hlast : m1.ppu.hdma_remaining ≤ 0x10
  · rw [if_pos hlast]
    refine ⟨rfl, rfl, rfl, fun _ => ⟨rfl, rfl, rfl⟩, fun h => ?_⟩
    omega
  · rw [if_neg hlast]
    refine ⟨rfl, rfl, rfl, fun h => absurd h hlast, fun _ hmax => ⟨rfl, rfl, ?_⟩⟩
    show (if ((m1.ppu.hdma_remaining - 0x10) / 0x10) % 0x100 ≠ 0
        then ((m1.ppu.hdma_remaining - 0x10) / 0x10) % 0x100 - 1
        else ((m1.ppu.hdma_remaining - 0x10) / 0x10) % 0x100) &&& 0x7F = _
    have hq : ((m1.ppu.hdma_remaining - 0x10) / 0x10) % 0x100
        = (m1.ppu.hdma_remaining - 16) / 16 := by omega
    rw [hq]
    by_cases hz : (m1.ppu.hdma_remaining - 16) / 16 ≠ 0
    · rw [if_pos hz]; exact and7F_small _ (by omega)
    · rw [if_neg hz]
      have : (m1.ppu.hdma_remaining - 16) / 16 = 0 := by omega
      rw [this]
      rfl

/-- One HBlank entry with HDMA active, a cartridge present, no OAM-DMA active and
bytes left to copy, from cursors that are multiples of 16: the block is copied as
`hdma_loop_spec` says, both cursors advance by 16, and the block is taken off
`hdma_remaining` and `HDMA5`. -/
theorem hdma_transfer1_spec (E : Ext κ τ) (m : Machine κ τ)
    (hact : m.ppu.hdma_active = true) (hcart : m.bus.cartridge.isSome = true)
    (hdma : m.ppu.dma_active = false) (hrem : m.ppu.hdma_remaining ≠ 0)
    (hs : m.ppu.hdma_src < 0x10000) (hd : m.ppu.hdma_dst < 0x10000)
    (hsa : m.ppu.hdma_src % 16 = 0) (hda : m.ppu.hdma_dst % 16 = 0) :
    hdma_frame (hdma_transfer1 E m) = hdma_frame m ∧
    (hdma_transfer1 E m).ppu.hdma_src = (m.ppu.hdma_src + 16) % 0x10000 ∧
    (hdma_transfer1 E m).ppu.hdma_dst = (m.ppu.hdma_dst + 16) % 0x10000 ∧
    (∀ j, (hdma_transfer1 E m).bus.vram j
      = if (0x8000 ≤ m.ppu.hdma_dst ∧ m.ppu.hdma_dst < 0xA000) ∧
            m.ppu.hdma_dst - 0x8000 + (m.bus.VBK &&& 0x01) * 0x2000 ≤ j ∧
            j < m.ppu.hdma_dst - 0x8000 + (m.bus.VBK &&& 0x01) * 0x2000 + 16
        then read_byte_bus E m ((m.ppu.hdma_src
          + (j - (m.ppu.hdma_dst - 0x8000 + (m.bus.VBK &&& 0x01) * 0x2000))) % 0x10000)
        else m.bus.vram j) ∧
    (m.ppu.hdma_remaining ≤ 16 →
      (hdma_transfer1 E m).ppu.hdma_remaining = 0 ∧
      (hdma_transfer1 E m).ppu.hdma_active = false ∧
      (hdma_transfer1 E m).ppu.HDMA5 = 0xFF) ∧
    (16 < m.ppu.hdma_remaining → m.ppu.hdma_remaining ≤ 0x800 →
      (hdma_transfer1 E m).ppu.hdma_remaining = m.ppu.hdma_remaining - 16 ∧
      (hdma_transfer1 E m).ppu.hdma_active = true ∧
      (hdma_transfer1 E m).ppu.HDMA5 = (m.ppu.hdma_remaining - 16) / 16 - 1) := by
  obtain ⟨hsrc, hdst, hfr, hvram⟩ :=
    hdma_loop_spec E m m.ppu.hdma_src m.ppu.hdma_dst hdma hs hd hsa hda 16 (le_refl _)
  have hblock : hdma_block E m
      = (List.range 16).foldl (fun st _ => hdma_copy1 E st) (m, m.ppu.hdma_src, m.ppu.hdma_dst) :=
    rfl
  rw [← hblock] at hsrc hdst hfr hvram
  have hnone : m.bus.cartridge.isNone = false := by
    cases hc : m.bus.cartridge with
    | none => rw [hc] at hcart; simp at hcart
    | some c => rfl
  have hrun : hdma_transfer1 E m
      = hdma_finish (hdma_block E m).1 (hdma_block E m).2.1 (hdma_block E m).2.2 := by
    unfold hdma_transfer1
    have h1 : ¬ (¬ m.ppu.hdma_active = true ∨ m.bus.cartridge.isNone = true) := by
      rw [hact, hnone]; simp
    rw [if_neg h1, if_neg hrem]
  have hr1 : (hdma_block E m).1.ppu.hdma_remaining = m.ppu.hdma_remaining :=
    proj_of_frame vram_frame (fun x => x.ppu.hdma_remaining) (fun _ => rfl) hfr
  have ha1 : (hdma_block E m).1.ppu.hdma_active = true :=
    (proj_of_frame vram_frame (fun x => x.ppu.hdma_active) (fun _ => rfl) hfr).trans hact
  obtain ⟨f1, f2, f3, f4, f5⟩ :=
    hdma_finish_spec (hdma_block E m).1 (hdma_block E m).2.1 (hdma_block E m).2.2
  rw [← hrun] at f1 f2 f3 f4 f5
  rw [hr1] at f4 f5
  rw [ha1] at f5
  refine ⟨hdma_transfer1_frame E m, f1.trans hsrc, f2.trans hdst, ?_, f4, f5⟩
  intro j
  rw [f3]
  exact hvram j
/-- What an HBlank block transfer needs of the machine: a cartridge, no OAM-DMA,
and cursors that are 16-bit multiples of 16.  It holds at every stage of a transfer
armed through `0xFF55`. -/
theorem HdmaInv_ready (m mk : Machine κ τ) (n k : Nat) (hn : n ≤ 0x7F) (hk : k ≤ n)
    (hcart : m.bus.cartridge.isSome = true) (hdma : m.ppu.dma_active = false)
    (hinv : HdmaInv m mk n k) :
    mk.bus.cartridge.isSome = true ∧ mk.ppu.dma_active = false ∧
    mk.ppu.hdma_src < 0x10000 ∧ mk.ppu.hdma_dst < 0x10000 ∧
    mk.ppu.hdma_src % 16 = 0 ∧ mk.ppu.hdma_dst % 16 = 0 ∧ 0x8000 ≤ mk.ppu.hdma_dst ∧
    mk.bus.VBK = m.bus.VBK := by
  obtain ⟨hfr, hsrc, hdst, _, _, _⟩ := hinv
  obtain ⟨hs, hs2, hs3⟩ := hdma_source_eq m.ppu
  obtain ⟨hd, hd3, hd4, hd5⟩ := hdma_dest_eq m.ppu
  have hc : mk.bus.cartridge = m.bus.cartridge :=
    proj_of_frame hdma_frame (fun x => x.bus.cartridge) (fun _ => rfl) hfr
  have hda : mk.ppu.dma_active = m.ppu.dma_active :=
    proj_of_frame hdma_frame (fun x => x.ppu.dma_active) (fun _ => rfl) hfr
  have hvbk : mk.bus.VBK = m.bus.VBK :=
    proj_of_frame hdma_frame (fun x => x.bus.VBK) (fun _ => rfl) hfr
  refine ⟨by rw [hc]; exact hcart, hda.trans hdma, ?_, ?_, ?_, ?_, ?_, hvbk⟩
  · rw [hsrc]; omega
  · rw [hdst]; omega
  · rw [hsrc]; omega
  · rw [hdst]; omega
  · rw [hdst]; omega

/-- Arming the transfer establishes the invariant, and each HBlank entry keeps it. -/
theorem HdmaInv_entries (E : Ext κ τ) (m : Machine κ τ) (n : Nat)
    (hcgb : m.bus.is_cgb = true) (hcart : m.bus.cartridge.isSome = true)
    (hdma : m.ppu.dma_active = false) (hidle : m.ppu.hdma_active = false) (hn : n ≤ 0x7F) :
    ∀ k, k ≤ n + 1 →
      HdmaInv m (hblank_entries E k (write_byte_bus E m 0xFF55 (0x80 ||| n))) n k := by
  intro k
  induction k with
  | zero =>
    intro _
    show HdmaInv m (write_byte_bus E m 0xFF55 (0x80 ||| n)) n 0
    rw [write_hdma5_hblank E m n hcgb hdma hidle hn]
    refine ⟨rfl, rfl, rfl, rfl, fun _ => ⟨rfl, rfl⟩, fun h => ?_⟩
    omega
  | succ k ih =>
    intro hk
    have hinv := ih (by omega)
    obtain ⟨hc, hd, hs, hdd, hsa, hda, _, _⟩ :=
      HdmaInv_ready m _ n k hn (by omega) hcart hdma hinv
    obtain ⟨hfr, hsrc, hdst, hrem, hact, _⟩ := hinv
    obtain ⟨ha, h5⟩ := hact (by omega)
    obtain ⟨g1, g2, g3, _, g5, g6⟩ := hdma_transfer1_spec E _ ha hc hd
      (by rw [hrem]; omega) hs hdd hsa hda
    obtain ⟨_, hd3, hd4, _⟩ := hdma_dest_eq m.ppu
    rw [hblank_entries_succ]
    refine ⟨g1.trans hfr, ?_, ?_, ?_, ?_, ?_⟩
    · rw [g2, hsrc]; omega
    · rw [g3, hdst]; omega
    · by_cases hlast : k = n
      · rw [(g5 (by rw [hrem]; omega)).1]; omega
      · rw [(g6 (by rw [hrem]; omega) (by rw [hrem]; omega)).1, hrem]; omega
    · intro hle
      obtain ⟨_, r2, r3⟩ := g6 (by rw [hrem]; omega) (by rw [hrem]; omega)
      refine ⟨r2, ?_⟩
      rw [r3, hrem]; omega
    · intro hgt
      obtain ⟨_, r2, r3⟩ := g5 (by rw [hrem]; omega)
      exact ⟨r2, r3⟩

/-- C9. HBlank HDMA: in CGB mode with a cartridge present and neither OAM-DMA nor
HDMA active, a write of `0x80 | n` (`n ≤ 0x7F`) to `0xFF55` changes no VRAM byte,
sets `hdma_active` and makes `HDMA5` read `n`.  After `k` HBlank entries the
cursors have advanced by `16 * k` and `hdma_remaining` is `(n + 1 - k) * 16`; while
`k ≤ n` the transfer is still active, `HDMA5` reads `n - k`, and the next entry
copies exactly one 16-byte block: the bytes of VRAM at `hdma_dst + j` below
`0xA000` become the bytes the bus reads at `hdma_src + j`, and no other VRAM byte
changes.  After `n + 1` entries `hdma_active` is false and `HDMA5` reads `0xFF`. -/
theorem hblank_hdma_blocks (E : Ext κ τ) (m : Machine κ τ) (n : Nat)
    (hcgb : m.bus.is_cgb = true) (hcart : m.bus.cartridge.isSome = true)
    (hdma : m.ppu.dma_active = false) (hidle : m.ppu.hdma_active = false) (hn : n ≤ 0x7F) :
    ((write_byte_bus E m 0xFF55 (0x80 ||| n)).bus.vram = m.bus.vram ∧
      (write_byte_bus E m 0xFF55 (0x80 ||| n)).ppu.hdma_active = true ∧
      read_byte_bus E (write_byte_bus E m 0xFF55 (0x80 ||| n)) 0xFF55 = n) ∧
    (∀ k, k ≤ n + 1 →
      (hblank_entries E k (write_byte_bus E m 0xFF55 (0x80 ||| n))).ppu.hdma_src
        = (hdma_source m.ppu + 16 * k) % 0x10000 ∧
      (hblank_entries E k (write_byte_bus E m 0xFF55 (0x80 ||| n))).ppu.hdma_dst
        = hdma_dest m.ppu + 16 * k ∧
      (hblank_entries E k (write_byte_bus E m 0xFF55 (0x80 ||| n))).ppu.hdma_remaining
        = (n + 1 - k) * 16) ∧
    (∀ k, k ≤ n →
      (hblank_entries E k (write_byte_bus E m 0xFF55 (0x80 ||| n))).ppu.hdma_active = true ∧
      read_byte_bus E (hblank_entries E k (write_byte_bus E m 0xFF55 (0x80 ||| n))) 0xFF55
        = n - k ∧
      (∀ j, j < 16 → hdma_dest m.ppu + 16 * k + j < 0xA000 →
        (hblank_entries E (k + 1) (write_byte_bus E m 0xFF55 (0x80 ||| n))).bus.vram
            (vram_bank_index m.bus.VBK (hdma_dest m.ppu + 16 * k + j))
          = read_byte_bus E (hblank_entries E k (write_byte_bus E m 0xFF55 (0x80 ||| n)))
              ((hdma_source m.ppu + 16 * k) % 0x10000 + j)) ∧
      (∀ i, (∀ j, j < 16 → hdma_dest m.ppu + 16 * k + j < 0xA000 →
          i ≠ vram_bank_index m.bus.VBK (hdma_dest m.ppu + 16 * k + j)) →
        (hblank_entries E (k + 1) (write_byte_bus E m 0xFF55 (0x80 ||| n))).bus.vram i
          = (hblank_entries E k (write_byte_bus E m 0xFF55 (0x80 ||| n))).bus.vram i)) ∧
    ((hblank_entries E (n + 1) (write_byte_bus E m 0xFF55 (0x80 ||| n))).ppu.hdma_active = false ∧
      read_byte_bus E (hblank_entries E (n + 1) (write_byte_bus E m 0xFF55 (0x80 ||| n))) 0xFF55
        = 0xFF) := by
  have hall := HdmaInv_entries E m n hcgb hcart hdma hidle hn
  have hb : m.bus.VBK &&& 0x01 ≤ 1 := Nat.and_le_right
  obtain ⟨_, hd3, hd4, _⟩ := hdma_dest_eq m.ppu
  have hdmak : ∀ k, k ≤ n + 1 →
      (hblank_entries E k (write_byte_bus E m 0xFF55 (0x80 ||| n))).ppu.dma_active = false :=
    fun k hk =>
      (proj_of_frame hdma_frame (fun x => x.ppu.dma_active) (fun _ => rfl) (hall k hk).1).trans hdma
  refine ⟨?_, ?_, ?_, ?_⟩
  · have h0 := hall 0 (by omega)
    have hw : hblank_entries E 0 (write_byte_bus E m 0xFF55 (0x80 ||| n))
        = write_byte_bus E m 0xFF55 (0x80 ||| n) := rfl
    rw [hw] at h0
    obtain ⟨_, _, _, _, hact, _⟩ := h0
    obtain ⟨ha, h5⟩ := hact (by omega)
    refine ⟨?_, ha, ?_⟩
    · rw [write_hdma5_hblank E m n hcgb hdma hidle hn]
    · have hd0 : (write_byte_bus E m 0xFF55 (0x80 ||| n)).ppu.dma_active = false :=
        hdmak 0 (by omega)
      rw [read_hdma5 E _ hd0, h5]; omega
  · intro k hk
    obtain ⟨_, hsrc, hdst, hrem, _, _⟩ := hall k hk
    exact ⟨hsrc, hdst, hrem⟩
  · intro k hk
    have hinv := hall k (by omega)
    obtain ⟨hc, hd, hs, hdd, hsa, hda, hge, hvbk⟩ :=
      HdmaInv_ready m _ n k hn hk hcart hdma hinv
    obtain ⟨hfr, hsrc, hdst, hrem, hact, _⟩ := hinv
    obtain ⟨ha, h5⟩ := hact hk
    obtain ⟨_, _, _, g4, _, _⟩ := hdma_transfer1_spec E _ ha hc hd
      (by rw [hrem]; omega) hs hdd hsa hda
    rw [hvbk, hdst, hsrc] at g4
    have hidx : ∀ j, hdma_dest m.ppu + 16 * k + j < 0xA000 →
        vram_bank_index m.bus.VBK (hdma_dest m.ppu + 16 * k + j)
          = hdma_dest m.ppu + 16 * k - 0x8000 + (m.bus.VBK &&& 0x01) * 0x2000 + j := by
      intro j hj
      unfold vram_bank_index
      simp only []
      omega
    refine ⟨ha, ?_, ?_, ?_⟩
    · rw [read_hdma5 E _ (hdmak k (by omega)), h5]
    · intro j hj hlt
      rw [hblank_entries_succ, g4, hidx j hlt]
      have hcnd : (0x8000 ≤ hdma_dest m.ppu + 16 * k ∧ hdma_dest m.ppu + 16 * k < 0xA000) ∧
          hdma_dest m.ppu + 16 * k - 0x8000 + (m.bus.VBK &&& 0x01) * 0x2000
            ≤ hdma_dest m.ppu + 16 * k - 0x8000 + (m.bus.VBK &&& 0x01) * 0x2000 + j ∧
          hdma_dest m.ppu + 16 * k - 0x8000 + (m.bus.VBK &&& 0x01) * 0x2000 + j
            < hdma_dest m.ppu + 16 * k - 0x8000 + (m.bus.VBK &&& 0x01) * 0x2000 + 16 := by
        omega
      rw [if_pos hcnd]
      have hadr : ((hdma_source m.ppu + 16 * k) % 0x10000
          + (hdma_dest m.ppu + 16 * k - 0x8000 + (m.bus.VBK &&& 0x01) * 0x2000 + j
            - (hdma_dest m.ppu + 16 * k - 0x8000 + (m.bus.VBK &&& 0x01) * 0x2000))) % 0x10000
          = (hdma_source m.ppu + 16 * k) % 0x10000 + j := by
        rw [hsrc] at hs hsa
        omega
      rw [hadr]
    · intro i hi
      rw [hblank_entries_succ, g4]
      by_cases hcnd : (0x8000 ≤ hdma_dest m.ppu + 16 * k ∧ hdma_dest m.ppu + 16 * k < 0xA000) ∧
          hdma_dest m.ppu + 16 * k - 0x8000 + (m.bus.VBK &&& 0x01) * 0x2000 ≤ i ∧
          i < hdma_dest m.ppu + 16 * k - 0x8000 + (m.bus.VBK &&& 0x01) * 0x2000 + 16
      · exfalso
        rw [hdst] at hda
        refine hi (i - (hdma_dest m.ppu + 16 * k - 0x8000 + (m.bus.VBK &&& 0x01) * 0x2000))
          (by omega) (by omega) ?_
        rw [hidx _ (by omega)]
        omega
      · rw [if_neg hcnd]
  · obtain ⟨_, _, _, _, _, hdone⟩ := hall (n + 1) (le_refl _)
    obtain ⟨ha, h5⟩ := hdone (by omega)
    exact ⟨ha, by rw [read_hdma5 E _ (hdmak (n + 1) (le_refl _)), h5]⟩
theorem hblank_hdma_blocks_witness :
    powerOnHdma.bus.is_cgb = true ∧ powerOnHdma.bus.cartridge.isSome = true ∧
    powerOnHdma.ppu.dma_active = false ∧ powerOnHdma.ppu.hdma_active = false ∧ 1 ≤ 0x7F ∧
    read_byte_bus idleExt (write_byte_bus idleExt powerOnHdma 0xFF55 (0x80 ||| 1)) 0xFF55 = 1 ∧
    read_byte_bus idleExt
      (hblank_entries idleExt 1 (write_byte_bus idleExt powerOnHdma 0xFF55 (0x80 ||| 1))) 0xFF55
      = 1 - 1 ∧
    (hblank_entries idleExt (1 + 1)
      (write_byte_bus idleExt powerOnHdma 0xFF55 (0x80 ||| 1))).ppu.hdma_active = false ∧
    read_byte_bus idleExt
      (hblank_entries idleExt (1 + 1) (write_byte_bus idleExt powerOnHdma 0xFF55 (0x80 ||| 1)))
      0xFF55 = 0xFF :=
  ⟨rfl, rfl, rfl, rfl, by decide,
    (hblank_hdma_blocks idleExt powerOnHdma 1 rfl rfl rfl rfl (by decide)).1.2.2,
    ((hblank_hdma_blocks idleExt powerOnHdma 1 rfl rfl rfl rfl (by decide)).2.2.1 1
      (by decide)).2.1,
    (hblank_hdma_blocks idleExt powerOnHdma 1 rfl rfl rfl rfl (by decide)).2.2.2.1,
    (hblank_hdma_blocks idleExt powerOnHdma 1 rfl rfl rfl rfl (by decide)).2.2.2.2⟩

/-- The mode update of a step makes the HBlank entry: on a visible line with the
dot clock at 252 or later and the STAT mode not yet 0, an active HDMA gets its
`hdma_transfer1` call. -/
theorem mode_update_hblank_entry (E : Ext κ τ) (m : Machine κ τ)
    (hly : m.ppu.LY < 144) (hclk : 252 ≤ m.ppu.cycles_in_line)
    (hmode : m.ppu.STAT &&& 0x03 ≠ 0) (hact : m.ppu.hdma_active = true) :
    enter_hblank E m = hblank_irq (hdma_transfer1 E m) ∧
    mode_update E m
      = { hblank_irq (hdma_transfer1 E m) with
          ppu := { (hblank_irq (hdma_transfer1 E m)).ppu with
            STAT := ((hblank_irq (hdma_transfer1 E m)).ppu.STAT &&& 0xFC) ||| 0 } } := by
  have he : enter_hblank E m = hblank_irq (hdma_transfer1 E m) := by
    unfold enter_hblank
    rw [if_pos hmode, hact, if_pos rfl]
  refine ⟨he, ?_⟩
  unfold mode_update
  have h1 : ¬ m.ppu.cycles_in_line < 80 := by omega
  have h2 : ¬ m.ppu.cycles_in_line < 252 := by omega
  rw [if_pos hly, if_neg h1, if_neg h2, he]

/-! ## C10: palette index autoincrement -/

/-- A write to `0xFF68` with no OAM-DMA active stores BCPS. -/
theorem write_bcps (E : Ext κ τ) (m : Machine κ τ) (v : Nat) (hdma : m.ppu.dma_active = false) :
    write_byte_bus E m 0xFF68 v = { m with ppu := { m.ppu with BCPS := v } } := by
  simp [write_byte_bus, write_byte_bus_body, write_switch, audio_case, hdma]

/-- A write to `0xFF69` with no OAM-DMA active stores the byte at the palette index
`BCPS & 0x3F` and, when bit 7 of BCPS is set, steps the index. -/
theorem write_bcpd (E : Ext κ τ) (m : Machine κ τ) (b : Nat) (hdma : m.ppu.dma_active = false) :
    write_byte_bus E m 0xFF69 b
      = { m with ppu := { m.ppu with
            bg_pallete := m.ppu.bg_pallete.set (m.ppu.BCPS &&& 0x3F) b,
            BCPS := if m.ppu.BCPS &&& 0x80 ≠ 0
              then 0x80 ||| (((m.ppu.BCPS &&& 0x3F) + 1) &&& 0x3F) else m.ppu.BCPS } } := by
  simp [write_byte_bus, write_byte_bus_body, write_switch, audio_case, hdma]

theorem or80_index : ∀ x, x < 64 →
    (0x80 ||| x) &&& 0x3F = x ∧ (0x80 ||| x) &&& 0x80 ≠ 0 := by
  decide

theorem palette_writes_snoc (E : Ext κ τ) (m : Machine κ τ) (bs : List Nat) (b : Nat) :
    palette_writes E m (bs ++ [b]) = write_byte_bus E (palette_writes E m bs) 0xFF69 b := by
  unfold palette_writes
  rw [List.foldl_append]
  rfl

/-- The palette and its index register after `bs.length` autoincrementing writes
that started at index `i`. -/
theorem palette_writes_spec (E : Ext κ τ) (m : Machine κ τ) (i : Nat) (hi : i < 64)
    (hdma : m.ppu.dma_active = false) (hbcps : m.ppu.BCPS = 0x80 ||| i) (bs : List Nat) :
    (palette_writes E m bs).ppu.dma_active = false ∧
    (palette_writes E m bs).ppu.BCPS = 0x80 ||| ((i + bs.length) % 64) ∧
    (∀ j, j < bs.length →
      (∀ j2, j < j2 → j2 < bs.length → (i + j2) % 64 ≠ (i + j) % 64) →
      (palette_writes E m bs).ppu.bg_pallete ((i + j) % 64) = bs.getD j 0) ∧
    (∀ idx, (∀ j, j < bs.length → (i + j) % 64 ≠ idx) →
      (palette_writes E m bs).ppu.bg_pallete idx = m.ppu.bg_pallete idx) := by
  induction bs using List.reverseRecOn with
  | nil =>
    refine ⟨hdma, ?_, ?_, ?_⟩
    · show m.ppu.BCPS = _
      rw [hbcps]
      have : (i + ([] : List Nat).length) % 64 = i := by simp; omega
      rw [this]
    · intro j hj; simp at hj
    · intro idx _; rfl
  | append_singleton bs b ih =>
    obtain ⟨hd, hb, hset, hkeep⟩ := ih
    have hx : (i + bs.length) % 64 < 64 := Nat.mod_lt _ (by decide)
    obtain ⟨hx1, hx2⟩ := or80_index _ hx
    have hw := write_bcpd E (palette_writes E m bs) b hd
    rw [hb, hx1, if_pos hx2] at hw
    rw [palette_writes_snoc, hw]
    have hlen : (bs ++ [b]).length = bs.length + 1 := by simp
    refine ⟨hd, ?_, ?_, ?_⟩
    · show 0x80 ||| (((i + bs.length) % 64 + 1) &&& 0x3F) = _
      have h := Nat.and_pow_two_sub_one_eq_mod ((i + bs.length) % 64 + 1) 6
      rw [show (2 : Nat) ^ 6 - 1 = 0x3F from rfl] at h
      rw [h, hlen]
      congr 1
      omega
    · intro j hj hlast
      rw [hlen] at hj hlast
      show (palette_writes E m bs).ppu.bg_pallete.set ((i + bs.length) % 64) b ((i + j) % 64) = _
      by_cases hjn : j = bs.length
      · rw [hjn, Mem.set_same]
        simp [List.getD_append_right]
      · have hjlt : j < bs.length := by omega
        have hne : (i + j) % 64 ≠ (i + bs.length) % 64 :=
          fun h => hlast bs.length (by omega) (by omega) h.symm
        rw [Mem.set_other _ _ _ _ hne, hset j hjlt (fun j2 h1 h2 => hlast j2 h1 (by omega))]
        rw [List.getD_append _ _ _ _ hjlt]
    · intro idx hidx
      rw [hlen] at hidx
      show (palette_writes E m bs).ppu.bg_pallete.set ((i + bs.length) % 64) b idx = _
      have hne : idx ≠ (i + bs.length) % 64 := fun h => hidx bs.length (by omega) h.symm
      rw [Mem.set_other _ _ _ _ hne]
      exact hkeep idx (fun j hj => hidx j (by omega))
/-- C10. Palette autoincrement: with no OAM-DMA active, after a write of `0x80 | i`
(`i < 64`) to `0xFF68`, successive writes of the bytes `bs` to `0xFF69` store byte
`j` at `bg_pallete[(i + j) mod 64]` (a later write to the same index wins), leave
every palette byte at another index unchanged, and leave
`BCPS = 0x80 | ((i + n) mod 64)` for `n` bytes.  When bit 7 of BCPS is clear, a
write to `0xFF69` stores its byte at `BCPS & 0x3F` and leaves BCPS as it is. -/
theorem palette_autoincrement (E : Ext κ τ) (m : Machine κ τ) (i : Nat) (bs : List Nat)
    (hdma : m.ppu.dma_active = false) (hi : i < 64) :
    (∀ j, j < bs.length →
      (∀ j2, j < j2 → j2 < bs.length → (i + j2) % 64 ≠ (i + j) % 64) →
      (palette_writes E (write_byte_bus E m 0xFF68 (0x80 ||| i)) bs).ppu.bg_pallete
        ((i + j) % 64) = bs.getD j 0) ∧
    (∀ idx, (∀ j, j < bs.length → (i + j) % 64 ≠ idx) →
      (palette_writes E (write_byte_bus E m 0xFF68 (0x80 ||| i)) bs).ppu.bg_pallete idx
        = m.ppu.bg_pallete idx) ∧
    (palette_writes E (write_byte_bus E m 0xFF68 (0x80 ||| i)) bs).ppu.BCPS
      = 0x80 ||| ((i + bs.length) % 64) ∧
    (∀ b, m.ppu.BCPS &&& 0x80 = 0 →
      (write_byte_bus E m 0xFF69 b).ppu.BCPS = m.ppu.BCPS ∧
      (write_byte_bus E m 0xFF69 b).ppu.bg_pallete
        = m.ppu.bg_pallete.set (m.ppu.BCPS &&& 0x3F) b) := by
  have hw := write_bcps E m (0x80 ||| i) hdma
  obtain ⟨_, hb, hset, hkeep⟩ := palette_writes_spec E
    (write_byte_bus E m 0xFF68 (0x80 ||| i)) i hi
    (by rw [hw]; exact hdma) (by rw [hw]) bs
  refine ⟨hset, ?_, hb, ?_⟩
  · intro idx hidx
    rw [hkeep idx hidx, hw]
  · intro b hclear
    rw [write_bcpd E m b hdma]
    have hne : ¬ (m.ppu.BCPS &&& 0x80 ≠ 0) := fun h => h hclear
    constructor
    · show (if m.ppu.BCPS &&& 0x80 ≠ 0
        then 0x80 ||| (((m.ppu.BCPS &&& 0x3F) + 1) &&& 0x3F) else m.ppu.BCPS) = _
      rw [if_neg hne]
    · rfl

theorem palette_autoincrement_witness :
    powerOn.ppu.dma_active = false ∧ 0 < 64 ∧
    (palette_writes idleExt (write_byte_bus idleExt powerOn 0xFF68 (0x80 ||| 0))
      [0x11, 0x22, 0x33, 0x44]).ppu.bg_pallete 0 = 0x11 ∧
    (palette_writes idleExt (write_byte_bus idleExt powerOn 0xFF68 (0x80 ||| 0))
      [0x11, 0x22, 0x33, 0x44]).ppu.bg_pallete 1 = 0x22 ∧
    (palette_writes idleExt (write_byte_bus idleExt powerOn 0xFF68 (0x80 ||| 0))
      [0x11, 0x22, 0x33, 0x44]).ppu.bg_pallete 2 = 0x33 ∧
    (palette_writes idleExt (write_byte_bus idleExt powerOn 0xFF68 (0x80 ||| 0))
      [0x11, 0x22, 0x33, 0x44]).ppu.bg_pallete 3 = 0x44 ∧
    (palette_writes idleExt (write_byte_bus idleExt powerOn 0xFF68 (0x80 ||| 0))
      [0x11, 0x22, 0x33, 0x44]).ppu.BCPS = 0x84 :=
  ⟨rfl, by decide,
    (palette_autoincrement idleExt powerOn 0 [0x11, 0x22, 0x33, 0x44] rfl (by decide)).1 0
      (by decide) (fun j2 h1 h2 => by simp at h2; omega),
    (palette_autoincrement idleExt powerOn 0 [0x11, 0x22, 0x33, 0x44] rfl (by decide)).1 1
      (by decide) (fun j2 h1 h2 => by simp at h2; omega),
    (palette_autoincrement idleExt powerOn 0 [0x11, 0x22, 0x33, 0x44] rfl (by decide)).1 2
      (by decide) (fun j2 h1 h2 => by simp at h2; omega),
    (palette_autoincrement idleExt powerOn 0 [0x11, 0x22, 0x33, 0x44] rfl (by decide)).1 3
      (by decide) (fun j2 h1 h2 => by simp at h2; omega),
    (palette_autoincrement idleExt powerOn 0 [0x11, 0x22, 0x33, 0x44] rfl (by decide)).2.2.1⟩

/-! ## The OAM-DMA pacing accumulator between transfers -/

theorem ppu_vram_write_dma_fields (m : Machine κ τ) (a v : Nat) :
    (ppu_vram_write m a v).ppu.dma_active = m.ppu.dma_active ∧
    (ppu_vram_write m a v).dma_cycle_counter = m.dma_cycle_counter := by
  unfold ppu_vram_write
  split_ifs <;> exact ⟨rfl, rfl⟩

theorem write_hdma5_dma_fields (wr : Machine κ τ → Nat → Nat → Machine κ τ) (E : Ext κ τ)
    (hwr : ∀ m a v, (wr m a v).ppu.dma_active = m.ppu.dma_active ∧
      (wr m a v).dma_cycle_counter = m.dma_cycle_counter)
    (m : Machine κ τ) (v : Nat) :
    (write_hdma5 wr E m v).ppu.dma_active = m.ppu.dma_active ∧
    (write_hdma5 wr E m v).dma_cycle_counter = m.dma_cycle_counter := by
  have hstep : ∀ (src dst : Nat) (m1 : Machine κ τ) (i : Nat),
      (fun x : Machine κ τ => (x.ppu.dma_active, x.dma_cycle_counter)) (gdma_step wr E src dst m1 i)
        = (fun x : Machine κ τ => (x.ppu.dma_active, x.dma_cycle_counter)) m1 := by
    intro src dst m1 i
    unfold gdma_step
    simp only []
    split_ifs
    · rw [(hwr _ _ _).1, (hwr _ _ _).2]
    · rfl
  unfold write_hdma5
  by_cases h1 : ¬ m.bus.is_cgb = true
  · rw [if_pos h1]; exact ⟨rfl, rfl⟩
  · rw [if_neg h1]
    by_cases h2 : m.ppu.hdma_active = true ∧ v &&& 0x80 ≠ 0
    · rw [if_pos h2]; exact ⟨rfl, rfl⟩
    · rw [if_neg h2]
      simp only []
      by_cases h3 : v &&& 0x80 = 0
      · rw [if_pos h3]
        have h := foldl_preserves
          (fun x : Machine κ τ => (x.ppu.dma_active, x.dma_cycle_counter)) _
          (hstep ((m.ppu.HDMA1 <<< 8 ||| m.ppu.HDMA2 &&& 0xF0) % 0x10000)
            ((0x8000 ||| (m.ppu.HDMA3 &&& 0x1F) <<< 8 ||| m.ppu.HDMA4 &&& 0xF0) % 0x10000))
          (List.range ((((v &&& 0x7F) + 1) * 0x10) % 0x10000))
          ({ m with ppu := { m.ppu with hdma_active := false, HDMA5 := 0xFF } } : Machine κ τ)
        exact ⟨congrArg Prod.fst h, congrArg Prod.snd h⟩
      · rw [if_neg h3]; exact ⟨rfl, rfl⟩

/-- The OAM-DMA loop changes nothing but OAM, the byte counter and the pacing
accumulator, whatever the fuel. -/
theorem dma_loop_oam_frame (E : Ext κ τ) (fuel : Nat) (m : Machine κ τ) :
    oam_frame (dma_loop E fuel m) = oam_frame m := by
  induction fuel generalizing m with
  | zero => rfl
  | succ n ih =>
    unfold dma_loop
    split_ifs
    · rw [ih]; rfl
    · rfl

theorem write_switch_dma_fields (wr : Machine κ τ → Nat → Nat → Machine κ τ) (E : Ext κ τ)
    (hwr : ∀ m a v, (wr m a v).ppu.dma_active = m.ppu.dma_active ∧
      (wr m a v).dma_cycle_counter = m.dma_cycle_counter)
    (m : Machine κ τ) (a v : Nat) :
    Option.map (fun x : Machine κ τ => (x.ppu.dma_active, x.dma_cycle_counter))
        (write_switch wr E m a v)
      = Option.map (fun _ => (m.ppu.dma_active, m.dma_cycle_counter))
          (write_switch wr E m a v) := by
  have hh := write_hdma5_dma_fields wr E hwr
  unfold write_switch
  simp only [apply_ite (Option.map _), Option.map_some', Option.map_none', (hh _ _).1,
    (hh _ _).2]

theorem write_byte_bus_body_dma_fields (wr : Machine κ τ → Nat → Nat → Machine κ τ)
    (E : Ext κ τ)
    (hwr : ∀ m a v, (wr m a v).ppu.dma_active = m.ppu.dma_active ∧
      (wr m a v).dma_cycle_counter = m.dma_cycle_counter)
    (m : Machine κ τ) (a v : Nat) :
    (write_byte_bus_body wr E m a v).ppu.dma_active = m.ppu.dma_active ∧
    (write_byte_bus_body wr E m a v).dma_cycle_counter = m.dma_cycle_counter := by
  have hsw := write_switch_dma_fields wr E hwr m a v
  have hres : ∀ r, write_switch wr E m a v = some r →
      r.ppu.dma_active = m.ppu.dma_active ∧ r.dma_cycle_counter = m.dma_cycle_counter := by
    intro r hr
    rw [hr] at hsw
    exact ⟨congrArg Prod.fst (Option.some.inj hsw), congrArg Prod.snd (Option.some.inj hsw)⟩
  unfold write_byte_bus_body
  by_cases h0 : m.ppu.dma_active = true
  · rw [if_pos h0]; split_ifs <;> exact ⟨rfl, rfl⟩
  rw [if_neg h0]
  by_cases h1 : a < 0x8000
  · rw [if_pos h1]; exact ⟨rfl, rfl⟩
  rw [if_neg h1]
  by_cases h2 : a ≤ 0x9FFF
  · rw [if_pos h2]; exact ppu_vram_write_dma_fields _ _ _
  rw [if_neg h2]
  by_cases h3 : a ≥ 0xA000 ∧ a ≤ 0xBFFF
  · rw [if_pos h3]; exact ⟨rfl, rfl⟩
  rw [if_neg h3]
  by_cases h4 : a ≥ 0xC000 ∧ a ≤ 0xCFFF
  · rw [if_pos h4]; exact ⟨rfl, rfl⟩
  rw [if_neg h4]
  by_cases h5 : a ≥ 0xD000 ∧ a ≤ 0xDFFF
  · rw [if_pos h5]; exact ⟨rfl, rfl⟩
  rw [if_neg h5]
  by_cases h6 : a ≥ 0xE000 ∧ a ≤ 0xEFFF
  · rw [if_pos h6]; exact ⟨rfl, rfl⟩
  rw [if_neg h6]
  by_cases h7 : a ≥ 0xF000 ∧ a ≤ 0xFDFF
  · rw [if_pos h7]; exact ⟨rfl, rfl⟩
  rw [if_neg h7]
  by_cases h8 : a ≥ 0xFE00 ∧ a ≤ 0xFE9F
  · rw [if_pos h8]; exact ⟨rfl, rfl⟩
  rw [if_neg h8]
  by_cases h9 : a ≥ 0xFEA0 ∧ a ≤ 0xFEFF
  · rw [if_pos h9]; exact ⟨rfl, rfl⟩
  rw [if_neg h9]
  cases hr : write_switch wr E m a v with
  | none =>
    show (if a ≥ 0xFF80 ∧ a ≤ 0xFFFE then _ else if a = 0xFFFF then _ else m).ppu.dma_active = _ ∧
      (if a ≥ 0xFF80 ∧ a ≤ 0xFFFE then _ else if a = 0xFFFF then _ else m).dma_cycle_counter = _
    split_ifs <;> exact ⟨rfl, rfl⟩
  | some r => exact hres r hr

/-- No bus write changes `dma_active` or the pacing accumulator. -/
theorem write_byte_bus_dma_fields (E : Ext κ τ) (m : Machine κ τ) (a v : Nat) :
    (write_byte_bus E m a v).ppu.dma_active = m.ppu.dma_active ∧
    (write_byte_bus E m a v).dma_cycle_counter = m.dma_cycle_counter :=
  write_byte_bus_body_dma_fields _ E
    (write_byte_bus_body_dma_fields _ E (fun _ _ _ => ⟨rfl, rfl⟩)) m a v

/-- A bus write keeps the pacing accumulator at rest between transfers. -/
theorem DmaAtRest_write (E : Ext κ τ) (m : Machine κ τ) (a v : Nat) (h : DmaAtRest m) :
    DmaAtRest (write_byte_bus E m a v) := by
  obtain ⟨h1, h2⟩ := write_byte_bus_dma_fields E m a v
  unfold DmaAtRest at h ⊢
  rw [h1, h2]
  exact h

/-- After the OAM-DMA block of a step the accumulator is at rest unless a transfer
is still active, whatever it was before and whatever the cycle count. -/
theorem DmaAtRest_dma_run (E : Ext κ τ) (m : Machine κ τ) (cycles : Int) :
    DmaAtRest (dma_run E m cycles) := by
  unfold DmaAtRest dma_run
  by_cases ha : m.ppu.dma_active = true
  · rw [if_pos ha]
    simp only []
    unfold dma_finish
    split_ifs with hfin
    · intro _; rfl
    · intro hoff
      exfalso
      have hfr := dma_loop_frame E (160 - m.ppu.dma_counter)
        { m with dma_cycle_counter := m.dma_cycle_counter + cycles }
      have hact : (dma_loop E (160 - m.ppu.dma_counter)
          { m with dma_cycle_counter := m.dma_cycle_counter + cycles }).ppu.dma_active
            = m.ppu.dma_active :=
        proj_of_frame oam_frame (fun x => x.ppu.dma_active) (fun _ => rfl)
          (dma_loop_oam_frame E _ _)
      rw [hact, ha] at hoff
      exact absurd hoff (by decide)
  · rw [if_neg ha]
    intro _; rfl

/-- A PPU step with the LCD enabled leaves the pacing accumulator at rest unless a
transfer is active; with the LCD disabled it changes nothing. -/
theorem DmaAtRest_display_cycle (E : Ext κ τ) (m : Machine κ τ) (cycles : Int)
    (h : DmaAtRest m) : DmaAtRest (display_cycle E m cycles) := by
  by_cases hon : m.ppu.LCDC &&& LCDC_ENABLE = 0
  · rw [display_cycle_off E m cycles hon]; exact h
  · rw [display_cycle_on E m cycles hon]
    obtain ⟨_, _, _, _, _, f6, _, _, f9⟩ := step_tail_fields E (after_dma E m cycles)
    have hr := DmaAtRest_dma_run E (dma_latch (add_cycles m cycles)) cycles
    unfold DmaAtRest at hr ⊢
    rw [f6, f9]
    exact hr

/-- The machine main.c builds starts with the accumulator at rest. -/
theorem DmaAtRest_powerOn : DmaAtRest powerOn := fun _ => rfl

/-! ## The MMIO page -/

/-- A read of the register page `0xFF00..0xFF7F` with no OAM-DMA active goes to
the `switch`, and an address without a case reads as `0xFF`. -/
theorem read_mmio (E : Ext κ τ) (m : Machine κ τ) (addr : Nat)
    (hdma : m.ppu.dma_active = false) (hlo : 0xFF00 ≤ addr) (hhi : addr ≤ 0xFF7F) :
    read_byte_bus E m addr = (read_switch E m addr).getD 0xFF := by
  have hb := bootrom_overlay_none m.bus addr (by omega)
  have h1 : ¬ addr < 0x8000 := by omega
  have h2 : ¬ addr ≤ 0x9FFF := by omega
  have h3 : ¬ (addr ≥ 0xA000 ∧ addr ≤ 0xBFFF) := by omega
  have h4 : ¬ (addr ≥ 0xC000 ∧ addr ≤ 0xCFFF) := by omega
  have h5 : ¬ (addr ≥ 0xD000 ∧ addr ≤ 0xDFFF) := by omega
  have h6 : ¬ (addr ≥ 0xE000 ∧ addr ≤ 0xEFFF) := by omega
  have h7 : ¬ (addr ≥ 0xF000 ∧ addr ≤ 0xFDFF) := by omega
  have h8 : ¬ (addr ≥ 0xFE00 ∧ addr ≤ 0xFE9F) := by omega
  have h9 : ¬ (addr ≥ 0xFEA0 ∧ addr ≤ 0xFEFF) := by omega
  have h10 : ¬ (addr ≥ 0xFF80 ∧ addr ≤ 0xFFFE) := by omega
  have h11 : ¬ addr = 0xFFFF := by omega
  simp only [read_byte_bus, hdma, hb, h1, h2, h3, h4, h5, h6, h7, h8, h9, h10, h11, if_false,
    Bool.false_eq_true]
  cases read_switch E m addr <;> rfl

/-- A write to the register page `0xFF00..0xFF7F` with no OAM-DMA active goes to
the `switch`, and an address without a case is dropped. -/
theorem write_mmio (E : Ext κ τ) (m : Machine κ τ) (addr v : Nat)
    (hdma : m.ppu.dma_active = false) (hlo : 0xFF00 ≤ addr) (hhi : addr ≤ 0xFF7F) :
    write_byte_bus E m addr v = (write_switch (write_byte_bus_leaf E) E m addr v).getD m := by
  have h1 : ¬ addr < 0x8000 := by omega
  have h2 : ¬ addr ≤ 0x9FFF := by omega
  have h3 : ¬ (addr ≥ 0xA000 ∧ addr ≤ 0xBFFF) := by omega
  have h4 : ¬ (addr ≥ 0xC000 ∧ addr ≤ 0xCFFF) := by omega
  have h5 : ¬ (addr ≥ 0xD000 ∧ addr ≤ 0xDFFF) := by omega
  have h6 : ¬ (addr ≥ 0xE000 ∧ addr ≤ 0xEFFF) := by omega
  have h7 : ¬ (addr ≥ 0xF000 ∧ addr ≤ 0xFDFF) := by omega
  have h8 : ¬ (addr ≥ 0xFE00 ∧ addr ≤ 0xFE9F) := by omega
  have h9 : ¬ (addr ≥ 0xFEA0 ∧ addr ≤ 0xFEFF) := by omega
  have h10 : ¬ (addr ≥ 0xFF80 ∧ addr ≤ 0xFFFE) := by omega
  have h11 : ¬ addr = 0xFFFF := by omega
  simp only [write_byte_bus, write_byte_bus_body, hdma, h1, h2, h3, h4, h5, h6, h7, h8, h9, h10,
    h11, if_false, Bool.false_eq_true]
  cases write_switch (write_byte_bus_leaf E) E m addr v <;> rfl

/-- A write to `0xFF41` with no OAM-DMA active: bits 3..6 from the value, bits
0..2 kept. -/
theorem write_stat (E : Ext κ τ) (m : Machine κ τ) (v : Nat) (hdma : m.ppu.dma_active = false) :
    write_byte_bus E m 0xFF41 v
      = { m with ppu := { m.ppu with STAT := (v &&& 0x78) ||| (m.ppu.STAT &&& 0x07) } } := by
  rw [write_mmio E m _ v hdma (by decide) (by decide)]
  simp [write_switch, audio_case]

/-- A read of `0xFF41` with no OAM-DMA active returns STAT. -/
theorem read_stat (E : Ext κ τ) (m : Machine κ τ) (hdma : m.ppu.dma_active = false) :
    read_byte_bus E m 0xFF41 = m.ppu.STAT := by
  rw [read_mmio E m _ hdma (by decide) (by decide)]
  simp [read_switch, audio_case]

theorem stat_mask_low (v old : Nat) : ((v &&& 0x78) ||| (old &&& 0x07)) &&& 0x07 = old &&& 0x07 := by
  rw [Nat.and_distrib_right, Nat.and_assoc, Nat.and_assoc,
    show (0x78 : Nat) &&& 0x07 = 0 from rfl, show (0x07 : Nat) &&& 0x07 = 0x07 from rfl,
    Nat.and_zero, Nat.zero_or]
/-! ## C11: STAT write masking -/

/-- C11. STAT write masking: with no OAM-DMA active, for every value `v` and every
prior STAT value, a write of `v` to `0xFF41` followed by a read of `0xFF41`
returns `(v & 0x78) | (old & 0x07)`, where `old` is what the read returned before;
so the low three bits (mode and coincidence) read as before the write, and writing
the same `v` a second time leaves the machine as the first write left it. -/
theorem stat_write_masking (E : Ext κ τ) (m : Machine κ τ) (v : Nat)
    (hdma : m.ppu.dma_active = false) :
    read_byte_bus E (write_byte_bus E m 0xFF41 v) 0xFF41
      = (v &&& 0x78) ||| (read_byte_bus E m 0xFF41 &&& 0x07) ∧
    read_byte_bus E m 0xFF41 = m.ppu.STAT ∧
    read_byte_bus E (write_byte_bus E m 0xFF41 v) 0xFF41 &&& 0x07
      = read_byte_bus E m 0xFF41 &&& 0x07 ∧
    write_byte_bus E (write_byte_bus E m 0xFF41 v) 0xFF41 v = write_byte_bus E m 0xFF41 v := by
  have hw := write_stat E m v hdma
  have hd1 : (write_byte_bus E m 0xFF41 v).ppu.dma_active = false := by rw [hw]; exact hdma
  have hr1 := read_stat E (write_byte_bus E m 0xFF41 v) hd1
  have hs1 : (write_byte_bus E m 0xFF41 v).ppu.STAT = (v &&& 0x78) ||| (m.ppu.STAT &&& 0x07) := by
    rw [hw]
  have hr0 := read_stat E m hdma
  refine ⟨?_, hr0, ?_, ?_⟩
  · rw [hr1, hs1, hr0]
  · rw [hr1, hs1, hr0, stat_mask_low]
  · rw [write_stat E (write_byte_bus E m 0xFF41 v) v hd1, hs1, stat_mask_low, hw]

theorem stat_write_masking_witness :
    powerOn.ppu.dma_active = false ∧
    read_byte_bus idleExt (write_byte_bus idleExt powerOn 0xFF41 0xFF) 0xFF41
      = (0xFF &&& 0x78) ||| (read_byte_bus idleExt powerOn 0xFF41 &&& 0x07) :=
  ⟨rfl, (stat_write_masking idleExt powerOn 0xFF rfl).1⟩
/-! ## C12, C13: the joypad register -/

/-- The nibble `read_byte_bus` puts in bits 0..3 of a JOYP read: the latches that
the clear selection bits of `JOYP` pick. -/
theorem read_joyp (E : Ext κ τ) (m : Machine κ τ) (hdma : m.ppu.dma_active = false) :
    read_byte_bus E m 0xFF00
      = 0xC0 ||| (m.bus.JOYP &&& 0x30) |||
          (if m.bus.JOYP &&& 0x10 = 0 then
            if m.bus.JOYP &&& 0x20 = 0 then
              (m.bus.buttons_action &&& m.bus.buttons_dir) &&& 0x0F
            else m.bus.buttons_dir &&& 0x0F
          else if m.bus.JOYP &&& 0x20 = 0 then m.bus.buttons_action &&& 0x0F else 0x0F) := by
  rw [read_mmio E m _ hdma (by decide) (by decide)]
  have h20 : (m.bus.JOYP &&& 0x30) &&& 0x20 = m.bus.JOYP &&& 0x20 := by
    rw [Nat.and_assoc]; rfl
  have h10 : (m.bus.JOYP &&& 0x30) &&& 0x10 = m.bus.JOYP &&& 0x10 := by
    rw [Nat.and_assoc]; rfl
  have hsel : m.bus.JOYP &&& 0x30 < 2 ^ 8 :=
    Nat.lt_of_le_of_lt Nat.and_le_right (by decide)
  have hnib : ∀ x : Nat, x &&& 0x0F < 2 ^ 8 := fun x =>
    Nat.lt_of_le_of_lt Nat.and_le_right (by decide)
  have hlt : ∀ n : Nat, n < 2 ^ 8 → (0xC0 ||| (m.bus.JOYP &&& 0x30) ||| n) % 0x100
      = 0xC0 ||| (m.bus.JOYP &&& 0x30) ||| n := fun n hn =>
    Nat.mod_eq_of_lt (Nat.or_lt_two_pow (Nat.or_lt_two_pow (by decide) hsel) hn)
  simp only [read_switch, if_true, h20, h10, Option.getD_some]
  by_cases c10 : m.bus.JOYP &&& 0x10 = 0 <;> by_cases c20 : m.bus.JOYP &&& 0x20 = 0
  · simp only [c10, c20, if_true]; exact hlt _ (hnib _)
  · simp only [c10, c20, if_true, if_false]; exact hlt _ (hnib _)
  · simp only [c10, c20, if_true, if_false]; exact hlt _ (hnib _)
  · simp only [c10, c20, if_false]; exact hlt _ (by decide)

/-- A write to `0xFF00` with no OAM-DMA active replaces bits 4..5 of `JOYP`. -/
theorem write_joyp (E : Ext κ τ) (m : Machine κ τ) (v : Nat) (hdma : m.ppu.dma_active = false) :
    write_byte_bus E m 0xFF00 v
      = { m with bus := { m.bus with JOYP := (m.bus.JOYP &&& 0xCF) ||| (v &&& 0x30) } } := by
  rw [write_mmio E m _ v hdma (by decide) (by decide)]
  simp [write_switch]

theorem joyp_select_bits (j v : Nat) :
    ((j &&& 0xCF) ||| (v &&& 0x30)) &&& 0x30 = v &&& 0x30 ∧
    ((j &&& 0xCF) ||| (v &&& 0x30)) &&& 0xCF = j &&& 0xCF := by
  constructor
  · rw [Nat.and_distrib_right, Nat.and_assoc, Nat.and_assoc,
      show (0xCF : Nat) &&& 0x30 = 0 from rfl, show (0x30 : Nat) &&& 0x30 = 0x30 from rfl,
      Nat.and_zero, Nat.zero_or]
  · rw [Nat.and_distrib_right, Nat.and_assoc, Nat.and_assoc,
      show (0x30 : Nat) &&& 0xCF = 0 from rfl, show (0xCF : Nat) &&& 0xCF = 0xCF from rfl,
      Nat.and_zero, Nat.or_zero]

/-- C12. JOYP read: with no OAM-DMA active, a read of `0xFF00` returns
`0xC0 | (JOYP & 0x30) | n`, where `n` is `buttons_action & 0x0F` when only bit 5 of
`JOYP` is clear, `buttons_dir & 0x0F` when only bit 4 is clear,
`buttons_action & buttons_dir & 0x0F` when both are clear and `0x0F` when both are
set; and a write of `v` to `0xFF00` changes nothing but `JOYP`, whose bits 4..5
become `v & 0x30` and whose other bits stay. -/
theorem joyp_read_write (E : Ext κ τ) (m : Machine κ τ) (v : Nat)
    (hdma : m.ppu.dma_active = false) :
    (m.bus.JOYP &&& 0x20 = 0 → m.bus.JOYP &&& 0x10 ≠ 0 →
      read_byte_bus E m 0xFF00
        = 0xC0 ||| (m.bus.JOYP &&& 0x30) ||| (m.bus.buttons_action &&& 0x0F)) ∧
    (m.bus.JOYP &&& 0x10 = 0 → m.bus.JOYP &&& 0x20 ≠ 0 →
      read_byte_bus E m 0xFF00
        = 0xC0 ||| (m.bus.JOYP &&& 0x30) ||| (m.bus.buttons_dir &&& 0x0F)) ∧
    (m.bus.JOYP &&& 0x20 = 0 → m.bus.JOYP &&& 0x10 = 0 →
      read_byte_bus E m 0xFF00
        = 0xC0 ||| (m.bus.JOYP &&& 0x30)
            ||| (m.bus.buttons_action &&& m.bus.buttons_dir &&& 0x0F)) ∧
    (m.bus.JOYP &&& 0x20 ≠ 0 → m.bus.JOYP &&& 0x10 ≠ 0 →
      read_byte_bus E m 0xFF00 = 0xC0 ||| (m.bus.JOYP &&& 0x30) ||| 0x0F) ∧
    write_byte_bus E m 0xFF00 v
      = { m with bus := { m.bus with JOYP := (write_byte_bus E m 0xFF00 v).bus.JOYP } } ∧
    (write_byte_bus E m 0xFF00 v).bus.JOYP &&& 0x30 = v &&& 0x30 ∧
    (write_byte_bus E m 0xFF00 v).bus.JOYP &&& 0xCF = m.bus.JOYP &&& 0xCF := by
  have hr := read_joyp E m hdma
  have hw := write_joyp E m v hdma
  have hj : (write_byte_bus E m 0xFF00 v).bus.JOYP = (m.bus.JOYP &&& 0xCF) ||| (v &&& 0x30) := by
    rw [hw]
  refine ⟨?_, ?_, ?_, ?_, ?_, ?_, ?_⟩
  · intro h20 h10
    rw [hr, if_neg h10, if_pos h20]
  · intro h10 h20
    rw [hr, if_pos h10, if_neg h20]
  · intro h20 h10
    rw [hr, if_pos h10, if_pos h20]
  · intro h20 h10
    rw [hr, if_neg h10, if_neg h20]
  · rw [hj, hw]
  · rw [hj]; exact (joyp_select_bits _ _).1
  · rw [hj]; exact (joyp_select_bits _ _).2

theorem joyp_read_write_witness :
    powerOn.ppu.dma_active = false ∧
    read_byte_bus idleExt powerOn 0xFF00 = 0xC0 ||| (powerOn.bus.JOYP &&& 0x30) ||| 0x0F ∧
    (write_byte_bus idleExt powerOn 0xFF00 0x20).bus.JOYP &&& 0x30 = 0x20 &&& 0x30 :=
  ⟨rfl, (joyp_read_write idleExt powerOn 0x20 rfl).2.2.2.1 (by decide) (by decide),
    (joyp_read_write idleExt powerOn 0x20 rfl).2.2.2.2.2.1⟩
/-- A JOYP read right after a JOYP write: the selection bits are those just written,
and they pick the nibble. -/
theorem read_after_write_joyp (E : Ext κ τ) (m : Machine κ τ) (v : Nat)
    (hdma : m.ppu.dma_active = false) :
    read_byte_bus E (write_byte_bus E m 0xFF00 v) 0xFF00
      = 0xC0 ||| (v &&& 0x30) |||
          (if v &&& 0x10 = 0 then
            if v &&& 0x20 = 0 then (m.bus.buttons_action &&& m.bus.buttons_dir) &&& 0x0F
            else m.bus.buttons_dir &&& 0x0F
          else if v &&& 0x20 = 0 then m.bus.buttons_action &&& 0x0F else 0x0F) := by
  have hw := write_joyp E m v hdma
  have hd1 : (write_byte_bus E m 0xFF00 v).ppu.dma_active = false := by rw [hw]; exact hdma
  have hj : (write_byte_bus E m 0xFF00 v).bus.JOYP &&& 0x30 = v &&& 0x30 := by
    rw [hw]; exact (joyp_select_bits _ _).1
  have h10 : (write_byte_bus E m 0xFF00 v).bus.JOYP &&& 0x10 = v &&& 0x10 := by
    have h := congrArg (fun x => x &&& 0x10) hj
    simp only [Nat.and_assoc] at h
    exact h
  have h20 : (write_byte_bus E m 0xFF00 v).bus.JOYP &&& 0x20 = v &&& 0x20 := by
    have h := congrArg (fun x => x &&& 0x20) hj
    simp only [Nat.and_assoc] at h
    exact h
  have ha : (write_byte_bus E m 0xFF00 v).bus.buttons_action = m.bus.buttons_action := by rw [hw]
  have hb : (write_byte_bus E m 0xFF00 v).bus.buttons_dir = m.bus.buttons_dir := by rw [hw]
  rw [read_joyp E _ hd1, hj, h10, h20, ha, hb]

/-- C13 (counterexample). With RIGHT held (`buttons_dir = 0x0E`,
`buttons_action = 0x0F`), the read after a write of `0x10` to `0xFF00` returns
`0xDF`, not `0xCE`, and the read after a write of `0x20` returns `0xEE`, not
`0xDF`. -/
theorem joypad_scenario_mismatch :
    powerOnRight.bus.buttons_dir = 0x0E ∧ powerOnRight.bus.buttons_action = 0x0F ∧
    powerOnRight.ppu.dma_active = false ∧
    read_byte_bus idleExt (write_byte_bus idleExt powerOnRight 0xFF00 0x10) 0xFF00 = 0xDF ∧
    read_byte_bus idleExt (write_byte_bus idleExt powerOnRight 0xFF00 0x10) 0xFF00 ≠ 0xCE ∧
    read_byte_bus idleExt
      (write_byte_bus idleExt (write_byte_bus idleExt powerOnRight 0xFF00 0x10) 0xFF00 0x20)
      0xFF00 = 0xEE ∧
    read_byte_bus idleExt
      (write_byte_bus idleExt (write_byte_bus idleExt powerOnRight 0xFF00 0x10) 0xFF00 0x20)
      0xFF00 ≠ 0xDF := by
  have hd1 : (write_byte_bus idleExt powerOnRight 0xFF00 0x10).ppu.dma_active = false :=
    (write_byte_bus_dma_fields idleExt powerOnRight 0xFF00 0x10).1.trans rfl
  have h1 := read_after_write_joyp idleExt powerOnRight 0x10 rfl
  have h2 := read_after_write_joyp idleExt (write_byte_bus idleExt powerOnRight 0xFF00 0x10)
    0x20 hd1
  have hw := write_joyp idleExt powerOnRight 0x10 rfl
  have ha : (write_byte_bus idleExt powerOnRight 0xFF00 0x10).bus.buttons_action = 0x0F := by
    rw [hw]; rfl
  have hb : (write_byte_bus idleExt powerOnRight 0xFF00 0x10).bus.buttons_dir = 0x0E := by
    rw [hw]; rfl
  rw [ha, hb] at h2
  refine ⟨rfl, rfl, rfl, h1.trans (by decide), ?_, h2.trans (by decide), ?_⟩
  · rw [h1]; decide
  · rw [h2]; decide

/-- C13 (amended). Joypad selection scenario: with no OAM-DMA active,
`buttons_dir = 0x0E` and `buttons_action = 0x0F`, the read of `0xFF00` after a
write of `0x10` (bit 5 clear: the action latch) returns `0xDF`, and the read after
a following write of `0x20` (bit 4 clear: the direction latch) returns `0xEE`. -/
theorem joypad_selection_scenario (E : Ext κ τ) (m : Machine κ τ)
    (hdma : m.ppu.dma_active = false)
    (hdir : m.bus.buttons_dir = 0x0E) (hact : m.bus.buttons_action = 0x0F) :
    read_byte_bus E (write_byte_bus E m 0xFF00 0x10) 0xFF00 = 0xDF ∧
    read_byte_bus E (write_byte_bus E (write_byte_bus E m 0xFF00 0x10) 0xFF00 0x20) 0xFF00
      = 0xEE := by
  have hw := write_joyp E m 0x10 hdma
  have hd1 : (write_byte_bus E m 0xFF00 0x10).ppu.dma_active = false := by rw [hw]; exact hdma
  have ha : (write_byte_bus E m 0xFF00 0x10).bus.buttons_action = 0x0F := by rw [hw]; exact hact
  have hb : (write_byte_bus E m 0xFF00 0x10).bus.buttons_dir = 0x0E := by rw [hw]; exact hdir
  constructor
  · rw [read_after_write_joyp E m 0x10 hdma, hact, hdir]
    decide
  · rw [read_after_write_joyp E _ 0x20 hd1, hb, ha]
    decide

theorem joypad_selection_scenario_witness :
    powerOnRight.ppu.dma_active = false ∧
    powerOnRight.bus.buttons_dir = 0x0E ∧ powerOnRight.bus.buttons_action = 0x0F ∧
    read_byte_bus idleExt (write_byte_bus idleExt powerOnRight 0xFF00 0x10) 0xFF00 = 0xDF ∧
    read_byte_bus idleExt
      (write_byte_bus idleExt (write_byte_bus idleExt powerOnRight 0xFF00 0x10) 0xFF00 0x20)
      0xFF00 = 0xEE :=
  ⟨rfl, rfl, rfl, joypad_selection_scenario idleExt powerOnRight rfl rfl rfl⟩

/-! ## C14: register round-trips -/

/-- The registers that are stored and read back whole: the `switch` of
`write_byte_bus` stores the value and the `switch` of `read_byte_bus` returns the
field. -/
theorem switch_round_trip (wr : Machine κ τ → Nat → Nat → Machine κ τ) (E : Ext κ τ)
    (m : Machine κ τ) (a v : Nat)
    (ha : a = 0xFF47 ∨ a = 0xFF48 ∨ a = 0xFF49 ∨ a = 0xFF43 ∨ a = 0xFF42 ∨ a = 0xFF45 ∨
      a = 0xFF4B ∨ a = 0xFF4A ∨ a = 0xFF01) :
    read_switch E ((write_switch wr E m a v).getD m) a = some v := by
  rcases ha with h | h | h | h | h | h | h | h | h <;> subst h <;>
    simp [read_switch, write_switch, audio_case]

/-- A write to `0xFF4F` with no OAM-DMA active keeps bit 0 of the value in `VBK`. -/
theorem write_vbk (E : Ext κ τ) (m : Machine κ τ) (v : Nat) (hdma : m.ppu.dma_active = false) :
    write_byte_bus E m 0xFF4F v = { m with bus := { m.bus with VBK := v &&& 0x01 } } := by
  rw [write_mmio E m _ v hdma (by decide) (by decide)]
  simp [write_switch, audio_case]

/-- A read of `0xFF4F` with no OAM-DMA active returns `VBK | 0xFE`, as a byte. -/
theorem read_vbk (E : Ext κ τ) (m : Machine κ τ) (hdma : m.ppu.dma_active = false) :
    read_byte_bus E m 0xFF4F = (m.bus.VBK ||| 0xFE) % 0x100 := by
  rw [read_mmio E m _ hdma (by decide) (by decide)]
  simp [read_switch, audio_case]

/-- C14. Register round-trips: with no OAM-DMA active, for every value `v`, a write
of `v` followed by a read of the same address returns `v` at `0xFF47` (BGP),
`0xFF48` (OBP0), `0xFF49` (OBP1), `0xFF43` (SCX), `0xFF42` (SCY), `0xFF45` (LYC),
`0xFF4B` (WX), `0xFF4A` (WY) and `0xFF01` (SB), and returns `(v & 1) | 0xFE` at
`0xFF4F` (VBK). -/
theorem register_round_trips (E : Ext κ τ) (m : Machine κ τ) (v : Nat)
    (hdma : m.ppu.dma_active = false) :
    read_byte_bus E (write_byte_bus E m 0xFF47 v) 0xFF47 = v ∧
    read_byte_bus E (write_byte_bus E m 0xFF48 v) 0xFF48 = v ∧
    read_byte_bus E (write_byte_bus E m 0xFF49 v) 0xFF49 = v ∧
    read_byte_bus E (write_byte_bus E m 0xFF43 v) 0xFF43 = v ∧
    read_byte_bus E (write_byte_bus E m 0xFF42 v) 0xFF42 = v ∧
    read_byte_bus E (write_byte_bus E m 0xFF45 v) 0xFF45 = v ∧
    read_byte_bus E (write_byte_bus E m 0xFF4B v) 0xFF4B = v ∧
    read_byte_bus E (write_byte_bus E m 0xFF4A v) 0xFF4A = v ∧
    read_byte_bus E (write_byte_bus E m 0xFF01 v) 0xFF01 = v ∧
    read_byte_bus E (write_byte_bus E m 0xFF4F v) 0xFF4F = (v &&& 1) ||| 0xFE := by
  have hd : ∀ a, (write_byte_bus E m a v).ppu.dma_active = false := fun a =>
    (write_byte_bus_dma_fields E m a v).1.trans hdma
  have hrt : ∀ a, 0xFF00 ≤ a → a ≤ 0xFF7F →
      (a = 0xFF47 ∨ a = 0xFF48 ∨ a = 0xFF49 ∨ a = 0xFF43 ∨ a = 0xFF42 ∨ a = 0xFF45 ∨
        a = 0xFF4B ∨ a = 0xFF4A ∨ a = 0xFF01) →
      read_byte_bus E (write_byte_bus E m a v) a = v := by
    intro a hlo hhi ha
    rw [read_mmio E _ a (hd a) hlo hhi, write_mmio E m a v hdma hlo hhi,
      switch_round_trip _ E m a v ha]
    rfl
  refine ⟨hrt _ (by decide) (by decide) (by decide), hrt _ (by decide) (by decide) (by decide),
    hrt _ (by decide) (by decide) (by decide), hrt _ (by decide) (by decide) (by decide),
    hrt _ (by decide) (by decide) (by decide), hrt _ (by decide) (by decide) (by decide),
    hrt _ (by decide) (by decide) (by decide), hrt _ (by decide) (by decide) (by decide),
    hrt _ (by decide) (by decide) (by decide), ?_⟩
  rw [read_vbk E _ (hd _), write_vbk E m v hdma]
  show ((v &&& 0x01) ||| 0xFE) % 0x100 = (v &&& 1) ||| 0xFE
  exact Nat.mod_eq_of_lt (Nat.or_lt_two_pow (n := 8)
    (Nat.lt_of_le_of_lt Nat.and_le_right (by decide)) (by decide))

theorem register_round_trips_witness :
    powerOn.ppu.dma_active = false ∧
    read_byte_bus idleExt (write_byte_bus idleExt powerOn 0xFF47 0xE4) 0xFF47 = 0xE4 ∧
    read_byte_bus idleExt (write_byte_bus idleExt powerOn 0xFF4F 0x03) 0xFF4F
      = (0x03 &&& 1) ||| 0xFE :=
  ⟨rfl, (register_round_trips idleExt powerOn 0xE4 rfl).1,
    (register_round_trips idleExt powerOn 0x03 rfl).2.2.2.2.2.2.2.2.2⟩

/-! ## C15: reserved bits -/

/-- A byte that has been OR-ed with a mask has every bit of the mask set. -/
theorem or_mask_and (x c : Nat) (hc : c < 0x100) : ((x ||| c) % 0x100) &&& c = c := by
  apply Nat.eq_of_testBit_eq
  intro i
  rw [show (0x100 : Nat) = 2 ^ 8 from rfl]
  simp only [Nat.testBit_and, Nat.testBit_mod_two_pow, Nat.testBit_or]
  by_cases hi : i < 8
  · cases hci : c.testBit i <;> simp [hi]
  · have h8 : (2 : Nat) ^ 8 ≤ 2 ^ i := Nat.pow_le_pow_right (by decide) (by omega)
    have hci : c.testBit i = false := Nat.testBit_lt_two_pow (Nat.lt_of_lt_of_le hc h8)
    simp [hi, hci]

/-- During OAM-DMA every address of the register page reads as `0xFF`. -/
theorem read_mmio_dma (E : Ext κ τ) (m : Machine κ τ) (addr : Nat)
    (hdma : m.ppu.dma_active = true) (hhi : addr ≤ 0xFF7F) :
    read_byte_bus E m addr = 0xFF := by
  have h : ¬ (addr ≥ 0xFF80 ∧ addr ≤ 0xFFFE) := by omega
  simp only [read_byte_bus, hdma, if_true, h, if_false, ite_self]

/-- C15. Reserved bits read as 1: in every state of the machine, whether or not
OAM-DMA is active, `read(0xFF0F) & 0xE0 = 0xE0`, `read(0xFF00) & 0xC0 = 0xC0`,
`read(0xFF4D) & 0x7E = 0x7E`, `read(0xFF4F) & 0xFE = 0xFE` and
`read(0xFF70) & 0xF8 = 0xF8`. -/
theorem reserved_bits_read_one (E : Ext κ τ) (m : Machine κ τ) :
    read_byte_bus E m 0xFF0F &&& 0xE0 = 0xE0 ∧
    read_byte_bus E m 0xFF00 &&& 0xC0 = 0xC0 ∧
    read_byte_bus E m 0xFF4D &&& 0x7E = 0x7E ∧
    read_byte_bus E m 0xFF4F &&& 0xFE = 0xFE ∧
    read_byte_bus E m 0xFF70 &&& 0xF8 = 0xF8 := by
  cases hdma : m.ppu.dma_active with
  | true =>
    rw [read_mmio_dma E m _ hdma (by decide), read_mmio_dma E m _ hdma (by decide),
      read_mmio_dma E m _ hdma (by decide), read_mmio_dma E m _ hdma (by decide),
      read_mmio_dma E m _ hdma (by decide)]
    decide
  | false =>
    have h0F : read_byte_bus E m 0xFF0F = (0xE0 ||| (m.bus.IF &&& 0x1F)) % 0x100 := by
      rw [read_mmio E m _ hdma (by decide) (by decide)]
      simp [read_switch, audio_case]
    have h00 : read_byte_bus E m 0xFF00
        = (0xC0 ||| (m.bus.JOYP &&& 0x30) |||
          (if m.bus.JOYP &&& 0x10 = 0 then
            if m.bus.JOYP &&& 0x20 = 0 then
              (m.bus.buttons_action &&& m.bus.buttons_dir) &&& 0x0F
            else m.bus.buttons_dir &&& 0x0F
          else if m.bus.JOYP &&& 0x20 = 0 then m.bus.buttons_action &&& 0x0F else 0x0F)) := 
      read_joyp E m hdma
    have h4D : read_byte_bus E m 0xFF4D = (m.bus.KEY1 ||| 0x7E) % 0x100 := by
      rw [read_mmio E m _ hdma (by decide) (by decide)]
      simp [read_switch, audio_case]
    have h4F := read_vbk E m hdma
    have h70 : read_byte_bus E m 0xFF70 = (m.bus.SVBK ||| 0xF8) % 0x100 := by
      rw [read_mmio E m _ hdma (by decide) (by decide)]
      simp [read_switch, audio_case]
    refine ⟨?_, ?_, ?_, ?_, ?_⟩
    · rw [h0F, Nat.or_comm]; exact or_mask_and _ _ (by decide)
    · rw [h00, Nat.or_assoc, Nat.and_distrib_right,
        show (0xC0 : Nat) &&& 0xC0 = 0xC0 from rfl]
      apply Nat.eq_of_testBit_eq
      intro i
      simp only [Nat.testBit_or, Nat.testBit_and]
      cases (0xC0 : Nat).testBit i <;> simp
    · rw [h4D]; exact or_mask_and _ _ (by decide)
    · rw [h4F]; exact or_mask_and _ _ (by decide)
    · rw [h70]; exact or_mask_and _ _ (by decide)

/-! ## C16: the unusable region -/

/-- C16. Unusable region: in every state of the machine, whether or not OAM-DMA is
active, for every address in `0xFEA0..0xFEFF` a read returns `0xFF` and a write of
any value leaves the whole machine unchanged. -/
theorem unusable_region (E : Ext κ τ) (m : Machine κ τ) (addr v : Nat)
    (hlo : 0xFEA0 ≤ addr) (hhi : addr ≤ 0xFEFF) :
    read_byte_bus E m addr = 0xFF ∧ write_byte_bus E m addr v = m := by
  have h0 : ¬ (addr ≥ 0xFF80 ∧ addr ≤ 0xFFFE) := by omega
  cases hdma : m.ppu.dma_active with
  | true =>
    constructor
    · simp only [read_byte_bus, hdma, if_true, h0, if_false, ite_self]
    · simp only [write_byte_bus, write_byte_bus_body, hdma, if_true, h0, if_false]
  | false =>
    have hb := bootrom_overlay_none m.bus addr (by omega)
    have h1 : ¬ addr < 0x8000 := by omega
    have h2 : ¬ addr ≤ 0x9FFF := by omega
    have h3 : ¬ (addr ≥ 0xA000 ∧ addr ≤ 0xBFFF) := by omega
    have h4 : ¬ (addr ≥ 0xC000 ∧ addr ≤ 0xCFFF) := by omega
    have h5 : ¬ (addr ≥ 0xD000 ∧ addr ≤ 0xDFFF) := by omega
    have h6 : ¬ (addr ≥ 0xE000 ∧ addr ≤ 0xEFFF) := by omega
    have h7 : ¬ (addr ≥ 0xF000 ∧ addr ≤ 0xFDFF) := by omega
    have h8 : ¬ (addr ≥ 0xFE00 ∧ addr ≤ 0xFE9F) := by omega
    have h9 : addr ≥ 0xFEA0 ∧ addr ≤ 0xFEFF := ⟨hlo, hhi⟩
    constructor
    · simp only [read_byte_bus, hdma, hb, h1, h2, h3, h4, h5, h6, h7, h8, h9, if_false, if_true,
        and_self, Bool.false_eq_true]
    · simp only [write_byte_bus, write_byte_bus_body, hdma, h1, h2, h3, h4, h5, h6, h7, h8, h9,
        if_false, if_true, and_self, Bool.false_eq_true]

theorem unusable_region_witness :
    0xFEA0 ≤ 0xFEC0 ∧ 0xFEC0 ≤ 0xFEFF ∧
    read_byte_bus idleExt powerOn 0xFEC0 = 0xFF ∧
    write_byte_bus idleExt powerOn 0xFEC0 0x42 = powerOn :=
  ⟨by decide, by decide, unusable_region idleExt powerOn 0xFEC0 0x42 (by decide) (by decide)⟩

/-! ## C17: the audio register window -/

/-- The addresses of `0xFF10..0xFF3F` that the two `switch` statements list are all
but `0xFF15`, `0xFF1F` and `0xFF27..0xFF2F`. -/
theorem audio_case_iff (a : Nat) :
    audio_case a = true ↔
      (0xFF10 ≤ a ∧ a ≤ 0xFF3F) ∧ a ≠ 0xFF15 ∧ a ≠ 0xFF1F ∧ ¬ (0xFF27 ≤ a ∧ a ≤ 0xFF2F) := by
  simp only [audio_case, Bool.or_eq_true, Bool.and_eq_true, decide_eq_true_eq]
  omega

/-- The `switch` of `read_byte_bus` at a listed audio address. -/
theorem read_switch_audio (E : Ext κ τ) (m : Machine κ τ) (a : Nat) (h : audio_case a = true) :
    read_switch E m a = some (m.bus.audio_regs (a - 0xFF10)) := by
  obtain ⟨⟨hlo, hhi⟩, _⟩ := (audio_case_iff a).1 h
  have h0 : a ≠ 0xFF00 := by omega
  have h1 : a ≠ 0xFF01 := by omega
  have h2 : a ≠ 0xFF02 := by omega
  have h3 : ¬ (a = 0xFF04 ∨ a = 0xFF05 ∨ a = 0xFF06 ∨ a = 0xFF07) := by omega
  have h4 : a ≠ 0xFF0F := by omega
  simp only [read_switch, h0, h1, h2, h3, h4, h, if_false, if_true]

/-- The `switch` of `write_byte_bus` at a listed audio address. -/
theorem write_switch_audio (wr : Machine κ τ → Nat → Nat → Machine κ τ) (E : Ext κ τ)
    (m : Machine κ τ) (a v : Nat) (h : audio_case a = true) :
    write_switch wr E m a v
      = some { m with bus := { m.bus with audio_regs := m.bus.audio_regs.set (a - 0xFF10) v } } := by
  obtain ⟨⟨hlo, hhi⟩, _⟩ := (audio_case_iff a).1 h
  have h0 : a ≠ 0xFF00 := by omega
  have h1 : a ≠ 0xFF01 := by omega
  have h2 : a ≠ 0xFF02 := by omega
  have h3 : ¬ (a = 0xFF04 ∨ a = 0xFF05 ∨ a = 0xFF06 ∨ a = 0xFF07) := by omega
  have h4 : a ≠ 0xFF0F := by omega
  simp only [write_switch, h0, h1, h2, h3, h4, h, if_false, if_true]

/-- Neither `switch` has a case for `0xFF15`, `0xFF1F` or `0xFF27..0xFF2F`. -/
theorem switch_audio_unlisted (wr : Machine κ τ → Nat → Nat → Machine κ τ) (E : Ext κ τ)
    (m : Machine κ τ) (a v : Nat)
    (h : a = 0xFF15 ∨ a = 0xFF1F ∨ (0xFF27 ≤ a ∧ a ≤ 0xFF2F)) :
    read_switch E m a = none ∧ write_switch wr E m a v = none := by
  rcases h with h | h | ⟨hlo, hhi⟩
  · subst h; constructor <;> simp [read_switch, write_switch, audio_case]
  · subst h; constructor <;> simp [read_switch, write_switch, audio_case]
  · interval_cases a <;> constructor <;> simp [read_switch, write_switch, audio_case]

/-- C17 (counterexample). The address `0xFF15` lies in `0xFF10..0xFF3F`, and with no
OAM-DMA active a write of `0x00` to it is dropped and the read that follows returns
`0xFF`, not `0x00`. -/
theorem audio_window_gap :
    powerOn.ppu.dma_active = false ∧ 0xFF10 ≤ 0xFF15 ∧ 0xFF15 ≤ 0xFF3F ∧
    write_byte_bus idleExt powerOn 0xFF15 0x00 = powerOn ∧
    read_byte_bus idleExt (write_byte_bus idleExt powerOn 0xFF15 0x00) 0xFF15 = 0xFF ∧
    read_byte_bus idleExt (write_byte_bus idleExt powerOn 0xFF15 0x00) 0xFF15 ≠ 0x00 := by
  have hs := switch_audio_unlisted (write_byte_bus_leaf idleExt) idleExt powerOn 0xFF15 0x00
    (Or.inl rfl)
  have hw : write_byte_bus idleExt powerOn 0xFF15 0x00 = powerOn := by
    rw [write_mmio idleExt powerOn 0xFF15 0x00 rfl (by decide) (by decide), hs.2]
    rfl
  have hr : read_byte_bus idleExt powerOn 0xFF15 = 0xFF := by
    rw [read_mmio idleExt powerOn 0xFF15 rfl (by decide) (by decide), hs.1]
    rfl
  refine ⟨rfl, by decide, by decide, hw, ?_, ?_⟩
  · rw [hw, hr]
  · rw [hw, hr]; decide

/-- C17 (amended). The audio register window is a passive byte array at the
addresses the bus lists: with no OAM-DMA active, for every address `a` in
`0xFF10..0xFF3F` other than `0xFF15`, `0xFF1F` and `0xFF27..0xFF2F` and every value
`v`, a write of `v` to `a` followed by a read of `a` returns `v`, the write storing
`v` at `audio_regs[a - 0xFF10]` and changing nothing else; at `0xFF15`, `0xFF1F`
and `0xFF27..0xFF2F` a write changes nothing and a read returns `0xFF`. -/
theorem audio_window_round_trip (E : Ext κ τ) (m : Machine κ τ) (a v : Nat)
    (hdma : m.ppu.dma_active = false) (hlo : 0xFF10 ≤ a) (hhi : a ≤ 0xFF3F) :
    (a ≠ 0xFF15 → a ≠ 0xFF1F → ¬ (0xFF27 ≤ a ∧ a ≤ 0xFF2F) →
      read_byte_bus E (write_byte_bus E m a v) a = v ∧
      write_byte_bus E m a v
        = { m with bus := { m.bus with audio_regs := m.bus.audio_regs.set (a - 0xFF10) v } }) ∧
    (a = 0xFF15 ∨ a = 0xFF1F ∨ (0xFF27 ≤ a ∧ a ≤ 0xFF2F) →
      write_byte_bus E m a v = m ∧ read_byte_bus E m a = 0xFF) := by
  constructor
  · intro h15 h1F h27
    have hc : audio_case a = true := (audio_case_iff a).2 ⟨⟨hlo, hhi⟩, h15, h1F, h27⟩
    have hw : write_byte_bus E m a v
        = { m with bus := { m.bus with audio_regs := m.bus.audio_regs.set (a - 0xFF10) v } } := by
      rw [write_mmio E m a v hdma (by omega) (by omega), write_switch_audio _ E m a v hc]
      rfl
    have hd1 : (write_byte_bus E m a v).ppu.dma_active = false :=
      (write_byte_bus_dma_fields E m a v).1.trans hdma
    refine ⟨?_, hw⟩
    rw [read_mmio E (write_byte_bus E m a v) a hd1 (by omega) (by omega),
      read_switch_audio E (write_byte_bus E m a v) a hc, Option.getD_some, hw]
    simp only [Mem.set_same]
  · intro h
    obtain ⟨hr, hw⟩ := switch_audio_unlisted (write_byte_bus_leaf E) E m a v h
    constructor
    · rw [write_mmio E m a v hdma (by omega) (by omega), hw]
      rfl
    · rw [read_mmio E m a hdma (by omega) (by omega), hr]
      rfl

theorem audio_window_round_trip_witness :
    powerOn.ppu.dma_active = false ∧ 0xFF10 ≤ 0xFF30 ∧ 0xFF30 ≤ 0xFF3F ∧
    read_byte_bus idleExt (write_byte_bus idleExt powerOn 0xFF30 0x5A) 0xFF30 = 0x5A :=
  ⟨rfl, by decide, by decide,
    ((audio_window_round_trip idleExt powerOn 0xFF30 0x5A rfl (by decide) (by decide)).1
      (by decide) (by decide) (by decide)).1⟩

/-! ## C18: the switchable work RAM window on a DMG -/

/-- A write to `0xFF70` with no OAM-DMA active keeps the low three bits of the
value in `SVBK`, whatever `is_cgb` is. -/
theorem write_svbk (E : Ext κ τ) (m : Machine κ τ) (s : Nat) (hdma : m.ppu.dma_active = false) :
    write_byte_bus E m 0xFF70 s = { m with bus := { m.bus with SVBK := s &&& 0x07 } } := by
  rw [write_mmio E m _ s hdma (by decide) (by decide)]
  simp [write_switch, audio_case]

/-- A read of the switchable window right after a write of `s` to `0xFF70`. -/
theorem read_after_write_svbk (E : Ext κ τ) (m : Machine κ τ) (s addr : Nat)
    (hdma : m.ppu.dma_active = false) (hlo : 0xD000 ≤ addr) (hhi : addr ≤ 0xDFFF) :
    read_byte_bus E (write_byte_bus E m 0xFF70 s) addr
      = m.bus.wram (0x1000 + (max 1 (s &&& 7) - 1) * 0x1000 + (addr - 0xD000)) := by
  have hw := write_svbk E m s hdma
  have hd1 : (write_byte_bus E m 0xFF70 s).ppu.dma_active = false := by rw [hw]; exact hdma
  have hs : (write_byte_bus E m 0xFF70 s).bus.SVBK = s &&& 0x07 := by rw [hw]
  have hwr : (write_byte_bus E m 0xFF70 s).bus.wram = m.bus.wram := by rw [hw]
  rw [read_wram_banked E (write_byte_bus E m 0xFF70 s) addr hd1 hlo hhi, hs, hwr,
    wram_bank_index_eq _ _ (by omega), Nat.and_assoc, Nat.and_self]

/-- C18 (counterexample). On the power-on machine, a DMG, with `0x42` at
`wram[0x2000]` and no OAM-DMA active, after a write of `0x02` to `0xFF70` the read
of `0xD000` returns `wram[0x2000] = 0x42`, not `wram[0x1000] = 0`. -/
theorem dmg_wram_bank_switches :
    powerOnWramBank2.bus.is_cgb = false ∧ powerOnWramBank2.ppu.dma_active = false ∧
    0xD000 ≤ 0xD000 ∧ 0xD000 ≤ 0xDFFF ∧
    read_byte_bus idleExt (write_byte_bus idleExt powerOnWramBank2 0xFF70 0x02) 0xD000 = 0x42 ∧
    (write_byte_bus idleExt powerOnWramBank2 0xFF70 0x02).bus.wram (0x1000 + (0xD000 - 0xD000))
      = 0 ∧
    read_byte_bus idleExt (write_byte_bus idleExt powerOnWramBank2 0xFF70 0x02) 0xD000
      ≠ (write_byte_bus idleExt powerOnWramBank2 0xFF70 0x02).bus.wram
          (0x1000 + (0xD000 - 0xD000)) := by
  have hr := read_after_write_svbk idleExt powerOnWramBank2 0x02 0xD000 rfl (by decide)
    (by decide)
  have hw := write_svbk idleExt powerOnWramBank2 0x02 rfl
  have hwr : (write_byte_bus idleExt powerOnWramBank2 0xFF70 0x02).bus.wram
      = powerOnWramBank2.bus.wram := by rw [hw]
  have h1 : read_byte_bus idleExt (write_byte_bus idleExt powerOnWramBank2 0xFF70 0x02) 0xD000
      = 0x42 := hr.trans (by decide)
  have h2 : (write_byte_bus idleExt powerOnWramBank2 0xFF70 0x02).bus.wram
      (0x1000 + (0xD000 - 0xD000)) = 0 := by
    rw [hwr]; decide
  refine ⟨rfl, rfl, by decide, by decide, h1, h2, ?_⟩
  rw [h1, h2]; decide

/-- C18 (amended). On a DMG (`is_cgb = false`) the switchable work RAM window follows
`SVBK` as on a CGB: with no OAM-DMA active, for every value `s` written to `0xFF70`
and every address `addr` in `0xD000..0xDFFF`, the read of `addr` returns
`wram[0x1000 + (max(1, s & 7) - 1) * 0x1000 + (addr - 0xD000)]`; that is bank 1,
`wram[0x1000 + (addr - 0xD000)]`, when `s & 7` is 0 or 1. -/
theorem dmg_wram_window (E : Ext κ τ) (m : Machine κ τ) (s addr : Nat)
    (hdmg : m.bus.is_cgb = false) (hdma : m.ppu.dma_active = false)
    (hlo : 0xD000 ≤ addr) (hhi : addr ≤ 0xDFFF) :
    (write_byte_bus E m 0xFF70 s).bus.is_cgb = false ∧
    read_byte_bus E (write_byte_bus E m 0xFF70 s) addr
      = m.bus.wram (0x1000 + (max 1 (s &&& 7) - 1) * 0x1000 + (addr - 0xD000)) ∧
    (s &&& 7 ≤ 1 →
      read_byte_bus E (write_byte_bus E m 0xFF70 s) addr
        = m.bus.wram (0x1000 + (addr - 0xD000))) := by
  have hr := read_after_write_svbk E m s addr hdma hlo hhi
  refine ⟨?_, hr, ?_⟩
  · rw [write_svbk E m s hdma]; exact hdmg
  · intro hs
    have hz : (max 1 (s &&& 7) - 1) * 0x1000 = 0 := by
      have : max 1 (s &&& 7) = 1 := max_eq_left hs
      rw [this]
    rw [hr, hz, Nat.add_zero]

theorem dmg_wram_window_witness :
    powerOnWramBank2.bus.is_cgb = false ∧ powerOnWramBank2.ppu.dma_active = false ∧
    0xD000 ≤ 0xD000 ∧ 0xD000 ≤ 0xDFFF ∧
    read_byte_bus idleExt (write_byte_bus idleExt powerOnWramBank2 0xFF70 0x02) 0xD000
      = powerOnWramBank2.bus.wram (0x1000 + (max 1 (0x02 &&& 7) - 1) * 0x1000
          + (0xD000 - 0xD000)) :=
  ⟨rfl, rfl, by decide, by decide,
    (dmg_wram_window idleExt powerOnWramBank2 0x02 0xD000 rfl rfl (by decide) (by decide)).2.1⟩

/-! ## C19: the serial transfer -/

/-- A write to `0xFF02` with no OAM-DMA active stores `SC` and, when bits 7 and 0 of
the value are both set, starts the countdown at 512. -/
theorem write_sc (E : Ext κ τ) (m : Machine κ τ) (v : Nat) (hdma : m.ppu.dma_active = false) :
    write_byte_bus E m 0xFF02 v
      = { m with bus := { m.bus with
            SC := v,
            serial_cycles := if v &&& 0x81 = 0x81 then 512 else m.bus.serial_cycles } } := by
  rw [write_mmio E m _ v hdma (by decide) (by decide)]
  simp [write_switch]

theorem serial_ticks_snoc (m : Machine κ τ) (cs : List Int) (c : Int) :
    serial_ticks m (cs ++ [c]) = bus_update_serial (serial_ticks m cs) c := by
  unfold serial_ticks
  rw [List.foldl_append]
  rfl

/-- While the cycle counts, all positive, total less than the countdown, the ticks
only lower the countdown. -/
theorem serial_ticks_pending (m : Machine κ τ) (cs : List Int)
    (hpos : ∀ x ∈ cs, 0 < x) (hsum : cs.sum < m.bus.serial_cycles) :
    serial_ticks m cs
      = { m with bus := { m.bus with serial_cycles := m.bus.serial_cycles - cs.sum } } := by
  induction cs using List.reverseRecOn with
  | nil =>
    show m = _
    simp
  | append_singleton cs c ih =>
    have hc : 0 < c := hpos c (by simp)
    have hs : (cs ++ [c]).sum = cs.sum + c := by simp
    rw [hs] at hsum ⊢
    have ih1 := ih (fun x hx => hpos x (by simp [hx])) (by omega)
    rw [serial_ticks_snoc, ih1]
    unfold bus_update_serial
    have h1 : m.bus.serial_cycles - cs.sum > 0 := by omega
    have h2 : ¬ (m.bus.serial_cycles - cs.sum - c ≤ 0) := by omega
    simp only [h1, h2, if_true, if_false]
    have h3 : m.bus.serial_cycles - cs.sum - c = m.bus.serial_cycles - (cs.sum + c) := by omega
    rw [h3]

/-- The tick that brings the total up to the countdown, or past it, ends the
transfer. -/
theorem serial_ticks_done (m : Machine κ τ) (cs : List Int) (c : Int)
    (hpos : ∀ x ∈ cs, 0 < x) (hsum : cs.sum < m.bus.serial_cycles)
    (hreach : m.bus.serial_cycles ≤ cs.sum + c) :
    serial_ticks m (cs ++ [c])
      = { m with bus := { m.bus with
            serial_cycles := 0, SC := m.bus.SC &&& 0x7F, IF := m.bus.IF ||| 0x08, SB := 0xFF } } := by
  rw [serial_ticks_snoc, serial_ticks_pending m cs hpos hsum]
  unfold bus_update_serial
  have h1 : m.bus.serial_cycles - cs.sum > 0 := by omega
  have h2 : m.bus.serial_cycles - cs.sum - c ≤ 0 := by omega
  simp only [h1, h2, if_true]

theorem and7F_bit7 (x : Nat) : (x &&& 0x7F) &&& 0x80 = 0 := by
  rw [Nat.and_assoc, show (0x7F : Nat) &&& 0x80 = 0 from rfl, Nat.and_zero]

theorem or08_bit3 (x : Nat) : (x ||| 0x08) &&& 0x08 = 0x08 := by
  rw [Nat.and_distrib_right, show (0x08 : Nat) &&& 0x08 = 0x08 from rfl]
  apply Nat.eq_of_testBit_eq
  intro i
  simp only [Nat.testBit_or, Nat.testBit_and]
  cases (0x08 : Nat).testBit i <;> simp

/-- During OAM-DMA a write outside `0xFF80..0xFFFE` is dropped. -/
theorem write_dropped_during_dma (E : Ext κ τ) (m : Machine κ τ) (a v : Nat)
    (hdma : m.ppu.dma_active = true) (h : ¬ (a ≥ 0xFF80 ∧ a ≤ 0xFFFE)) :
    write_byte_bus E m a v = m := by
  simp only [write_byte_bus, write_byte_bus_body, hdma, if_true, h, if_false]

/-- C19 (counterexample). In the middle of an OAM-DMA transfer the write of `0x81`
(bits 7 and 0 set) to `0xFF02` is dropped with every other write outside HRAM, so
`serial_cycles` stays 0 and is not set to 512. -/
theorem serial_start_dropped_during_dma :
    powerOnDma.ppu.dma_active = true ∧ 0x81 &&& 0x81 = 0x81 ∧
    write_byte_bus idleExt powerOnDma 0xFF02 0x81 = powerOnDma ∧
    (write_byte_bus idleExt powerOnDma 0xFF02 0x81).bus.serial_cycles = 0 ∧
    (write_byte_bus idleExt powerOnDma 0xFF02 0x81).bus.serial_cycles ≠ 512 := by
  have hw := write_dropped_during_dma idleExt powerOnDma 0xFF02 0x81 rfl (by decide)
  refine ⟨rfl, by decide, hw, ?_, ?_⟩
  · rw [hw]; rfl
  · rw [hw]; decide

/-- C19 (amended). Serial transfer: with no OAM-DMA active, a write to `0xFF02` of a
value `v` with `(v & 0x81) = 0x81` sets `serial_cycles = 512` (and `SC = v`); after
it, calls of `bus_update_serial` with positive cycle counts `cs` change nothing but
the countdown (so `SB`, `SC` and `IF` stay) while their total is below 512, and the
call `c` at which the total reaches or passes 512 clears bit 7 of `SC`, sets bit 3
of `IF`, sets `SB = 0xFF` and leaves `serial_cycles = 0`; on a machine whose
`serial_cycles` is 0, `bus_update_serial` changes nothing. -/
theorem serial_transfer (E : Ext κ τ) (m : Machine κ τ) (v : Nat) (cs : List Int) (c : Int)
    (hdma : m.ppu.dma_active = false) (hv : v &&& 0x81 = 0x81)
    (hpos : ∀ x ∈ cs, 0 < x) (hsum : cs.sum < 512) :
    (write_byte_bus E m 0xFF02 v).bus.serial_cycles = 512 ∧
    write_byte_bus E m 0xFF02 v
      = { m with bus := { m.bus with SC := v, serial_cycles := 512 } } ∧
    serial_ticks (write_byte_bus E m 0xFF02 v) cs
      = { m with bus := { m.bus with SC := v, serial_cycles := 512 - cs.sum } } ∧
    (512 ≤ cs.sum + c →
      serial_ticks (write_byte_bus E m 0xFF02 v) (cs ++ [c])
        = { m with bus := { m.bus with
              serial_cycles := 0, SC := v &&& 0x7F, IF := m.bus.IF ||| 0x08, SB := 0xFF } } ∧
      (serial_ticks (write_byte_bus E m 0xFF02 v) (cs ++ [c])).bus.SC &&& 0x80 = 0 ∧
      (serial_ticks (write_byte_bus E m 0xFF02 v) (cs ++ [c])).bus.IF &&& 0x08 = 0x08 ∧
      (serial_ticks (write_byte_bus E m 0xFF02 v) (cs ++ [c])).bus.SB = 0xFF ∧
      (serial_ticks (write_byte_bus E m 0xFF02 v) (cs ++ [c])).bus.serial_cycles = 0) ∧
    (∀ (m0 : Machine κ τ) (c0 : Int), m0.bus.serial_cycles = 0 →
      bus_update_serial m0 c0 = m0) := by
  have hw : write_byte_bus E m 0xFF02 v
      = { m with bus := { m.bus with SC := v, serial_cycles := 512 } } := by
    rw [write_sc E m v hdma, if_pos hv]
  have hsc : (write_byte_bus E m 0xFF02 v).bus.serial_cycles = 512 := by rw [hw]
  have hpend := serial_ticks_pending (write_byte_bus E m 0xFF02 v) cs hpos (by rw [hsc]; exact hsum)
  refine ⟨hsc, hw, ?_, ?_, ?_⟩
  · rw [hpend, hsc, hw]
  · intro hreach
    have hdone := serial_ticks_done (write_byte_bus E m 0xFF02 v) cs c hpos
      (by rw [hsc]; exact hsum) (by rw [hsc]; exact hreach)
    rw [hdone, hw]
    exact ⟨rfl, and7F_bit7 v, or08_bit3 m.bus.IF, rfl, rfl⟩
  · intro m0 c0 h0
    unfold bus_update_serial
    have : ¬ m0.bus.serial_cycles > 0 := by omega
    rw [if_neg this]

theorem serial_transfer_witness :
    powerOn.ppu.dma_active = false ∧ (0x81 &&& 0x81 = 0x81) ∧
    (∀ x ∈ [(200 : Int), 200], 0 < x) ∧ ([(200 : Int), 200]).sum < 512 ∧
    (write_byte_bus idleExt powerOn 0xFF02 0x81).bus.serial_cycles = 512 ∧
    (serial_ticks (write_byte_bus idleExt powerOn 0xFF02 0x81) ([200, 200] ++ [200])).bus.SB
      = 0xFF :=
  ⟨rfl, by decide, by decide, by decide,
    (serial_transfer idleExt powerOn 0x81 [200, 200] 200 rfl (by decide) (by decide)
      (by decide)).1,
    ((serial_transfer idleExt powerOn 0x81 [200, 200] 200 rfl (by decide) (by decide)
      (by decide)).2.2.2.1 (by decide)).2.2.2.1⟩

/-! ## C20: CGB colour conversion -/

/-- The channel expansion on a 5-bit value: no truncation happens, the result is
`8 * x + x / 4`. -/
theorem expand5_eq : ∀ x, x < 32 →
    expand5 x = (x <<< 3) ||| (x >>> 2) ∧ expand5 x = 8 * x + x / 4 ∧ expand5 x ≤ 255 := by
  decide

theorem expand5_strict_mono : ∀ x, x < 32 → ∀ y, y < 32 → x < y → expand5 x < expand5 y := by
  decide

/-- The little-endian word `cgb_2_rgb` assembles from two palette bytes. -/
theorem rgb555_word (lo hi : Nat) (hlo : lo < 0x100) (hhi : hi < 0x100) :
    (lo ||| (hi <<< 8)) % 0x10000 = lo + 0x100 * hi := by
  rw [Nat.or_comm, or_low8 hi lo hlo]
  omega

theorem and1F_lt (x : Nat) : x &&& 0x1F < 32 :=
  Nat.lt_of_le_of_lt Nat.and_le_right (by decide)

/-- Three bytes packed as `0xRRGGBB` stay below `2^24`. -/
theorem pack_rgb_lt (r g b : Nat) (hr : r ≤ 255) (hg : g ≤ 255) (hb : b ≤ 255) :
    (r <<< 16) ||| (g <<< 8) ||| b < 2 ^ 24 := by
  apply Nat.or_lt_two_pow
  · apply Nat.or_lt_two_pow
    · rw [Nat.shiftLeft_eq]; omega
    · rw [Nat.shiftLeft_eq]; omega
  · omega

/-- Bit 15 of the word does not reach any channel. -/
theorem channel_low15 (w k : Nat) (hk : k ≤ 10) :
    ((w % 0x8000) >>> k) &&& 0x1F = (w >>> k) &&& 0x1F := by
  apply Nat.eq_of_testBit_eq
  intro i
  rw [show (0x8000 : Nat) = 2 ^ 15 from rfl, show (0x1F : Nat) = 2 ^ 5 - 1 from rfl]
  simp only [Nat.testBit_and, Nat.testBit_shiftRight, Nat.testBit_mod_two_pow,
    Nat.testBit_two_pow_sub_one]
  by_cases hi : i < 5
  · have : k + i < 15 := by omega
    simp [hi, this]
  · simp [hi]

/-- An RGB value below `2^24` under the alpha byte `0xFF`. -/
theorem opaque_argb (x : Nat) (hx : x < 2 ^ 24) :
    (0xFF000000 ||| x) >>> 24 = 0xFF ∧ (0xFF000000 ||| x) &&& 0xFFFFFF = x ∧
    0xFF000000 ||| x < 2 ^ 32 := by
  have h := Nat.mul_add_lt_is_or hx 0xFF
  rw [show (2 : Nat) ^ 24 * 0xFF = 0xFF000000 from rfl] at h
  rw [← h, Nat.shiftRight_eq_div_pow]
  have hm := Nat.and_pow_two_sub_one_eq_mod (0xFF000000 + x) 24
  rw [show (2 : Nat) ^ 24 - 1 = 0xFFFFFF from rfl] at hm
  rw [hm]
  have h24 : (2 : Nat) ^ 24 = 16777216 := rfl
  have h32 : (2 : Nat) ^ 32 = 4294967296 := rfl
  rw [h24] at hx ⊢
  rw [h32]
  omega

/-- What `cgb_2_rgb` returns for a palette of bytes, in terms of the little-endian
word at the colour's offset. -/
theorem cgb_2_rgb_eq (pal : Mem) (p c : Nat)
    (hlo : pal (p * 8 + c * 2) < 0x100) (hhi : pal (p * 8 + c * 2 + 1) < 0x100) :
    cgb_2_rgb pal p c
      = (expand5 ((pal (p * 8 + c * 2) + 0x100 * pal (p * 8 + c * 2 + 1)) &&& 0x1F) <<< 16)
        ||| (expand5 (((pal (p * 8 + c * 2) + 0x100 * pal (p * 8 + c * 2 + 1)) >>> 5) &&& 0x1F)
              <<< 8)
        ||| expand5 (((pal (p * 8 + c * 2) + 0x100 * pal (p * 8 + c * 2 + 1)) >>> 10)
              &&& 0x1F) := by
  have hm : ∀ x : Nat, (x &&& 0x1F) % 0x100 = x &&& 0x1F := fun x =>
    Nat.mod_eq_of_lt (Nat.lt_trans (and1F_lt x) (by decide))
  simp only [cgb_2_rgb, rgb555_word _ _ hlo hhi, hm]

/-- C20. CGB colour conversion: for every palette of 64 bytes, palette number
`p` in `0..7` and colour id `c` in `0..3`, the two indices `p*8 + c*2` and
`p*8 + c*2 + 1` are below 64, and with `w` the little-endian word of the bytes at
those indices (bit 15 of which is ignored), `cgb_2_rgb` returns
`(e(w & 0x1F) << 16) | (e((w >> 5) & 0x1F) << 8) | e((w >> 10) & 0x1F)`, where
`e(x) = (x << 3) | (x >> 2)` on `0..31`; `e` maps 0 to 0 and 31 to 255 and is strictly
increasing on `0..31`; the result is below `2^24`, so OR-ing `0xFF000000` gives a
32-bit pixel with alpha `0xFF` and the same colour. -/
theorem cgb_colour_conversion (pal : Mem) (p c : Nat)
    (hpal : ∀ i, i < 64 → pal i < 0x100) (hp : p ≤ 7) (hc : c ≤ 3) :
    p * 8 + c * 2 < 64 ∧ p * 8 + c * 2 + 1 < 64 ∧
    (∀ w, (w = pal (p * 8 + c * 2) + 0x100 * pal (p * 8 + c * 2 + 1) ∨
        w = (pal (p * 8 + c * 2) + 0x100 * pal (p * 8 + c * 2 + 1)) % 0x8000) →
      cgb_2_rgb pal p c
        = (expand5 (w &&& 0x1F) <<< 16) ||| (expand5 ((w >>> 5) &&& 0x1F) <<< 8)
            ||| expand5 ((w >>> 10) &&& 0x1F)) ∧
    (∀ x, x ≤ 31 → expand5 x = (x <<< 3) ||| (x >>> 2)) ∧
    expand5 0 = 0 ∧ expand5 31 = 255 ∧
    (∀ x y, x < y → y ≤ 31 → expand5 x < expand5 y) ∧
    cgb_2_rgb pal p c < 2 ^ 24 ∧
    (0xFF000000 ||| cgb_2_rgb pal p c) >>> 24 = 0xFF ∧
    (0xFF000000 ||| cgb_2_rgb pal p c) &&& 0xFFFFFF = cgb_2_rgb pal p c ∧
    0xFF000000 ||| cgb_2_rgb pal p c < 2 ^ 32 := by
  have hi0 : p * 8 + c * 2 < 64 := by omega
  have hi1 : p * 8 + c * 2 + 1 < 64 := by omega
  have heq := cgb_2_rgb_eq pal p c (hpal _ hi0) (hpal _ hi1)
  have hlt : cgb_2_rgb pal p c < 2 ^ 24 := by
    rw [heq]
    exact pack_rgb_lt _ _ _ (expand5_eq _ (and1F_lt _)).2.2 (expand5_eq _ (and1F_lt _)).2.2
      (expand5_eq _ (and1F_lt _)).2.2
  obtain ⟨ha, hb, hc32⟩ := opaque_argb _ hlt
  refine ⟨hi0, hi1, ?_, fun x hx => (expand5_eq x (by omega)).1, by decide, by decide,
    fun x y hxy hy => expand5_strict_mono x (by omega) y (by omega) hxy, hlt, ha, hb, hc32⟩
  intro w hw
  rcases hw with hw | hw
  · rw [hw, heq]
  · rw [hw, heq]
    have h0 := channel_low15 (pal (p * 8 + c * 2) + 0x100 * pal (p * 8 + c * 2 + 1)) 0
      (by decide)
    simp only [Nat.shiftRight_zero] at h0
    rw [h0, channel_low15 _ 5 (by decide), channel_low15 _ 10 (by decide)]

theorem cgb_colour_conversion_witness :
    (∀ i, i < 64 → (init_default_palettes Ppu_t.zero).bg_pallete i < 0x100) ∧
    (1 : Nat) ≤ 7 ∧ (1 : Nat) ≤ 3 ∧
    cgb_2_rgb (init_default_palettes Ppu_t.zero).bg_pallete 1 1 < 2 ^ 24 :=
  ⟨by decide, by decide, by decide,
    (cgb_colour_conversion (init_default_palettes Ppu_t.zero).bg_pallete 1 1 (by decide)
      (by decide) (by decide)).2.2.2.2.2.2.2.1⟩

/-! ## C21: the STAT mode -/

/-- The mode bits after `STAT = (STAT & ~0x03) | k`. -/
theorem mode_bits_set (s k : Nat) (hk : k ≤ 3) : ((s &&& 0xFC) ||| k) &&& 0x03 = k := by
  rw [Nat.and_distrib_right, Nat.and_assoc, show (0xFC : Nat) &&& 0x03 = 0 from rfl,
    Nat.and_zero, Nat.zero_or]
  have h := Nat.and_pow_two_sub_one_eq_mod k 2
  rw [show (2 : Nat) ^ 2 - 1 = 0x03 from rfl] at h
  rw [h]
  omega

/-- Setting or clearing the coincidence bit leaves the mode bits alone. -/
theorem mode_bits_lyc (s : Nat) :
    (s ||| 0x04) &&& 0x03 = s &&& 0x03 ∧ (s &&& 0xFB) &&& 0x03 = s &&& 0x03 := by
  constructor
  · rw [Nat.and_distrib_right, show (0x04 : Nat) &&& 0x03 = 0 from rfl, Nat.or_zero]
  · rw [Nat.and_assoc, show (0xFB : Nat) &&& 0x03 = 0x03 from rfl]

/-- A CPU write to STAT leaves the mode bits alone. -/
theorem mode_bits_write (v s : Nat) : ((v &&& 0x78) ||| (s &&& 0x07)) &&& 0x03 = s &&& 0x03 := by
  rw [Nat.and_distrib_right, Nat.and_assoc, Nat.and_assoc,
    show (0x78 : Nat) &&& 0x03 = 0 from rfl, show (0x07 : Nat) &&& 0x03 = 0x03 from rfl,
    Nat.and_zero, Nat.zero_or]

/-- The final block of a step on a visible line sets the mode bits from the dot
clock, and leaves `LY` and the dot clock as they are. -/
theorem mode_update_mode (E : Ext κ τ) (m : Machine κ τ) (hly : m.ppu.LY < 144) :
    (mode_update E m).ppu.STAT &&& 0x03
      = if m.ppu.cycles_in_line < 80 then 2 else if m.ppu.cycles_in_line < 252 then 3 else 0 := by
  unfold mode_update
  rw [if_pos hly]
  by_cases h1 : m.ppu.cycles_in_line < 80
  · rw [if_pos h1, if_pos h1]
    exact mode_bits_set _ 2 (by decide)
  · rw [if_neg h1, if_neg h1]
    by_cases h2 : m.ppu.cycles_in_line < 252
    · rw [if_pos h2, if_pos h2]
      exact mode_bits_set _ 3 (by decide)
    · rw [if_neg h2, if_neg h2]
      exact mode_bits_set _ 0 (by decide)

/-- The final block of a step does nothing on a VBlank line. -/
theorem mode_update_vblank (E : Ext κ τ) (m : Machine κ τ) (hly : ¬ m.ppu.LY < 144) :
    mode_update E m = m := by
  unfold mode_update
  rw [if_neg hly]

/-- The mode bits after the mode part of the line advance. -/
theorem line_mode_mode (m : Machine κ τ) :
    (line_mode m).ppu.STAT &&& 0x03
      = if m.ppu.LY = 144 then 1 else if m.ppu.LY < 144 then 2 else m.ppu.STAT &&& 0x03 := by
  unfold line_mode
  by_cases h1 : m.ppu.LY = 144
  · rw [if_pos h1, if_pos h1]
    exact mode_bits_set _ 1 (by decide)
  · rw [if_neg h1, if_neg h1]
    by_cases h2 : m.ppu.LY < 144
    · rw [if_pos h2, if_pos h2]
      exact mode_bits_set _ 2 (by decide)
    · rw [if_neg h2, if_neg h2]

/-- The coincidence part of the line advance keeps the mode bits. -/
theorem line_lyc_mode (m : Machine κ τ) :
    (line_lyc m).ppu.STAT &&& 0x03 = m.ppu.STAT &&& 0x03 := by
  unfold line_lyc
  by_cases h : m.ppu.LY = m.ppu.LYC
  · rw [if_pos h]; exact (mode_bits_lyc _).1
  · rw [if_neg h]; exact (mode_bits_lyc _).2

/-- The mode bits after the line-advance block, in terms of the line it enters. -/
theorem line_advance_mode (E : Ext κ τ) (m : Machine κ τ) :
    (line_advance E m).ppu.STAT &&& 0x03
      = if m.ppu.cycles_in_line ≥ 456 then
          (if (line_advance E m).ppu.LY = 144 then 1
           else if (line_advance E m).ppu.LY < 144 then 2 else m.ppu.STAT &&& 0x03)
        else m.ppu.STAT &&& 0x03 := by
  by_cases h : m.ppu.cycles_in_line ≥ 456
  · rw [if_pos h]
    have hly : (line_advance E m).ppu.LY = (line_inc m).ppu.LY := by
      unfold line_advance
      rw [if_pos h, line_tail_LY]
    rw [hly]
    have hst : (line_advance E m).ppu.STAT = (line_lyc (line_mode (line_inc m))).ppu.STAT := by
      unfold line_advance
      rw [if_pos h]
      exact proj_of_frame render_frame (fun x => x.ppu.STAT) (fun _ => rfl)
        (line_render_frame E _)
    rw [hst, line_lyc_mode, line_mode_mode]
    rfl
  · rw [if_neg h]
    unfold line_advance
    rw [if_neg h]
/-- The OAM-DMA part of a step leaves `LY` and `STAT` alone. -/
theorem after_dma_line_fields (E : Ext κ τ) (m : Machine κ τ) (cycles : Int) :
    (after_dma E m cycles).ppu.LY = m.ppu.LY ∧ (after_dma E m cycles).ppu.STAT = m.ppu.STAT := by
  have h := after_dma_frame E m cycles
  have h1 : (after_dma E m cycles).ppu.LY = (add_cycles m cycles).ppu.LY :=
    proj_of_frame dma_frame (fun x => x.ppu.LY) (fun _ => rfl) h
  have h2 : (after_dma E m cycles).ppu.STAT = (add_cycles m cycles).ppu.STAT :=
    proj_of_frame dma_frame (fun x => x.ppu.STAT) (fun _ => rfl) h
  exact ⟨h1, h2⟩

/-- The STAT mode after a step with the LCD enabled that ends on a visible line. -/
theorem display_cycle_mode (E : Ext κ τ) (m : Machine κ τ) (cycles : Int)
    (hon : m.ppu.LCDC &&& LCDC_ENABLE ≠ 0) (hly : (display_cycle E m cycles).ppu.LY < 144) :
    (display_cycle E m cycles).ppu.STAT &&& 0x03
      = if (display_cycle E m cycles).ppu.cycles_in_line < 80 then 2
        else if (display_cycle E m cycles).ppu.cycles_in_line < 252 then 3 else 0 := by
  rw [display_cycle_on E m cycles hon] at hly ⊢
  have h1 : (mode_update E (line_advance E (after_dma E m cycles))).ppu.cycles_in_line
      = (line_advance E (after_dma E m cycles)).ppu.cycles_in_line :=
    proj_of_frame mode_frame (fun x => x.ppu.cycles_in_line) (fun _ => rfl)
      (mode_update_frame E _)
  have h2 : (mode_update E (line_advance E (after_dma E m cycles))).ppu.LY
      = (line_advance E (after_dma E m cycles)).ppu.LY :=
    proj_of_frame mode_frame (fun x => x.ppu.LY) (fun _ => rfl) (mode_update_frame E _)
  rw [h2] at hly
  rw [h1]
  exact mode_update_mode E _ hly

/-- The line-advance block keeps `VBlankInv`: it enters line 144 in mode 1, and on
lines 145..153 it leaves the mode bits alone. -/
theorem VBlankInv_line_advance (E : Ext κ τ) (m : Machine κ τ) (h : VBlankInv m) :
    VBlankInv (line_advance E m) := by
  obtain ⟨hle, hmode⟩ := h
  have hly := line_advance_LY E m
  have hst := line_advance_mode E m
  by_cases hc : m.ppu.cycles_in_line ≥ 456
  · rw [if_pos hc] at hly hst
    have hinc : (m.ppu.LY + 1) % 0x100 = m.ppu.LY + 1 := by omega
    rw [hinc] at hly
    by_cases hw : m.ppu.LY + 1 > 153
    · rw [if_pos hw] at hly
      exact ⟨by omega, fun h144 => by omega⟩
    · rw [if_neg hw] at hly
      refine ⟨by omega, fun h144 => ?_⟩
      rw [hst]
      by_cases h1 : (line_advance E m).ppu.LY = 144
      · rw [if_pos h1]
      · have h2 : ¬ (line_advance E m).ppu.LY < 144 := by omega
        rw [if_neg h1, if_neg h2]
        exact hmode (by omega)
  · rw [if_neg hc] at hly hst
    refine ⟨by omega, fun h144 => ?_⟩
    rw [hst]
    exact hmode (by omega)

/-- A PPU step keeps `VBlankInv`, whatever the cycle count. -/
theorem VBlankInv_display_cycle (E : Ext κ τ) (m : Machine κ τ) (cycles : Int)
    (h : VBlankInv m) : VBlankInv (display_cycle E m cycles) := by
  by_cases hon : m.ppu.LCDC &&& LCDC_ENABLE = 0
  · rw [display_cycle_off E m cycles hon]; exact h
  · rw [display_cycle_on E m cycles hon]
    obtain ⟨d1, d2⟩ := after_dma_line_fields E m cycles
    have h0 : VBlankInv (after_dma E m cycles) := by
      unfold VBlankInv at h ⊢
      rw [d1, d2]; exact h
    have h1 := VBlankInv_line_advance E _ h0
    by_cases hv : (line_advance E (after_dma E m cycles)).ppu.LY < 144
    · have h2 : (mode_update E (line_advance E (after_dma E m cycles))).ppu.LY
          = (line_advance E (after_dma E m cycles)).ppu.LY :=
        proj_of_frame mode_frame (fun x => x.ppu.LY) (fun _ => rfl) (mode_update_frame E _)
      unfold VBlankInv
      rw [h2]
      exact ⟨by omega, fun h144 => by omega⟩
    · rw [mode_update_vblank E _ hv]; exact h1
theorem foldl_invariant {α β : Type} (P : α → Prop) (f : α → β → α)
    (h : ∀ a b, P a → P (f a b)) (l : List β) (a : α) (ha : P a) : P (l.foldl f a) := by
  induction l generalizing a with
  | nil => exact ha
  | cons b l ih => exact ih (f a b) (h a b ha)

/-- `VBlankInv` only looks at `LY` and the mode bits of `STAT`. -/
theorem VBlankInv_of_fields (m m2 : Machine κ τ) (h : VBlankInv m)
    (h1 : m2.ppu.LY = m.ppu.LY) (h2 : m2.ppu.STAT &&& 0x03 = m.ppu.STAT &&& 0x03) :
    VBlankInv m2 := by
  unfold VBlankInv at h ⊢
  rw [h1, h2]; exact h

theorem ppu_vram_write_ppu (m : Machine κ τ) (a v : Nat) : (ppu_vram_write m a v).ppu = m.ppu := by
  unfold ppu_vram_write
  split_ifs <;> rfl

/-- The `0xFF55` case keeps `VBlankInv` when the stores of its loop do. -/
theorem write_hdma5_vblank (wr : Machine κ τ → Nat → Nat → Machine κ τ) (E : Ext κ τ)
    (hwr : ∀ m a v, VBlankInv m → VBlankInv (wr m a v))
    (m : Machine κ τ) (v : Nat) (h : VBlankInv m) : VBlankInv (write_hdma5 wr E m v) := by
  have hstep : ∀ (src dst : Nat) (m1 : Machine κ τ) (i : Nat), VBlankInv m1 →
      VBlankInv (gdma_step wr E src dst m1 i) := by
    intro src dst m1 i h1
    unfold gdma_step
    simp only []
    split_ifs
    · exact hwr _ _ _ h1
    · exact h1
  unfold write_hdma5
  by_cases h1 : ¬ m.bus.is_cgb = true
  · rw [if_pos h1]; exact VBlankInv_of_fields m _ h rfl rfl
  · rw [if_neg h1]
    by_cases h2 : m.ppu.hdma_active = true ∧ v &&& 0x80 ≠ 0
    · rw [if_pos h2]; exact VBlankInv_of_fields m _ h rfl rfl
    · rw [if_neg h2]
      simp only []
      by_cases h3 : v &&& 0x80 = 0
      · rw [if_pos h3]
        exact foldl_invariant VBlankInv _ (hstep _ _) _ _ (VBlankInv_of_fields m _ h rfl rfl)
      · rw [if_neg h3]; exact VBlankInv_of_fields m _ h rfl rfl

/-- The cases of the `switch` of `write_byte_bus` other than LCDC, STAT and HDMA5
leave `LY` and `STAT` alone. -/
theorem write_switch_line_fields (wr : Machine κ τ → Nat → Nat → Machine κ τ) (E : Ext κ τ)
    (m : Machine κ τ) (a v : Nat) (h40 : a ≠ 0xFF40) (h41 : a ≠ 0xFF41) (h55 : a ≠ 0xFF55) :
    Option.map (fun x : Machine κ τ => (x.ppu.LY, x.ppu.STAT)) (write_switch wr E m a v)
      = Option.map (fun _ => (m.ppu.LY, m.ppu.STAT)) (write_switch wr E m a v) := by
  unfold write_switch
  simp only [h40, h41, h55, if_false, apply_ite (Option.map _), Option.map_some',
    Option.map_none']

/-- Every case of the `switch` of `write_byte_bus` keeps `VBlankInv`: a write to
LCDC that switches the LCD on or off restarts at line 0, and a write to STAT keeps
the mode bits. -/
theorem write_switch_vblank (wr : Machine κ τ → Nat → Nat → Machine κ τ) (E : Ext κ τ)
    (hwr : ∀ m a v, VBlankInv m → VBlankInv (wr m a v))
    (m : Machine κ τ) (a v : Nat) (h : VBlankInv m) :
    ∀ r, write_switch wr E m a v = some r → VBlankInv r := by
  intro r hr
  by_cases h40 : a = 0xFF40
  · subst h40
    have hzero : ∀ s : Nat, VBlankInv ({ m with ppu := { m.ppu with
        LCDC := v, LY := 0, cycles_in_line := 0, STAT := s } } : Machine κ τ) := fun s =>
      ⟨Nat.zero_le _, fun h144 => absurd (h144 : 144 ≤ 0) (show ¬ (144 ≤ 0) by decide)⟩
    simp only [write_switch] at hr
    simp only [show ¬ ((0xFF40 : Nat) = 0xFF00) from by decide,
      show ¬ ((0xFF40 : Nat) = 0xFF01) from by decide,
      show ¬ ((0xFF40 : Nat) = 0xFF02) from by decide,
      show ¬ ((0xFF40 : Nat) = 0xFF04 ∨ (0xFF40 : Nat) = 0xFF05 ∨ (0xFF40 : Nat) = 0xFF06 ∨
        (0xFF40 : Nat) = 0xFF07) from by decide,
      show ¬ ((0xFF40 : Nat) = 0xFF0F) from by decide,
      show audio_case 0xFF40 = false from by decide, if_false, if_true,
      Bool.false_eq_true] at hr
    split_ifs at hr
    · rw [← Option.some.inj hr]; exact hzero _
    · rw [← Option.some.inj hr]; exact hzero _
    · rw [← Option.some.inj hr]; exact VBlankInv_of_fields m _ h rfl rfl
  · by_cases h41 : a = 0xFF41
    · subst h41
      have hw : write_switch wr E m 0xFF41 v
          = some { m with ppu := { m.ppu with
              STAT := (v &&& 0x78) ||| (m.ppu.STAT &&& 0x07) } } := by
        simp [write_switch, audio_case]
      rw [hw] at hr
      rw [← Option.some.inj hr]
      exact VBlankInv_of_fields m _ h rfl (mode_bits_write v m.ppu.STAT)
    · by_cases h55 : a = 0xFF55
      · subst h55
        have hw : write_switch wr E m 0xFF55 v = some (write_hdma5 wr E m v) := by
          simp [write_switch, audio_case]
        rw [hw] at hr
        rw [← Option.some.inj hr]
        exact write_hdma5_vblank wr E hwr m v h
      · have hf := write_switch_line_fields wr E m a v h40 h41 h55
        rw [hr] at hf
        have hp := Option.some.inj hf
        have h1 : r.ppu.LY = m.ppu.LY := congrArg Prod.fst hp
        have h2 : r.ppu.STAT = m.ppu.STAT := congrArg Prod.snd hp
        exact VBlankInv_of_fields m r h h1 (by rw [h2])
/-- The text of `write_byte_bus` keeps `VBlankInv` when its recursive call does. -/
theorem write_byte_bus_body_vblank (wr : Machine κ τ → Nat → Nat → Machine κ τ)
    (E : Ext κ τ) (hwr : ∀ m a v, VBlankInv m → VBlankInv (wr m a v))
    (m : Machine κ τ) (a v : Nat) (h : VBlankInv m) :
    VBlankInv (write_byte_bus_body wr E m a v) := by
  have hsw := write_switch_vblank wr E hwr m a v h
  have same : ∀ m2 : Machine κ τ, m2.ppu = m.ppu → VBlankInv m2 := fun m2 hp =>
    VBlankInv_of_fields m m2 h (by rw [hp]) (by rw [hp])
  unfold write_byte_bus_body
  by_cases h0 : m.ppu.dma_active = true
  · rw [if_pos h0]; split_ifs <;> exact same _ rfl
  rw [if_neg h0]
  by_cases h1 : a < 0x8000
  · rw [if_pos h1]; exact same _ rfl
  rw [if_neg h1]
  by_cases h2 : a ≤ 0x9FFF
  · rw [if_pos h2]; exact same _ (ppu_vram_write_ppu _ _ _)
  rw [if_neg h2]
  by_cases h3 : a ≥ 0xA000 ∧ a ≤ 0xBFFF
  · rw [if_pos h3]; exact same _ rfl
  rw [if_neg h3]
  by_cases h4 : a ≥ 0xC000 ∧ a ≤ 0xCFFF
  · rw [if_pos h4]; exact same _ rfl
  rw [if_neg h4]
  by_cases h5 : a ≥ 0xD000 ∧ a ≤ 0xDFFF
  · rw [if_pos h5]; exact same _ rfl
  rw [if_neg h5]
  by_cases h6 : a ≥ 0xE000 ∧ a ≤ 0xEFFF
  · rw [if_pos h6]; exact same _ rfl
  rw [if_neg h6]
  by_cases h7 : a ≥ 0xF000 ∧ a ≤ 0xFDFF
  · rw [if_pos h7]; exact same _ rfl
  rw [if_neg h7]
  by_cases h8 : a ≥ 0xFE00 ∧ a ≤ 0xFE9F
  · rw [if_pos h8]; exact same _ rfl
  rw [if_neg h8]
  by_cases h9 : a ≥ 0xFEA0 ∧ a ≤ 0xFEFF
  · rw [if_pos h9]; exact h
  rw [if_neg h9]
  cases hr : write_switch wr E m a v with
  | none =>
    show VBlankInv (if a ≥ 0xFF80 ∧ a ≤ 0xFFFE then _ else if a = 0xFFFF then _ else m)
    split_ifs
    · exact same _ rfl
    · exact same _ rfl
    · exact h
  | some r => exact hsw r hr

/-- Every bus write keeps `VBlankInv`. -/
theorem VBlankInv_write (E : Ext κ τ) (m : Machine κ τ) (a v : Nat) (h : VBlankInv m) :
    VBlankInv (write_byte_bus E m a v) :=
  write_byte_bus_body_vblank _ E
    (fun m1 a1 v1 h1 => write_byte_bus_body_vblank _ E (fun _ _ _ h2 => h2) m1 a1 v1 h1) m a v h

/-- Every sequence of PPU steps and bus writes keeps `VBlankInv`. -/
theorem VBlankInv_run_ops (E : Ext κ τ) (ops : List BusOp) (m : Machine κ τ)
    (h : VBlankInv m) : VBlankInv (run_ops E m ops) := by
  unfold run_ops
  refine foldl_invariant VBlankInv (apply_op E) ?_ ops m h
  intro m1 op h1
  cases op with
  | step cycles => exact VBlankInv_display_cycle E m1 cycles h1
  | write addy val => exact VBlankInv_write E m1 addy val h1

/-- The PPU that `start_display` leaves is on line 0 with the LCD enabled. -/
theorem start_display_line (E : Ext κ τ) (bus : Bus_t κ τ) :
    (start_display E bus).LY = 0 ∧ (start_display E bus).LCDC = 0x91 ∧
    (start_display E bus).STAT = 0 ∧ (start_display E bus).cycles_in_line = 0 :=
  ⟨rfl, rfl, rfl, rfl⟩
/-- C21. PPU mode as a function of the dot clock: after every step taken with the
LCD enabled, if `LY < 144` then the STAT mode bits (`STAT & 3`) are 2 when
`cycles_in_line < 80`, 3 when `80 ≤ cycles_in_line < 252` and 0 when
`cycles_in_line ≥ 252`; and in every state reached from the initialised PPU (the
one `start_display` leaves) by PPU steps and bus writes, `LY` is at most 153 and
`LY` in `[144,153]` implies `STAT & 3 = 1`. -/
theorem stat_mode_follows_clock (E : Ext κ τ) (m : Machine κ τ) (cycles : Int)
    (m0 : Machine κ τ) (b : Bus_t κ τ) (ops : List BusOp)
    (hon : m.ppu.LCDC &&& LCDC_ENABLE ≠ 0) (hinit : m0.ppu = start_display E b) :
    ((display_cycle E m cycles).ppu.LY < 144 →
      ((display_cycle E m cycles).ppu.cycles_in_line < 80 →
        (display_cycle E m cycles).ppu.STAT &&& 0x03 = 2) ∧
      (80 ≤ (display_cycle E m cycles).ppu.cycles_in_line →
        (display_cycle E m cycles).ppu.cycles_in_line < 252 →
        (display_cycle E m cycles).ppu.STAT &&& 0x03 = 3) ∧
      (252 ≤ (display_cycle E m cycles).ppu.cycles_in_line →
        (display_cycle E m cycles).ppu.STAT &&& 0x03 = 0)) ∧
    (144 ≤ (run_ops E m0 ops).ppu.LY → (run_ops E m0 ops).ppu.LY ≤ 153 →
      (run_ops E m0 ops).ppu.STAT &&& 0x03 = 1) ∧
    (run_ops E m0 ops).ppu.LY ≤ 153 := by
  refine ⟨?_, ?_, ?_⟩
  · intro hly
    have hmode := display_cycle_mode E m cycles hon hly
    refine ⟨?_, ?_, ?_⟩
    · intro h1
      rw [hmode, if_pos h1]
    · intro h1 h2
      rw [hmode, if_neg (by omega), if_pos h2]
    · intro h1
      rw [hmode, if_neg (by omega), if_neg (by omega)]
  · intro h144 _
    have h0 : VBlankInv m0 := by
      unfold VBlankInv
      rw [hinit, (start_display_line E b).1]
      exact ⟨by decide, fun h => absurd h (by decide)⟩
    exact (VBlankInv_run_ops E ops m0 h0).2 h144
  · have h0 : VBlankInv m0 := by
      unfold VBlankInv
      rw [hinit, (start_display_line E b).1]
      exact ⟨by decide, fun h => absurd h (by decide)⟩
    exact (VBlankInv_run_ops E ops m0 h0).1

theorem stat_mode_follows_clock_witness :
    powerOn.ppu.LCDC &&& LCDC_ENABLE ≠ 0 ∧ powerOn.ppu = start_display idleExt (init_bus ()) ∧
    (display_cycle idleExt powerOn 100).ppu.STAT &&& 0x03 = 3 ∧
    (run_ops idleExt powerOn [BusOp.write 0xFF41 0xFF, BusOp.step 456]).ppu.LY ≤ 153 := by
  have hclk := display_cycle_clock idleExt powerOn 100 (by decide)
  have hc : (display_cycle idleExt powerOn 100).ppu.cycles_in_line = 100 :=
    hclk.1.trans (by decide)
  have hl : (display_cycle idleExt powerOn 100).ppu.LY = 0 := hclk.2.1.trans (by decide)
  have h := stat_mode_follows_clock idleExt powerOn 100 powerOn (init_bus ())
    [BusOp.write 0xFF41 0xFF, BusOp.step 456] (by decide) rfl
  exact ⟨by decide, rfl, (h.1 (by rw [hl]; decide)).2.1 (by rw [hc]; decide)
    (by rw [hc]; decide), h.2.2⟩

/-! ## C22: the OAM-DMA latch -/

/-- With fewer than 4 cycles in the accumulator the OAM-DMA loop does not run. -/
theorem dma_loop_idle (E : Ext κ τ) (fuel : Nat) (m : Machine κ τ)
    (h : m.dma_cycle_counter < 4) : dma_loop E fuel m = m := by
  cases fuel with
  | zero => rfl
  | succ n =>
    unfold dma_loop
    rw [if_neg (by omega)]

/-- The OAM-DMA block of a step that starts a transfer (byte counter 0, transfer
active): the request flag and the source stay, and either the transfer is still
active afterwards or all 160 bytes are in OAM and it is over. -/
theorem dma_run_started (E : Ext κ τ) (m : Machine κ τ) (cycles : Int)
    (hact : m.ppu.dma_active = true) (hcnt : m.ppu.dma_counter = 0) :
    (dma_run E m cycles).ppu.dma_pending = m.ppu.dma_pending ∧
    (dma_run E m cycles).ppu.dma_source = m.ppu.dma_source ∧
    ((dma_run E m cycles).ppu.dma_active = true ∨
      ((dma_run E m cycles).ppu.dma_active = false ∧
        ∀ i, i < 160 →
          (dma_run E m cycles).bus.oam i
            = dma_fetch E m ((m.ppu.dma_source + i) % 0x10000))) := by
  have hrun : dma_run E m cycles
      = dma_finish (dma_loop E (160 - m.ppu.dma_counter)
          { m with dma_cycle_counter := m.dma_cycle_counter + cycles }) := by
    simp only [dma_run, hact, if_true]
  set m1 : Machine κ τ := { m with dma_cycle_counter := m.dma_cycle_counter + cycles } with hm1
  have hfr : oam_frame (dma_loop E (160 - m.ppu.dma_counter) m1) = oam_frame m1 :=
    dma_loop_oam_frame E _ m1
  set ml := dma_loop E (160 - m.ppu.dma_counter) m1 with hml
  have hlp : ml.ppu.dma_pending = m.ppu.dma_pending :=
    proj_of_frame oam_frame (fun x => x.ppu.dma_pending) (fun _ => rfl) hfr
  have hls : ml.ppu.dma_source = m.ppu.dma_source :=
    proj_of_frame oam_frame (fun x => x.ppu.dma_source) (fun _ => rfl) hfr
  have hla : ml.ppu.dma_active = true :=
    (proj_of_frame oam_frame (fun x => x.ppu.dma_active) (fun _ => rfl) hfr).trans hact
  rw [hrun]
  unfold dma_finish
  by_cases hfin : ml.ppu.dma_counter ≥ 160
  · rw [if_pos hfin]
    refine ⟨hlp, hls, Or.inr ⟨rfl, ?_⟩⟩
    have hnn : 0 ≤ m1.dma_cycle_counter := by
      by_contra hneg
      have hidle : ml = m1 := dma_loop_idle E _ m1 (by omega)
      rw [hidle] at hfin
      have : m1.ppu.dma_counter = 0 := hcnt
      omega
    have hr : m1.dma_cycle_counter = ((m1.dma_cycle_counter.toNat : Nat) : Int) :=
      (Int.toNat_of_nonneg hnn).symm
    have hc1 : m1.ppu.dma_counter = 0 := hcnt
    obtain ⟨_, hcount, _, hoam⟩ := dma_loop_spec E (160 - m.ppu.dma_counter) m1 _ hr
      (by omega) (by omega)
    rw [← hml, hc1] at hcount hoam
    intro i hi
    have hin : 0 ≤ i ∧ i < 0 + min (160 - 0) (m1.dma_cycle_counter.toNat / 4) := by omega
    show ml.bus.oam i = _
    rw [hoam i, if_pos hin]
    exact dma_fetch_congr E m1 m _ rfl
  · rw [if_neg hfin]
    exact ⟨hlp, hls, Or.inl hla⟩

/-- C22 (counterexample). With the LCD switched off (`LCDC = 0x11`), after a write
of `0xC0` to `0xFF46` has set `dma_pending`, a step changes nothing: `dma_pending`
is still set, `dma_active` is still clear and `dma_source` is still 0, not
`0xC000`. -/
theorem dma_latch_needs_lcd :
    (write_byte_bus idleExt powerOnLcdOff 0xFF46 0xC0).ppu.dma_pending = true ∧
    (write_byte_bus idleExt powerOnLcdOff 0xFF46 0xC0).ppu.DMA = 0xC0 ∧
    display_cycle idleExt (write_byte_bus idleExt powerOnLcdOff 0xFF46 0xC0) 4
      = write_byte_bus idleExt powerOnLcdOff 0xFF46 0xC0 ∧
    (display_cycle idleExt (write_byte_bus idleExt powerOnLcdOff 0xFF46 0xC0) 4).ppu.dma_pending
      = true ∧
    (display_cycle idleExt (write_byte_bus idleExt powerOnLcdOff 0xFF46 0xC0) 4).ppu.dma_active
      = false ∧
    (display_cycle idleExt (write_byte_bus idleExt powerOnLcdOff 0xFF46 0xC0) 4).ppu.dma_source
      ≠ 0xC0 <<< 8 := by
  have hw := write_dma_register idleExt powerOnLcdOff 0xC0 rfl
  have hoff : (write_byte_bus idleExt powerOnLcdOff 0xFF46 0xC0).ppu.LCDC &&& LCDC_ENABLE = 0 := by
    rw [hw]; decide
  have hstep := display_cycle_off idleExt _ 4 hoff
  have hp : (write_byte_bus idleExt powerOnLcdOff 0xFF46 0xC0).ppu.dma_pending = true := by
    rw [hw]
  have hd : (write_byte_bus idleExt powerOnLcdOff 0xFF46 0xC0).ppu.DMA = 0xC0 := by rw [hw]
  have ha : (write_byte_bus idleExt powerOnLcdOff 0xFF46 0xC0).ppu.dma_active = false := by
    rw [hw]; rfl
  have hs : (write_byte_bus idleExt powerOnLcdOff 0xFF46 0xC0).ppu.dma_source = 0 := by
    rw [hw]; rfl
  refine ⟨hp, hd, hstep, ?_, ?_, ?_⟩
  · rw [hstep]; exact hp
  · rw [hstep]; exact ha
  · rw [hstep, hs]; decide

/-- C22 (amended). OAM-DMA latch: for every state in which `dma_pending` is set and
the LCD is enabled, the next step, whatever the other registers and the cycle count
are, clears `dma_pending`, latches `dma_source = DMA << 8` (as a 16-bit value) and
starts the transfer: afterwards `dma_active` is set, or else all 160 bytes have
been copied to OAM, byte `i` fetched from `dma_source + i`, and the transfer is
over.  With the LCD disabled the step changes nothing. -/
theorem oam_dma_latch (E : Ext κ τ) (m : Machine κ τ) (cycles : Int)
    (hpend : m.ppu.dma_pending = true) :
    (m.ppu.LCDC &&& LCDC_ENABLE ≠ 0 →
      (display_cycle E m cycles).ppu.dma_pending = false ∧
      (display_cycle E m cycles).ppu.dma_source = (m.ppu.DMA <<< 8) % 0x10000 ∧
      (m.ppu.DMA < 0x100 → (display_cycle E m cycles).ppu.dma_source = m.ppu.DMA <<< 8) ∧
      ((display_cycle E m cycles).ppu.dma_active = true ∨
        ((display_cycle E m cycles).ppu.dma_active = false ∧
          ∀ i, i < 160 →
            (display_cycle E m cycles).bus.oam i
              = dma_fetch E (dma_latch (add_cycles m cycles))
                  (((m.ppu.DMA <<< 8) % 0x10000 + i) % 0x10000)))) ∧
    (m.ppu.LCDC &&& LCDC_ENABLE = 0 → display_cycle E m cycles = m) := by
  refine ⟨?_, display_cycle_off E m cycles⟩
  intro hon
  have hlatch : dma_latch (add_cycles m cycles)
      = { add_cycles m cycles with ppu := { (add_cycles m cycles).ppu with
            dma_pending := false, dma_active := true, dma_counter := 0,
            dma_source := (m.ppu.DMA <<< 8) % 0x10000 } } := by
    unfold dma_latch
    have hp : (add_cycles m cycles).ppu.dma_pending = true := hpend
    rw [hp, if_pos rfl]
    rfl
  have hl1 : (dma_latch (add_cycles m cycles)).ppu.dma_pending = false := by rw [hlatch]
  have hl2 : (dma_latch (add_cycles m cycles)).ppu.dma_active = true := by rw [hlatch]
  have hl3 : (dma_latch (add_cycles m cycles)).ppu.dma_counter = 0 := by rw [hlatch]
  have hl4 : (dma_latch (add_cycles m cycles)).ppu.dma_source = (m.ppu.DMA <<< 8) % 0x10000 := by
    rw [hlatch]
  obtain ⟨r1, r2, r3⟩ := dma_run_started E (dma_latch (add_cycles m cycles)) cycles hl2 hl3
  obtain ⟨_, _, _, f4, f5, f6, f7, _, _⟩ :=
    step_tail_fields E (dma_run E (dma_latch (add_cycles m cycles)) cycles)
  have hstep : display_cycle E m cycles
      = mode_update E (line_advance E (dma_run E (dma_latch (add_cycles m cycles)) cycles)) := by
    rw [display_cycle_on E m cycles hon, after_dma]
  rw [hstep, f4, f5, f6, f7, r1, r2, hl1, hl4]
  refine ⟨rfl, rfl, ?_, ?_⟩
  · intro hb
    rw [Nat.shiftLeft_eq]
    omega
  · rw [hl4] at r3
    exact r3

theorem oam_dma_latch_witness :
    (write_byte_bus idleExt powerOn 0xFF46 0xC0).ppu.dma_pending = true ∧
    (display_cycle idleExt (write_byte_bus idleExt powerOn 0xFF46 0xC0) 4).ppu.dma_pending
      = false ∧
    (display_cycle idleExt (write_byte_bus idleExt powerOn 0xFF46 0xC0) 4).ppu.dma_source
      = 0xC000 := by
  have hw := write_dma_register idleExt powerOn 0xC0 rfl
  have hp : (write_byte_bus idleExt powerOn 0xFF46 0xC0).ppu.dma_pending = true := by rw [hw]
  have hd : (write_byte_bus idleExt powerOn 0xFF46 0xC0).ppu.DMA = 0xC0 := by rw [hw]
  have hon : (write_byte_bus idleExt powerOn 0xFF46 0xC0).ppu.LCDC &&& LCDC_ENABLE ≠ 0 := by
    rw [hw]; decide
  have h := (oam_dma_latch idleExt (write_byte_bus idleExt powerOn 0xFF46 0xC0) 4 hp).1 hon
  refine ⟨hp, h.1, ?_⟩
  rw [h.2.1, hd]
  decide

/-! ## C23, C24: OAM-DMA from video RAM and from banked work RAM -/

/-- The OAM-DMA block of a step keeps the progress of a transfer, `c` cycles later,
when every fetch of the transfer gives the byte `g i`. -/
theorem DmaProgress_dma_run (E : Ext κ τ) (m0 m : Machine κ τ) (g : Nat → Nat) (src t c : Nat)
    (hg : ∀ (m1 : Machine κ τ) (i : Nat), m1.ppu.dma_active = true →
      m1.bus.wram = m0.bus.wram → i < 160 → dma_fetch E m1 ((src + i) % 0x10000) = g i)
    (hinv : DmaProgress m0 m g src t) :
    DmaProgress m0 (dma_run E m (c : Int)) g src (t + c) := by
  obtain ⟨hlcdc, hwram, hpend, hoam, hact, hdone⟩ := hinv
  have hfr := dma_run_frame E m (c : Int)
  have hlcdc2 : (dma_run E m (c : Int)).ppu.LCDC = m.ppu.LCDC :=
    proj_of_frame dma_frame (fun x => x.ppu.LCDC) (fun _ => rfl) hfr
  have hwram2 : (dma_run E m (c : Int)).bus.wram = m.bus.wram :=
    proj_of_frame dma_frame (fun x => x.bus.wram) (fun _ => rfl) hfr
  by_cases ht : t < 640
  · obtain ⟨ha, hsrc, hcnt, hacc⟩ := hact ht
    have hrun : dma_run E m (c : Int)
        = dma_finish (dma_loop E (160 - m.ppu.dma_counter)
            { m with dma_cycle_counter := m.dma_cycle_counter + (c : Int) }) := by
      simp only [dma_run, ha, if_true]
    obtain ⟨hlf, hlc, hla, hlo⟩ := dma_loop_spec E (160 - m.ppu.dma_counter)
      { m with dma_cycle_counter := m.dma_cycle_counter + (c : Int) } (t % 4 + c)
      (by show m.dma_cycle_counter + (c : Int) = _; rw [hacc]; push_cast; rfl)
      (by show m.ppu.dma_counter ≤ 160; omega) (le_refl _)
    set ml := dma_loop E (160 - m.ppu.dma_counter)
      { m with dma_cycle_counter := m.dma_cycle_counter + (c : Int) } with hml
    have hlc2 : ml.ppu.dma_counter = min 160 ((t + c) / 4) := by
      rw [hlc]; show m.ppu.dma_counter + min (160 - m.ppu.dma_counter) _ = _
      rw [hcnt]; omega
    have hla2 : ml.dma_cycle_counter
        = ((t % 4 + c - 4 * (min 160 ((t + c) / 4) - t / 4) : Nat) : Int) := by
      rw [hla]; show ((_ - 4 * min (160 - m.ppu.dma_counter) _ : Nat) : Int) = _
      rw [hcnt]; congr 2; omega
    have hlp : ml.ppu.dma_pending = false :=
      (proj_of_frame oam_frame (fun x => x.ppu.dma_pending) (fun _ => rfl) hlf).trans hpend
    have hlact : ml.ppu.dma_active = true :=
      (proj_of_frame oam_frame (fun x => x.ppu.dma_active) (fun _ => rfl) hlf).trans ha
    have hlsrc : ml.ppu.dma_source = src :=
      (proj_of_frame oam_frame (fun x => x.ppu.dma_source) (fun _ => rfl) hlf).trans hsrc
    have hloam : ∀ i, ml.bus.oam i
        = if i < min 160 ((t + c) / 4) then g i else m0.bus.oam i := by
      intro i
      rw [hlo i]
      show (if m.ppu.dma_counter ≤ i ∧ i < m.ppu.dma_counter + min (160 - m.ppu.dma_counter) _
        then dma_fetch E _ ((m.ppu.dma_source + i) % 0x10000) else m.bus.oam i) = _
      rw [hcnt, hsrc, hoam i]
      by_cases h1 : t / 4 ≤ i ∧ i < t / 4 + min (160 - t / 4) ((t % 4 + c) / 4)
      · have h2 : i < min 160 ((t + c) / 4) := by omega
        rw [if_pos h1, if_pos h2]
        exact hg _ i ha hwram (by omega)
      · rw [if_neg h1]
        by_cases h2 : i < min 160 (t / 4)
        · have h3 : i < min 160 ((t + c) / 4) := by omega
          rw [if_pos h2, if_pos h3]
        · have h3 : ¬ i < min 160 ((t + c) / 4) := by omega
          rw [if_neg h2, if_neg h3]
    rw [hrun]
    unfold dma_finish
    by_cases hfin : ml.ppu.dma_counter ≥ 160
    · rw [if_pos hfin]
      have h640 : 640 ≤ t + c := by omega
      refine ⟨?_, ?_, hlp, hloam, ?_, ?_⟩
      · rw [← hlcdc, ← hlcdc2, hrun]; unfold dma_finish; rw [if_pos hfin]
      · rw [← hwram, ← hwram2, hrun]; unfold dma_finish; rw [if_pos hfin]
      · intro h; omega
      · intro _; exact ⟨rfl, rfl⟩
    · rw [if_neg hfin]
      have h640 : t + c < 640 := by omega
      refine ⟨?_, ?_, hlp, hloam, ?_, ?_⟩
      · rw [← hlcdc, ← hlcdc2, hrun]; unfold dma_finish; rw [if_neg hfin]
      · rw [← hwram, ← hwram2, hrun]; unfold dma_finish; rw [if_neg hfin]
      · intro _
        refine ⟨hlact, hlsrc, ?_, ?_⟩
        · rw [hlc2]; omega
        · rw [hla2]; congr 1; omega
      · intro h; omega
  · obtain ⟨ha, hacc⟩ := hdone (by omega)
    have hrun : dma_run E m (c : Int) = { m with dma_cycle_counter := 0 } := by
      simp only [dma_run, ha, Bool.false_eq_true, if_false]
    rw [hrun]
    refine ⟨hlcdc, hwram, hpend, ?_, ?_, ?_⟩
    · intro i
      have := hoam i
      have h1 : min 160 (t / 4) = 160 := by omega
      have h2 : min 160 ((t + c) / 4) = 160 := by omega
      rw [h2]; rw [h1] at this; exact this
    · intro h; omega
    · intro _; exact ⟨ha, rfl⟩

/-- The progress of a transfer only looks at LCDC, work RAM, OAM and the OAM-DMA
engine. -/
theorem DmaProgress_of_fields (m0 m m2 : Machine κ τ) (g : Nat → Nat) (src t : Nat)
    (hinv : DmaProgress m0 m g src t)
    (h1 : m2.ppu.LCDC = m.ppu.LCDC) (h2 : m2.bus.wram = m.bus.wram)
    (h4 : m2.bus.oam = m.bus.oam)
    (h5 : m2.ppu.dma_pending = m.ppu.dma_pending) (h6 : m2.ppu.dma_active = m.ppu.dma_active)
    (h7 : m2.ppu.dma_source = m.ppu.dma_source) (h8 : m2.ppu.dma_counter = m.ppu.dma_counter)
    (h9 : m2.dma_cycle_counter = m.dma_cycle_counter) : DmaProgress m0 m2 g src t := by
  unfold DmaProgress at hinv ⊢
  rw [h1, h2, h4, h5, h6, h7, h8, h9]
  exact hinv

/-- A step with no OAM-DMA request pending, `c` cycles further into a transfer. -/
theorem DmaProgress_step (E : Ext κ τ) (m0 m : Machine κ τ) (g : Nat → Nat) (src t c : Nat)
    (hon : m0.ppu.LCDC &&& LCDC_ENABLE ≠ 0)
    (hg : ∀ (m1 : Machine κ τ) (i : Nat), m1.ppu.dma_active = true →
      m1.bus.wram = m0.bus.wram → i < 160 → dma_fetch E m1 ((src + i) % 0x10000) = g i)
    (hinv : DmaProgress m0 m g src t) :
    DmaProgress m0 (display_cycle E m (c : Int)) g src (t + c) := by
  have hon2 : m.ppu.LCDC &&& LCDC_ENABLE ≠ 0 := by rw [hinv.1]; exact hon
  have hpend : m.ppu.dma_pending = false := hinv.2.2.1
  have hlatch : dma_latch (add_cycles m (c : Int)) = add_cycles m (c : Int) := by
    unfold dma_latch
    have : (add_cycles m (c : Int)).ppu.dma_pending = false := hpend
    rw [this]; rfl
  have hstep : display_cycle E m (c : Int)
      = mode_update E (line_advance E (dma_run E (add_cycles m (c : Int)) (c : Int))) := by
    rw [display_cycle_on E m _ hon2, after_dma, hlatch]
  have hadd : DmaProgress m0 (add_cycles m (c : Int)) g src t :=
    DmaProgress_of_fields m0 m _ g _ _ hinv rfl rfl rfl rfl rfl rfl rfl rfl
  have hrun := DmaProgress_dma_run E m0 (add_cycles m (c : Int)) g src t c hg hadd
  obtain ⟨f1, f2, _, f4, f5, f6, f7, f8, f9⟩ :=
    step_tail_fields E (dma_run E (add_cycles m (c : Int)) (c : Int))
  rw [hstep]
  exact DmaProgress_of_fields m0 _ _ g _ _ hrun f1 f2 f4 f5 f6 f7 f8 f9

/-- A sequence of steps with no OAM-DMA request pending. -/
theorem DmaProgress_run (E : Ext κ τ) (m0 : Machine κ τ) (g : Nat → Nat) (src : Nat)
    (hon : m0.ppu.LCDC &&& LCDC_ENABLE ≠ 0)
    (hg : ∀ (m1 : Machine κ τ) (i : Nat), m1.ppu.dma_active = true →
      m1.bus.wram = m0.bus.wram → i < 160 → dma_fetch E m1 ((src + i) % 0x10000) = g i)
    (cs : List Nat) :
    ∀ (m : Machine κ τ) (t : Nat), DmaProgress m0 m g src t →
      DmaProgress m0 (run_steps E m (cs.map (fun c => (c : Int)))) g src (t + cs.sum) := by
  induction cs with
  | nil => intro m t hinv; exact hinv
  | cons c cs ih =>
    intro m t hinv
    have h := ih (display_cycle E m (c : Int)) (t + c) (DmaProgress_step E m0 m g src t c hon hg hinv)
    rw [List.sum_cons, ← Nat.add_assoc]
    exact h

/-- The first step after a write of a page `p` to `0xFF46` latches the request and
starts the transfer from `p * 256`. -/
theorem DmaProgress_first (E : Ext κ τ) (m : Machine κ τ) (g : Nat → Nat) (p c : Nat)
    (hon : m.ppu.LCDC &&& LCDC_ENABLE ≠ 0) (hdma : m.ppu.dma_active = false)
    (hacc : m.dma_cycle_counter = 0) (hp : p < 0x100)
    (hg : ∀ (m1 : Machine κ τ) (i : Nat), m1.ppu.dma_active = true →
      m1.bus.wram = m.bus.wram → i < 160 → dma_fetch E m1 ((p * 256 + i) % 0x10000) = g i) :
    DmaProgress m (display_cycle E (write_byte_bus E m 0xFF46 p) (c : Int)) g (p * 256) c := by
  rw [write_dma_register E m p hdma]
  set m1 : Machine κ τ := { m with ppu := { m.ppu with DMA := p, dma_pending := true } } with hm1
  have hon1 : m1.ppu.LCDC &&& LCDC_ENABLE ≠ 0 := hon
  have hsrc : (p <<< 8) % 0x10000 = p * 256 := by
    rw [Nat.shiftLeft_eq]; omega
  set ml : Machine κ τ := { m1 with ppu := { (add_cycles m1 (c : Int)).ppu with
      dma_pending := false, dma_active := true, dma_counter := 0,
      dma_source := p * 256 } } with hml
  have hlatch : dma_latch (add_cycles m1 (c : Int)) = ml := by
    unfold dma_latch
    have hp : (add_cycles m1 (c : Int)).ppu.dma_pending = true := rfl
    have hd : (add_cycles m1 (c : Int)).ppu.DMA = p := rfl
    rw [hp, if_pos rfl, hd, hsrc]
    rfl
  have hinv0 : DmaProgress m ml g (p * 256) 0 := by
    refine ⟨rfl, rfl, rfl, ?_, ?_, ?_⟩
    · intro i; simp
    · intro _; exact ⟨rfl, rfl, rfl, hacc⟩
    · intro h; omega
  have hrun := DmaProgress_dma_run E m ml g (p * 256) 0 c hg hinv0
  rw [Nat.zero_add] at hrun
  obtain ⟨f1, f2, _, f4, f5, f6, f7, f8, f9⟩ := step_tail_fields E (dma_run E ml (c : Int))
  rw [display_cycle_on E m1 _ hon1, after_dma, hlatch]
  exact DmaProgress_of_fields m _ _ g _ _ hrun f1 f2 f4 f5 f6 f7 f8 f9

/-- What OAM holds once the steps after a write of the page `p` to `0xFF46` total
640 cycles: byte `i` is what the engine fetches at `p * 256 + i`. -/
theorem oam_dma_complete (E : Ext κ τ) (m : Machine κ τ) (g : Nat → Nat) (p : Nat)
    (cs : List Nat)
    (hon : m.ppu.LCDC &&& LCDC_ENABLE ≠ 0) (hdma : m.ppu.dma_active = false)
    (hrest : DmaAtRest m) (hp : p < 0x100) (h640 : 640 ≤ cs.sum)
    (hg : ∀ (m1 : Machine κ τ) (i : Nat), m1.ppu.dma_active = true →
      m1.bus.wram = m.bus.wram → i < 160 → dma_fetch E m1 ((p * 256 + i) % 0x10000) = g i) :
    (∀ i, i < 160 → (after_oam_dma E m p cs).bus.oam i = g i) ∧
    (after_oam_dma E m p cs).ppu.dma_active = false := by
  have hacc : m.dma_cycle_counter = 0 := hrest hdma
  cases cs with
  | nil => simp at h640
  | cons c cs =>
    have hfirst := DmaProgress_first E m g p c hon hdma hacc hp hg
    have hrun := DmaProgress_run E m g (p * 256) hon hg cs _ _ hfirst
    have hm : after_oam_dma E m p (c :: cs)
        = run_steps E (display_cycle E (write_byte_bus E m 0xFF46 p) (c : Int))
            (cs.map (fun c => (c : Int))) := rfl
    rw [← hm, ← List.sum_cons] at hrun
    obtain ⟨_, _, _, hoam, _, hdone⟩ := hrun
    refine ⟨?_, (hdone h640).1⟩
    intro i hi
    rw [hoam i, if_pos (by omega)]

/-- What the OAM-DMA engine fetches from a video RAM address: it asks the bus, and
the bus, finding the transfer active, answers `0xFF`. -/
theorem dma_fetch_vram (E : Ext κ τ) (m : Machine κ τ) (a : Nat)
    (hact : m.ppu.dma_active = true) (hlo : 0x8000 ≤ a) (hhi : a < 0xA000) :
    dma_fetch E m a = 0xFF := by
  have h1 : ¬ a < 0x8000 := by omega
  have h2 : a ≥ 0x8000 ∧ a < 0xA000 := ⟨hlo, hhi⟩
  simp only [dma_fetch, h1, h2, and_self, if_true, if_false]
  rw [read_vram E m a hlo hhi, hact, if_pos rfl]

/-- OAM-DMA from a video RAM page fills OAM with `0xFF`, whatever video RAM holds:
with the LCD enabled and no transfer active, after a write of a page `p` in
`0x80..0x9F` to `0xFF46` and steps totalling at least 640 cycles, `oam[i] = 0xFF`
for every `i < 160`. -/
theorem oam_dma_vram_ff (E : Ext κ τ) (m : Machine κ τ) (p : Nat) (cs : List Nat)
    (hon : m.ppu.LCDC &&& LCDC_ENABLE ≠ 0) (hdma : m.ppu.dma_active = false)
    (hrest : DmaAtRest m) (hp0 : 0x80 ≤ p) (hp1 : p ≤ 0x9F) (h640 : 640 ≤ cs.sum) :
    ∀ i, i < 160 → (after_oam_dma E m p cs).bus.oam i = 0xFF :=
  (oam_dma_complete E m (fun _ => 0xFF) p cs hon hdma hrest (by omega) h640
    (fun m1 i hact _ hi => by
      have hmod : (p * 256 + i) % 0x10000 = p * 256 + i := by omega
      rw [hmod]
      exact dma_fetch_vram E m1 _ hact (by omega) (by omega))).1

/-- OAM-DMA from a work RAM page `0xC0..0xDF` copies `wram[(p << 8) - 0xC000 + i]`,
without regard to `SVBK`: with the LCD enabled and no transfer active, after a
write of such a page to `0xFF46` and steps totalling at least 640 cycles. -/
theorem oam_dma_wram_flat (E : Ext κ τ) (m : Machine κ τ) (p : Nat) (cs : List Nat)
    (hon : m.ppu.LCDC &&& LCDC_ENABLE ≠ 0) (hdma : m.ppu.dma_active = false)
    (hrest : DmaAtRest m) (hp0 : 0xC0 ≤ p) (hp1 : p ≤ 0xDF) (h640 : 640 ≤ cs.sum) :
    ∀ i, i < 160 → (after_oam_dma E m p cs).bus.oam i = m.bus.wram (p * 256 + i - 0xC000) :=
  (oam_dma_complete E m (fun i => m.bus.wram (p * 256 + i - 0xC000)) p cs hon hdma hrest
    (by omega) h640
    (fun m1 i _ hw hi => by
      have hmod : (p * 256 + i) % 0x10000 = p * 256 + i := by omega
      rw [hmod, dma_fetch_wram E m1 _ (by omega) (by omega), hw])).1

/-- C23 (the code at the failing input). On the power-on machine with `0x42` at
`vram[0]` (LCD enabled, `VBK = 0`, no transfer active), a read of `0x8000` returns
`0x42`; after a write of `0x80` to `0xFF46` and 160 steps of 4 cycles, or one step
of 640 cycles, `oam[0]` is `0xFF`, not `0x42`. -/
theorem oam_dma_from_vram_reads_ff :
    powerOnVram42.ppu.LCDC &&& LCDC_ENABLE ≠ 0 ∧ powerOnVram42.ppu.dma_active = false ∧
    (List.replicate 160 4).sum = 640 ∧
    read_byte_bus idleExt powerOnVram42 (0x80 <<< 8) = 0x42 ∧
    powerOnVram42.bus.vram (vram_bank_index powerOnVram42.bus.VBK (0x80 <<< 8)) = 0x42 ∧
    (after_oam_dma idleExt powerOnVram42 0x80 (List.replicate 160 4)).bus.oam 0 = 0xFF ∧
    (after_oam_dma idleExt powerOnVram42 0x80 [640]).bus.oam 0 = 0xFF ∧
    (after_oam_dma idleExt powerOnVram42 0x80 (List.replicate 160 4)).bus.oam 0
      ≠ read_byte_bus idleExt powerOnVram42 (0x80 <<< 8) := by
  have hsum : (List.replicate 160 4 : List Nat).sum = 640 := by
    rw [List.sum_replicate, smul_eq_mul]
  have hread : read_byte_bus idleExt powerOnVram42 (0x80 <<< 8) = 0x42 :=
    (read_vram idleExt powerOnVram42 (0x80 <<< 8) (by decide) (by decide)).trans (by decide)
  have h1 := oam_dma_vram_ff idleExt powerOnVram42 0x80 (List.replicate 160 4) (by decide) rfl
    (fun _ => rfl) (by decide) (by decide) (by rw [hsum]) 0 (by decide)
  have h2 := oam_dma_vram_ff idleExt powerOnVram42 0x80 [640] (by decide) rfl
    (fun _ => rfl) (by decide) (by decide) (by decide) 0 (by decide)
  refine ⟨by decide, rfl, hsum, hread, by decide, h1, h2, ?_⟩
  rw [h1, hread]; decide

/-- C24 (the code at the failing input). On a CGB machine with `SVBK = 2` and
`0x42` at `wram[0x2000]` (LCD enabled, no transfer active), a read of `0xD000`
returns `wram[0x2000] = 0x42`; after a write of `0xD0` to `0xFF46` and 160 steps
of 4 cycles, `oam[0]` is `wram[0x1000] = 0`, the byte of bank 1. -/
theorem oam_dma_ignores_svbk :
    powerOnSvbk2.ppu.LCDC &&& LCDC_ENABLE ≠ 0 ∧ powerOnSvbk2.ppu.dma_active = false ∧
    powerOnSvbk2.bus.SVBK = 2 ∧ (List.replicate 160 4).sum = 640 ∧
    read_byte_bus idleExt powerOnSvbk2 (0xD0 <<< 8) = 0x42 ∧
    powerOnSvbk2.bus.wram (0x1000 + (max 1 (powerOnSvbk2.bus.SVBK &&& 7) - 1) * 0x1000
      + ((0xD0 <<< 8) + 0 - 0xD000)) = 0x42 ∧
    (after_oam_dma idleExt powerOnSvbk2 0xD0 (List.replicate 160 4)).bus.oam 0 = 0 ∧
    (after_oam_dma idleExt powerOnSvbk2 0xD0 (List.replicate 160 4)).bus.oam 0
      = powerOnSvbk2.bus.wram 0x1000 ∧
    (after_oam_dma idleExt powerOnSvbk2 0xD0 (List.replicate 160 4)).bus.oam 0
      ≠ read_byte_bus idleExt powerOnSvbk2 (0xD0 <<< 8) := by
  have hsum : (List.replicate 160 4 : List Nat).sum = 640 := by
    rw [List.sum_replicate, smul_eq_mul]
  have hread : read_byte_bus idleExt powerOnSvbk2 (0xD0 <<< 8) = 0x42 :=
    (read_wram_banked idleExt powerOnSvbk2 (0xD0 <<< 8) rfl (by decide) (by decide)).trans
      (by decide)
  have h1 := oam_dma_wram_flat idleExt powerOnSvbk2 0xD0 (List.replicate 160 4) (by decide) rfl
    (fun _ => rfl) (by decide) (by decide) (by rw [hsum]) 0 (by decide)
  have h0 : (after_oam_dma idleExt powerOnSvbk2 0xD0 (List.replicate 160 4)).bus.oam 0 = 0 :=
    h1.trans (by decide)
  refine ⟨by decide, rfl, rfl, hsum, hread, by decide, h0, h0.trans (by decide), ?_⟩
  rw [h0, hread]; decide

/-! ## C25: the tile number fetch of the scanline renderer -/

/-- The video RAM index of every address in `0x8000..0x9FFF` is
`offset + (VBK & 1) * 0x2000`, below 16 KiB. -/
theorem vram_index_lt (vbk addr : Nat) (hlo : 0x8000 ≤ addr) (hhi : addr ≤ 0x9FFF) :
    vram_bank_index vbk addr = addr - 0x8000 + (vbk &&& 0x01) * 0x2000 ∧
    addr - 0x8000 + (vbk &&& 0x01) * 0x2000 < 0x4000 := by
  have hb : vbk &&& 0x01 ≤ 1 := Nat.and_le_right
  unfold vram_bank_index
  simp only []
  omega

/-- A bus read of video RAM with no OAM-DMA active: the guard of `ppu_vram_read`
against indices from `0x4000` on never fires. -/
theorem read_vram_inactive (E : Ext κ τ) (m : Machine κ τ) (addr : Nat)
    (hdma : m.ppu.dma_active = false) (hlo : 0x8000 ≤ addr) (hhi : addr ≤ 0x9FFF) :
    read_byte_bus E m addr = m.bus.vram (addr - 0x8000 + (m.bus.VBK &&& 0x01) * 0x2000) := by
  obtain ⟨hidx, hlt⟩ := vram_index_lt m.bus.VBK addr hlo hhi
  rw [read_vram E m addr hlo (by omega), hdma, hidx]
  unfold ppu_vram_read
  rw [if_neg (by decide), if_neg (by omega)]


/-- The two ways the renderer reads a tile-map address `0x9800..0x9FFF`: the tile
number comes from `read_byte_bus`, which gives `0xFF` during OAM-DMA and otherwise
the byte of the bank that `VBK` selects; the attribute comes from `read_vram_bank`,
which reads the bank it is given. -/
theorem tile_map_fetch (E : Ext κ τ) (m : Machine κ τ) (a : Nat)
    (hlo : 0x9800 ≤ a) (hhi : a ≤ 0x9FFF) :
    read_byte_bus E m a
      = (if m.ppu.dma_active then 0xFF
         else m.bus.vram (a - 0x8000 + (m.bus.VBK &&& 0x01) * 0x2000)) ∧
    read_vram_bank m.bus a 0 = m.bus.vram (a - 0x8000) ∧
    read_vram_bank m.bus a 1 = m.bus.vram (a - 0x8000 + 0x2000) := by
  refine ⟨?_, ?_, ?_⟩
  · cases hdma : m.ppu.dma_active with
    | true =>
      rw [read_vram E m a (by omega) (by omega), hdma]
      rfl
    | false =>
      rw [read_vram_inactive E m a hdma (by omega) hhi]
      rfl
  · unfold read_vram_bank
    have h1 : (a + 0x10000 - 0x8000) % 0x10000 = a - 0x8000 := by omega
    have h2 : (a - 0x8000 + 0 * 0x2000) % 0x10000 = a - 0x8000 := by omega
    simp only [h1, h2]
    rw [if_neg (by omega)]
  · unfold read_vram_bank
    have h1 : (a + 0x10000 - 0x8000) % 0x10000 = a - 0x8000 := by omega
    have h2 : (a - 0x8000 + 1 * 0x2000) % 0x10000 = a - 0x8000 + 0x2000 := by omega
    simp only [h1, h2]
    rw [if_neg (by omega)]

set_option maxRecDepth 1000000 in
/-- C25 (the code at the failing input). On a CGB machine whose tile map names tile
0 for the top-left tile (the byte of VRAM bank 0 at `0x9800` is 0, the byte of
bank 1 there is the attribute `0x01`), one step of 456 cycles renders line 1 with
its first pixel in colour 0 of palette 1 (tile 0 is blank).  After the CPU has
selected `VBK = 1` the same step renders that pixel from tile 1, and during an
OAM-DMA transfer it renders it from tile `0xFF`: in both cases the pixel has
colour 1 of palette 1. -/
theorem renderer_tile_number_through_bus :
    read_vram_bank powerOnTiles.bus 0x9800 0 = 0x00 ∧
    read_vram_bank powerOnTiles.bus 0x9800 1 = 0x01 ∧
    (run_ops idleExt powerOnTiles [BusOp.step 456]).ppu.LY = 1 ∧
    (run_ops idleExt powerOnTiles [BusOp.step 456]).ppu.framebuffer (1 * GB_WIDTH + 0)
      = 0xFF000000 ||| cgb_2_rgb powerOnTiles.ppu.bg_pallete 1 0 ∧
    (run_ops idleExt powerOnTiles [BusOp.write 0xFF4F 0x01, BusOp.step 456]).bus.VBK = 1 ∧
    (run_ops idleExt powerOnTiles [BusOp.write 0xFF4F 0x01, BusOp.step 456]).ppu.framebuffer
        (1 * GB_WIDTH + 0)
      = 0xFF000000 ||| cgb_2_rgb powerOnTiles.ppu.bg_pallete 1 1 ∧
    (run_ops idleExt powerOnTiles [BusOp.write 0xFF46 0xC0, BusOp.step 456]).ppu.dma_active
      = true ∧
    (run_ops idleExt powerOnTiles [BusOp.write 0xFF46 0xC0, BusOp.step 456]).ppu.framebuffer
        (1 * GB_WIDTH + 0)
      = 0xFF000000 ||| cgb_2_rgb powerOnTiles.ppu.bg_pallete 1 1 ∧
    cgb_2_rgb powerOnTiles.ppu.bg_pallete 1 0 ≠ cgb_2_rgb powerOnTiles.ppu.bg_pallete 1 1 := by
  decide

/-! ## C26: DMG sprite priority -/

set_option maxRecDepth 1000000 in
/-- C26 (the code at the failing input). On a DMG, a sprite whose attribute bit 7 is
set lies over background colour id 1 at `x = 0` and colour id 0 at `x = 1` of
line 1, both of its pixels non-transparent and shown in shade 1 (`OBP0 = 0x04`).
With the power-on `BGP = 0xFC` the sprite pixel is hidden at `x = 0` and drawn at
`x = 1`, as the colour ids say.  With `BGP = 0x03`, which shows colour id 0 as
shade 3 and colour id 1 as shade 0, the same sprite pixel is drawn over colour
id 1 at `x = 0` and hidden behind colour id 0 at `x = 1`. -/
theorem dmg_sprite_priority_by_rgb :
    powerOnSprite.bus.is_cgb = false ∧ powerOnSprite.ppu.BGP = 0xFC ∧
    (run_ops idleExt powerOnSprite [BusOp.write 0xFF48 0x04, BusOp.step 456]).bg_color_ids 0
      = 1 ∧
    (run_ops idleExt powerOnSprite [BusOp.write 0xFF48 0x04, BusOp.step 456]).bg_color_ids 1
      = 0 ∧
    (run_ops idleExt powerOnSprite [BusOp.write 0xFF48 0x04, BusOp.step 456]).ppu.framebuffer
        (1 * GB_WIDTH + 0)
      = 0xFF000000 ||| powerOnSprite.ppu.pallete 3 ∧
    (run_ops idleExt powerOnSprite [BusOp.write 0xFF48 0x04, BusOp.step 456]).ppu.framebuffer
        (1 * GB_WIDTH + 1)
      = 0xFF000000 ||| powerOnSprite.ppu.pallete 1 ∧
    (run_ops idleExt powerOnSprite
        [BusOp.write 0xFF47 0x03, BusOp.write 0xFF48 0x04, BusOp.step 456]).bg_color_ids 0
      = 1 ∧
    (run_ops idleExt powerOnSprite
        [BusOp.write 0xFF47 0x03, BusOp.write 0xFF48 0x04, BusOp.step 456]).bg_color_ids 1
      = 0 ∧
    (run_ops idleExt powerOnSprite
        [BusOp.write 0xFF47 0x03, BusOp.write 0xFF48 0x04, BusOp.step 456]).ppu.framebuffer
        (1 * GB_WIDTH + 0)
      = 0xFF000000 ||| powerOnSprite.ppu.pallete 1 ∧
    (run_ops idleExt powerOnSprite
        [BusOp.write 0xFF47 0x03, BusOp.write 0xFF48 0x04, BusOp.step 456]).ppu.framebuffer
        (1 * GB_WIDTH + 1)
      = 0xFF000000 ||| powerOnSprite.ppu.pallete 3 ∧
    (0xFF000000 ||| powerOnSprite.ppu.pallete 1) ≠ (0xFF000000 ||| powerOnSprite.ppu.pallete 3) := by
  decide

/-! ## C27: the array indices of the bus -/

/-- The work RAM index of every address in `0xC000..0xFDFF` is below 32 KiB. -/
theorem wram_index_lt (svbk addr : Nat) (hlo : 0xC000 ≤ addr) (hhi : addr ≤ 0xFDFF) :
    wram_index svbk addr < 0x8000 := by
  have h7 := and7_le svbk
  have hb : ∀ off, off < 0x1000 → wram_bank_index svbk off < 0x8000 := by
    intro off hoff
    rw [wram_bank_index_eq svbk off hoff]
    have : max 1 (svbk &&& 7) ≤ 7 := max_le (by decide) h7
    omega
  unfold wram_index
  split_ifs
  · omega
  · exact hb _ (by omega)
  · omega
  · exact hb _ (by omega)

/-- A bus write to work RAM or its echo with no OAM-DMA active: a point update of
`wram` at the index a read of the same address uses. -/
theorem write_wram (E : Ext κ τ) (m : Machine κ τ) (addr v : Nat)
    (hdma : m.ppu.dma_active = false) (hlo : 0xC000 ≤ addr) (hhi : addr ≤ 0xFDFF) :
    write_byte_bus E m addr v
      = { m with bus := { m.bus with
            wram := m.bus.wram.set (wram_index m.bus.SVBK addr) v } } := by
  have h1 : ¬ addr < 0x8000 := by omega
  have h2 : ¬ addr ≤ 0x9FFF := by omega
  have h3 : ¬ (addr ≥ 0xA000 ∧ addr ≤ 0xBFFF) := by omega
  by_cases hc : addr ≤ 0xCFFF
  · have h4 : addr ≥ 0xC000 ∧ addr ≤ 0xCFFF := ⟨hlo, hc⟩
    simp only [write_byte_bus, write_byte_bus_body, wram_index, hdma, h1, h2, h3, h4, hc,
      if_false, if_true, and_self, and_false, Bool.false_eq_true]
  · have h4 : ¬ (addr ≥ 0xC000 ∧ addr ≤ 0xCFFF) := by omega
    by_cases hd : addr ≤ 0xDFFF
    · have h5 : addr ≥ 0xD000 ∧ addr ≤ 0xDFFF := ⟨by omega, hd⟩
      simp only [write_byte_bus, write_byte_bus_body, wram_index, hdma, h1, h2, h3, h4, h5, hc,
        hd, if_false, if_true, and_self, and_false, Bool.false_eq_true]
    · have h5 : ¬ (addr ≥ 0xD000 ∧ addr ≤ 0xDFFF) := by omega
      by_cases he : addr ≤ 0xEFFF
      · have h6 : addr ≥ 0xE000 ∧ addr ≤ 0xEFFF := ⟨by omega, he⟩
        simp only [write_byte_bus, write_byte_bus_body, wram_index, hdma, h1, h2, h3, h4, h5,
          h6, hc, hd, he, if_false, if_true, and_self, and_false, Bool.false_eq_true]
      · have h6 : ¬ (addr ≥ 0xE000 ∧ addr ≤ 0xEFFF) := by omega
        have h7 : addr ≥ 0xF000 ∧ addr ≤ 0xFDFF := ⟨by omega, hhi⟩
        simp only [write_byte_bus, write_byte_bus_body, wram_index, hdma, h1, h2, h3, h4, h5,
          h6, h7, hc, hd, he, if_false, if_true, and_self, and_false, Bool.false_eq_true]

/-- A bus access to OAM (`0xFE00..0xFE9F`) with no OAM-DMA active. -/
theorem access_oam (E : Ext κ τ) (m : Machine κ τ) (addr v : Nat)
    (hdma : m.ppu.dma_active = false) (hlo : 0xFE00 ≤ addr) (hhi : addr ≤ 0xFE9F) :
    read_byte_bus E m addr = m.bus.oam (addr - 0xFE00) ∧
    write_byte_bus E m addr v
      = { m with bus := { m.bus with oam := m.bus.oam.set (addr - 0xFE00) v } } := by
  have hb := bootrom_overlay_none m.bus addr (by omega)
  have h1 : ¬ addr < 0x8000 := by omega
  have h2 : ¬ addr ≤ 0x9FFF := by omega
  have h3 : ¬ (addr ≥ 0xA000 ∧ addr ≤ 0xBFFF) := by omega
  have h4 : ¬ (addr ≥ 0xC000 ∧ addr ≤ 0xCFFF) := by omega
  have h5 : ¬ (addr ≥ 0xD000 ∧ addr ≤ 0xDFFF) := by omega
  have h6 : ¬ (addr ≥ 0xE000 ∧ addr ≤ 0xEFFF) := by omega
  have h7 : ¬ (addr ≥ 0xF000 ∧ addr ≤ 0xFDFF) := by omega
  have h8 : addr ≥ 0xFE00 ∧ addr ≤ 0xFE9F := ⟨hlo, hhi⟩
  constructor
  · simp only [read_byte_bus, hdma, hb, h1, h2, h3, h4, h5, h6, h7, h8, if_false, if_true,
      and_self, Bool.false_eq_true]
  · simp only [write_byte_bus, write_byte_bus_body, hdma, h1, h2, h3, h4, h5, h6, h7, h8,
      if_false, if_true, and_self, Bool.false_eq_true]

/-- A bus access to HRAM (`0xFF80..0xFFFE`), whether or not OAM-DMA is active. -/
theorem access_hram (E : Ext κ τ) (m : Machine κ τ) (addr v : Nat)
    (hlo : 0xFF80 ≤ addr) (hhi : addr ≤ 0xFFFE) :
    read_byte_bus E m addr = m.bus.hram (addr - 0xFF80) ∧
    write_byte_bus E m addr v
      = { m with bus := { m.bus with hram := m.bus.hram.set (addr - 0xFF80) v } } := by
  have h0 : addr ≥ 0xFF80 ∧ addr ≤ 0xFFFE := ⟨hlo, hhi⟩
  cases hdma : m.ppu.dma_active with
  | true =>
    constructor
    · simp only [read_byte_bus, hdma, if_true, h0, and_self]
    · simp only [write_byte_bus, write_byte_bus_body, hdma, if_true, h0, and_self]
  | false =>
    have hb := bootrom_overlay_none m.bus addr (by omega)
    have h1 : ¬ addr < 0x8000 := by omega
    have h2 : ¬ addr ≤ 0x9FFF := by omega
    have h3 : ¬ (addr ≥ 0xA000 ∧ addr ≤ 0xBFFF) := by omega
    have h4 : ¬ (addr ≥ 0xC000 ∧ addr ≤ 0xCFFF) := by omega
    have h5 : ¬ (addr ≥ 0xD000 ∧ addr ≤ 0xDFFF) := by omega
    have h6 : ¬ (addr ≥ 0xE000 ∧ addr ≤ 0xEFFF) := by omega
    have h7 : ¬ (addr ≥ 0xF000 ∧ addr ≤ 0xFDFF) := by omega
    have h8 : ¬ (addr ≥ 0xFE00 ∧ addr ≤ 0xFE9F) := by omega
    have h9 : ¬ (addr ≥ 0xFEA0 ∧ addr ≤ 0xFEFF) := by omega
    have hrs : read_switch E m addr = none := by
      have hac : audio_case addr = false := by
        cases hc : audio_case addr with
        | false => rfl
        | true => have := ((audio_case_iff addr).1 hc).1; omega
      simp only [read_switch, hac, Bool.false_eq_true, if_false]
      repeat (first | rfl | rw [if_neg (by omega)])
    have hws : write_switch (write_byte_bus_leaf E) E m addr v = none := by
      have hac : audio_case addr = false := by
        cases hc : audio_case addr with
        | false => rfl
        | true => have := ((audio_case_iff addr).1 hc).1; omega
      simp only [write_switch, hac, Bool.false_eq_true, if_false]
      repeat (first | rfl | rw [if_neg (by omega)])
    constructor
    · simp only [read_byte_bus, hdma, hb, h1, h2, h3, h4, h5, h6, h7, h8, h9, hrs, h0, if_false,
        if_true, and_self, Bool.false_eq_true]
    · simp only [write_byte_bus, write_byte_bus_body, hdma, h1, h2, h3, h4, h5, h6, h7, h8, h9,
        hws, h0, if_false, if_true, and_self, Bool.false_eq_true]

/-- The palette data registers with no OAM-DMA active: reads and writes index the
palettes at `BCPS & 0x3F` and `OCPS & 0x3F`. -/
theorem access_palettes (E : Ext κ τ) (m : Machine κ τ) (v : Nat)
    (hdma : m.ppu.dma_active = false) :
    read_byte_bus E m 0xFF69 = m.ppu.bg_pallete (m.ppu.BCPS &&& 0x3F) ∧
    read_byte_bus E m 0xFF6B = m.ppu.obj_pallete (m.ppu.OCPS &&& 0x3F) ∧
    (write_byte_bus E m 0xFF69 v).ppu.bg_pallete
      = m.ppu.bg_pallete.set (m.ppu.BCPS &&& 0x3F) v ∧
    (write_byte_bus E m 0xFF6B v).ppu.obj_pallete
      = m.ppu.obj_pallete.set (m.ppu.OCPS &&& 0x3F) v := by
  refine ⟨?_, ?_, ?_, ?_⟩
  · rw [read_mmio E m _ hdma (by decide) (by decide)]
    simp [read_switch, audio_case]
  · rw [read_mmio E m _ hdma (by decide) (by decide)]
    simp [read_switch, audio_case]
  · rw [write_bcpd E m v hdma]
  · rw [write_mmio E m _ v hdma (by decide) (by decide)]
    simp [write_switch, audio_case]

/-- C27. Every backing-array index that `read_byte_bus` and `write_byte_bus` compute
is in bounds, for every address and every register state: an access in
`0xC000..0xFDFF` uses `wram` at an index below `0x8000`; an access in
`0x8000..0x9FFF` uses `vram` at `offset + (VBK & 1) * 0x2000`, below `0x4000`, so
that the out-of-range guard of `ppu_vram_read` and `ppu_vram_write` is never
taken; an access in `0xFE00..0xFE9F` uses `oam` below 160; an access in
`0xFF80..0xFFFE` uses `hram` below 127; an access to an audio register uses
`audio_regs` below `0x30`; the palette data registers use the palettes at
`BCPS & 0x3F` and `OCPS & 0x3F`, below 64.  While OAM-DMA is active only the `hram`
access is made. -/
theorem bus_indices_in_bounds (E : Ext κ τ) (m : Machine κ τ) (a v : Nat) :
    (0xC000 ≤ a → a ≤ 0xFDFF →
      wram_index m.bus.SVBK a < 0x8000 ∧
      (m.ppu.dma_active = false →
        read_byte_bus E m a = m.bus.wram (wram_index m.bus.SVBK a) ∧
        write_byte_bus E m a v
          = { m with bus := { m.bus with
                wram := m.bus.wram.set (wram_index m.bus.SVBK a) v } })) ∧
    (0x8000 ≤ a → a ≤ 0x9FFF →
      a - 0x8000 + (m.bus.VBK &&& 0x01) * 0x2000 < 0x4000 ∧
      (m.ppu.dma_active = false →
        read_byte_bus E m a = m.bus.vram (a - 0x8000 + (m.bus.VBK &&& 0x01) * 0x2000) ∧
        write_byte_bus E m a v
          = { m with bus := { m.bus with
                vram := m.bus.vram.set (a - 0x8000 + (m.bus.VBK &&& 0x01) * 0x2000) v } })) ∧
    (0xFE00 ≤ a → a ≤ 0xFE9F →
      a - 0xFE00 < 160 ∧
      (m.ppu.dma_active = false →
        read_byte_bus E m a = m.bus.oam (a - 0xFE00) ∧
        write_byte_bus E m a v
          = { m with bus := { m.bus with oam := m.bus.oam.set (a - 0xFE00) v } })) ∧
    (0xFF80 ≤ a → a ≤ 0xFFFE →
      a - 0xFF80 < 127 ∧
      read_byte_bus E m a = m.bus.hram (a - 0xFF80) ∧
      write_byte_bus E m a v
        = { m with bus := { m.bus with hram := m.bus.hram.set (a - 0xFF80) v } }) ∧
    (audio_case a = true →
      a - 0xFF10 < 0x30 ∧
      (m.ppu.dma_active = false →
        read_byte_bus E m a = m.bus.audio_regs (a - 0xFF10) ∧
        write_byte_bus E m a v
          = { m with bus := { m.bus with
                audio_regs := m.bus.audio_regs.set (a - 0xFF10) v } })) ∧
    (m.ppu.BCPS &&& 0x3F < 64 ∧ m.ppu.OCPS &&& 0x3F < 64 ∧
      (m.ppu.dma_active = false →
        read_byte_bus E m 0xFF69 = m.ppu.bg_pallete (m.ppu.BCPS &&& 0x3F) ∧
        read_byte_bus E m 0xFF6B = m.ppu.obj_pallete (m.ppu.OCPS &&& 0x3F) ∧
        (write_byte_bus E m 0xFF69 v).ppu.bg_pallete
          = m.ppu.bg_pallete.set (m.ppu.BCPS &&& 0x3F) v ∧
        (write_byte_bus E m 0xFF6B v).ppu.obj_pallete
          = m.ppu.obj_pallete.set (m.ppu.OCPS &&& 0x3F) v)) ∧
    (m.ppu.dma_active = true → ¬ (0xFF80 ≤ a ∧ a ≤ 0xFFFE) →
      read_byte_bus E m a = 0xFF ∧ write_byte_bus E m a v = m) := by
  refine ⟨?_, ?_, ?_, ?_, ?_, ?_, ?_⟩
  · intro hlo hhi
    exact ⟨wram_index_lt _ a hlo hhi, fun hdma =>
      ⟨read_wram E m a hdma hlo hhi, write_wram E m a v hdma hlo hhi⟩⟩
  · intro hlo hhi
    exact ⟨(vram_index_lt m.bus.VBK a hlo hhi).2, fun hdma =>
      ⟨read_vram_inactive E m a hdma hlo hhi,
        write_vram_inactive E m a v hdma hlo (by omega)⟩⟩
  · intro hlo hhi
    exact ⟨by omega, fun hdma => access_oam E m a v hdma hlo hhi⟩
  · intro hlo hhi
    exact ⟨by omega, access_hram E m a v hlo hhi⟩
  · intro hc
    obtain ⟨⟨hlo, hhi⟩, _⟩ := (audio_case_iff a).1 hc
    refine ⟨by omega, fun hdma => ⟨?_, ?_⟩⟩
    · rw [read_mmio E m a hdma (by omega) (by omega), read_switch_audio E m a hc]
      rfl
    · rw [write_mmio E m a v hdma (by omega) (by omega), write_switch_audio _ E m a v hc]
      rfl
  · exact ⟨Nat.lt_of_le_of_lt Nat.and_le_right (by decide),
      Nat.lt_of_le_of_lt Nat.and_le_right (by decide), fun hdma => access_palettes E m v hdma⟩
  · intro hdma hout
    have hout2 : ¬ (a ≥ 0xFF80 ∧ a ≤ 0xFFFE) := hout
    constructor
    · simp only [read_byte_bus, hdma, if_true, hout2, if_false, ite_self]
    · exact write_dropped_during_dma E m a v hdma hout2

end StandardGB
